import Mathlib

/-! linuxptp daemon: profile application, configuration injection and scheduling

A shallow embedding of `pkg/daemon/daemon/daemon.go` (ptp-operator) together with
the properties of its specification that concern the profile-application path:
`addScheduling`, the per-role loop of `applyNodePtpProfile`, and
`applyNodePTPProfiles`.

Conventions of the embedding.

* Go `*string` / `*int64` fields are `Option String` / `Option Int`; `nil` is `none`.
* Go `map[string]string` is an association list read with `mapGet` and written with
  `mapSet`; only lookups are observable, as in Go.
* The receiver `dn *Daemon` and the file system are passed explicitly; side effects
  that leave the process (hook calls, stops, goroutine launches) are appended to an
  event log.
* `config.go` (`populatePtp4lConf`, `addFlagsForMonitor`, `renderPtp4lConf`) is not
  part of the sources at hand: the three operations are parameters (`ConfigOps`).
-/

namespace PtpDaemon

/-! ## Go library functions used by the daemon -/

/-- Rendering of `%d` by `fmt.Sprintf` for a non-negative integer. -/
def sprintNat (n : Nat) : String := Nat.repr n

/-- Rendering of `%d` by `fmt.Sprintf` for a signed integer. -/
def sprintInt : Int → String
  | Int.ofNat n => Nat.repr n
  | Int.negSucc n => "-" ++ Nat.repr (n + 1)

/-- Splitting of a character list at every occurrence of `sep`; the result is never empty. -/
def splitList (sep : Char) : List Char → List (List Char)
  | [] => [[]]
  | c :: cs =>
    if c = sep then [] :: splitList sep cs
    else
      match splitList sep cs with
      | [] => [[c]]
      | h :: t => (c :: h) :: t

/-- Go `strings.Split(s, sep)` for a one-character separator. -/
def stringsSplit (s : String) (sep : Char) : List String :=
  (splitList sep s.data).map String.mk

/-- Go map read `m[k]` with the comma-ok result. -/
def mapGet (m : List (String × String)) (k : String) : Option String :=
  match m with
  | [] => none
  | (k1, v1) :: rest => if k1 = k then some v1 else mapGet rest k

/-- Go map write `m[k] = v`: the binding of `k` is overwritten, or added when absent. -/
def mapSet (m : List (String × String)) (k v : String) : List (String × String) :=
  match m with
  | [] => [(k, v)]
  | (k1, v1) :: rest => if k1 = k then (k, v) :: rest else (k1, v1) :: mapSet rest k v

/-! ## Data model -/

/-- The fields of `ptpv1.PtpProfile` read by the daemon (see `printNodeProfile`). -/
structure PtpProfile where
  Name : Option String
  Interface : Option String
  Ptp4lOpts : Option String
  Ptp4lConf : Option String
  Phc2sysOpts : Option String
  Phc2sysConf : Option String
  Ts2PhcOpts : Option String
  Ts2PhcConf : Option String
  PtpSchedulingPolicy : Option String
  PtpSchedulingPriority : Option Int
  PtpSettings : List (String × String)
  deriving DecidableEq, Repr

/-- The three supervised roles, the elements of `ptp_processes`. -/
inductive Role where
  | ts2phc
  | ptp4l
  | phc2sys
  deriving DecidableEq, Repr

/-- The string that stands for a role in the source. -/
def Role.name : Role → String
  | .ts2phc => "ts2phc"
  | .ptp4l => "ptp4l"
  | .phc2sys => "phc2sys"

/-- The slice `ptp_processes` of `applyNodePtpProfile`, in source order. -/
def ptp_processes : List Role := [.ts2phc, .ptp4l, .phc2sys]

/-! ## addScheduling -/

/-- Embedding of `addScheduling` (daemon.go 354-371). -/
def addScheduling (nodeProfile : PtpProfile) (cmdLine : String) : String :=
  if nodeProfile.PtpSchedulingPolicy = some "SCHED_FIFO" then
    match nodeProfile.PtpSchedulingPriority with
    | none => cmdLine
    | some priority =>
      if priority < 1 ∨ priority > 65 then cmdLine
      else "/bin/chrt -f " ++ sprintInt priority ++ " " ++ cmdLine
  else cmdLine

/-- The command line of daemon.go 318: `Sprintf("/usr/sbin/%s -f %s  %s ", p, configPath, opts)`. -/
def baseCmdLine (p : Role) (configPath configOpts : String) : String :=
  "/usr/sbin/" ++ p.name ++ " -f " ++ configPath ++ "  " ++ configOpts ++ " "

/-! ## Rendered configuration (types used by daemon.go; operations of config.go) -/

/-- The struct `ptp4lConfSection`, as built at daemon.go 295. -/
structure ptp4lConfSection where
  sectionName : String
  options : List (String × String)
  deriving DecidableEq, Repr

/-- The struct `ptp4lConf`, with the two fields daemon.go touches. -/
structure ptp4lConf where
  sections : List ptp4lConfSection
  profile_name : String
  deriving DecidableEq, Repr

/-- The three operations of config.go called by `applyNodePtpProfile`; their bodies are not
part of the sources, so every result below holds for all of them.  `populatePtp4lConf`
fills a fresh `ptp4lConf` or fails; `addFlagsForMonitor` may rewrite the option string it
is handed by pointer and the configuration; `renderPtp4lConf` yields the text and the
comma-joined interface list. -/
structure ConfigOps where
  populatePtp4lConf : Option String → Except String ptp4lConf
  addFlagsForMonitor : Role → String → ptp4lConf → String × ptp4lConf
  renderPtp4lConf : ptp4lConf → String × String

/-! ## The per-role variables of `applyNodePtpProfile` (switch at daemon.go 252-278) -/

/-- Variable `socketPath` after the switch. -/
def socketPath : Role → Nat → String
  | .ptp4l, runID => "/var/run/ptp4l." ++ sprintNat runID ++ ".socket"
  | .phc2sys, runID => "/var/run/ptp4l." ++ sprintNat runID ++ ".socket"
  | .ts2phc, runID => "/var/run/ptp4l." ++ sprintNat runID ++ ".socket"

/-- Variable `configFile` after the switch. -/
def configFile : Role → Nat → String
  | .ptp4l, runID => "ptp4l." ++ sprintNat runID ++ ".config"
  | .phc2sys, runID => "phc2sys." ++ sprintNat runID ++ ".config"
  | .ts2phc, runID => "ts2phc." ++ sprintNat runID ++ ".config"

/-- Variable `configPath` after the switch: `Sprintf("/var/run/%s", configFile)`. -/
def configPath (p : Role) (runID : Nat) : String :=
  "/var/run/" ++ configFile p runID

/-- Variable `messageTag` after the switch. -/
def messageTag : Role → Nat → String
  | .ptp4l, runID => "[ptp4l." ++ sprintNat runID ++ ".config]"
  | .phc2sys, runID => "[ptp4l." ++ sprintNat runID ++ ".config]"
  | .ts2phc, runID => "[ts2phc." ++ sprintNat runID ++ ".config]"

/-- Variable `configInput` after the switch. -/
def configInput (nodeProfile : PtpProfile) : Role → Option String
  | .ptp4l => nodeProfile.Ptp4lConf
  | .phc2sys => nodeProfile.Phc2sysConf
  | .ts2phc => nodeProfile.Ts2PhcConf

/-- Variable `configOpts` after the switch; for ptp4l a nil pointer is replaced by a
pointer to the one-blank string. -/
def configOpts (nodeProfile : PtpProfile) : Role → Option String
  | .ptp4l =>
    match nodeProfile.Ptp4lOpts with
    | none => some " "
    | some o => some o
  | .phc2sys => nodeProfile.Phc2sysOpts
  | .ts2phc => nodeProfile.Ts2PhcOpts

/-- The test of daemon.go 280: `configOpts == nil || *configOpts == ""`. -/
def skipsRole (nodeProfile : PtpProfile) (p : Role) : Bool :=
  match configOpts nodeProfile p with
  | none => true
  | some o => decide (o = "")

/-- Effect of a write through the pointer `configOpts` (done by `addFlagsForMonitor`):
the profile's own string changes when the pointer came from the profile. -/
def storeOpts (nodeProfile : PtpProfile) (p : Role) (v : String) : PtpProfile :=
  match p with
  | .ptp4l =>
    match nodeProfile.Ptp4lOpts with
    | none => nodeProfile
    | some _ => { nodeProfile with Ptp4lOpts := some v }
  | .phc2sys =>
    match nodeProfile.Phc2sysOpts with
    | none => nodeProfile
    | some _ => { nodeProfile with Phc2sysOpts := some v }
  | .ts2phc =>
    match nodeProfile.Ts2PhcOpts with
    | none => nodeProfile
    | some _ => { nodeProfile with Ts2PhcOpts := some v }

/-- Statement `if configInput != nil { *configInput = configOutput }` (daemon.go 314-316). -/
def storeConfigInput (nodeProfile : PtpProfile) (p : Role) (v : String) : PtpProfile :=
  match p with
  | .ptp4l =>
    match nodeProfile.Ptp4lConf with
    | none => nodeProfile
    | some _ => { nodeProfile with Ptp4lConf := some v }
  | .phc2sys =>
    match nodeProfile.Phc2sysConf with
    | none => nodeProfile
    | some _ => { nodeProfile with Phc2sysConf := some v }
  | .ts2phc =>
    match nodeProfile.Ts2PhcConf with
    | none => nodeProfile
    | some _ => { nodeProfile with Ts2PhcConf := some v }

/-! ## Interface section and global-key injection (daemon.go 294-307) -/

/-- The section literal prepended at daemon.go 295. -/
def interfaceSection (iface : String) : ptp4lConfSection :=
  { sectionName := "[" ++ iface ++ "]", options := [] }

/-- The if/else of daemon.go 294-299: a non-empty interface name prepends its section;
otherwise the profile's `Interface` pointer is set to the empty string. -/
def interfaceStep (nodeProfile : PtpProfile) (output : ptp4lConf) : ptp4lConf × PtpProfile :=
  match nodeProfile.Interface with
  | some iface =>
    if iface ≠ "" then
      ({ output with sections := interfaceSection iface :: output.sections }, nodeProfile)
    else (output, { nodeProfile with Interface := some "" })
  | none => (output, { nodeProfile with Interface := some "" })

/-- Body of the loop of daemon.go 301-307 for one section. -/
def injectSection (tag sock : String) (sec : ptp4lConfSection) : ptp4lConfSection :=
  if sec.sectionName = "[global]" then
    { sec with options := mapSet (mapSet sec.options "message_tag" tag) "uds_address" sock }
  else sec

/-- The loop of daemon.go 301-307 over `output.sections`. -/
def injectGlobal (tag sock : String) (sections : List ptp4lConfSection) : List ptp4lConfSection :=
  sections.map (injectSection tag sock)

/-- The configuration after daemon.go 292-307 for role `p` of a profile with a name, from
the result `parsed` of `populatePtp4lConf`: profile name, interface section, injection. -/
def injectedConf (p : Role) (runID : Nat) (nodeProfile : PtpProfile) (name : String)
    (parsed : ptp4lConf) : ptp4lConf :=
  let named : ptp4lConf := { parsed with profile_name := name }
  let withIface := (interfaceStep nodeProfile named).1
  { withIface with
    sections := injectGlobal (messageTag p runID) (socketPath p runID) withIface.sections }

/-- The configuration handed to `renderPtp4lConf` (daemon.go 310-312): `injectedConf` after
`addFlagsForMonitor`.  The second component is the option string the hook leaves. -/
def renderInput (ops : ConfigOps) (p : Role) (runID : Nat) (nodeProfile : PtpProfile)
    (name opts : String) (parsed : ptp4lConf) : ptp4lConf × String :=
  let flagged := ops.addFlagsForMonitor p opts (injectedConf p runID nodeProfile name parsed)
  (flagged.2, flagged.1)

/-- Modelled from the spec: the contract of `populatePtp4lConf` of config.go (absent from
the sources), section 4.1: the parser locates or requires the global section and a config
without one is an error, so whenever it succeeds the parsed sections hold one named
`[global]`. -/
def RequiresGlobal (ops : ConfigOps) : Prop :=
  ∀ (config : Option String) (parsed : ptp4lConf),
    ops.populatePtp4lConf config = Except.ok parsed →
      ∃ s ∈ parsed.sections, s.sectionName = "[global]"

/-- Modelled from the spec: the contract of `addFlagsForMonitor` of config.go (absent from
the sources), section 4.1: it works on the options of the global section only, so the
section names, their order and every section not named `[global]` are as before. -/
def HookKeepsSections (ops : ConfigOps) : Prop :=
  ∀ (p : Role) (opts : String) (conf : ptp4lConf),
    ((ops.addFlagsForMonitor p opts conf).2.sections.map (fun s => s.sectionName)
        = conf.sections.map (fun s => s.sectionName)) ∧
    ∀ (i : Nat) (s : ptp4lConfSection), conf.sections[i]? = some s →
      s.sectionName ≠ "[global]" → (ops.addFlagsForMonitor p opts conf).2.sections[i]? = some s

/-! ## Process descriptors, daemon state and observable effects -/

/-- The value `*exec.Cmd`: its argument vector and, once started, the process id. -/
structure Cmd where
  Args : List String
  Process : Option Nat
  deriving DecidableEq, Repr

/-- Go `exec.Command(name, arg...)`: `Args` is `name` followed by `arg`. -/
def execCommand (name : String) (arg : List String) : Cmd :=
  { Args := name :: arg, Process := none }

/-- The struct `ptpProcess` (the channel `exitCh` and the mutex carry no data). -/
structure ptpProcess where
  name : String
  ifaces : List String
  ptp4lSocketPath : String
  ptp4lConfigPath : String
  configName : String
  messageTag : String
  stopped : Bool
  logFilterRegex : String
  cmd : Option Cmd
  deriving DecidableEq, Repr

/-- The struct `ptpv1.HwConfig` (the JSON payload `Config` is kept as text). -/
structure HwConfig where
  DeviceID : String
  VendorID : String
  Failed : Bool
  Status : String
  Config : Option String
  deriving DecidableEq, Repr

/-- A registered plugin: its name and its `PopulateHwConfig` hook as a function on the
shared list.  `OnPTPConfigChange` acts outside the daemon state and is recorded as an event. -/
structure Plugin where
  Name : String
  PopulateHwConfig : List HwConfig → List HwConfig

/-- Effects of the daemon that are visible outside its own state, in program order. -/
inductive Event where
  | onPTPConfigChange (plugin : String) (profile : PtpProfile)
  | populateHwConfig (plugin : String)
  | setStopped (configPath : String)
  | signalTerm (pid : Nat)
  | removeFile (path : String)
  | awaitExit (configPath : String)
  | writeFile (path : String) (content : String)
  | goCmdRun (p : ptpProcess)
  deriving DecidableEq, Repr

/-- The struct `Daemon` with what it points to: the process group of the process manager,
the hardware-config list, the profiles of `ptpUpdate`, the plugins of the plugin manager
(in the order the map iteration visits them), the config files on disk and the event log. -/
structure Daemon where
  process : List ptpProcess
  hwconfigs : List HwConfig
  nodeProfiles : List PtpProfile
  plugins : List Plugin
  files : List (String × String)
  log : List Event

/-- What the daemon is run with: the operations of config.go and, for each path, whether
`ioutil.WriteFile` fails on it. -/
structure Env where
  ops : ConfigOps
  writeFails : String → Bool

/-- The ways an apply stops early: the two returned errors, and the run-time panics its
expressions could raise (`*nodeProfile.Name`, `p.cmd.Process.Pid`, `args[0]`). -/
inductive ApplyError where
  | parse (msg : String)
  | writeFile (configPath : String)
  | nilDereference
  | indexOutOfRange
  deriving DecidableEq, Repr

/-- ASCII lower-casing, standing for `strings.ToLower`. -/
def toLowerAscii (s : String) : String := String.mk (s.data.map Char.toLower)

/-- Embedding of `getLogFilterRegex` (daemon.go 195-209). -/
def getLogFilterRegex (nodeProfile : PtpProfile) : String :=
  let logFilterRegex :=
    match mapGet nodeProfile.PtpSettings "stdoutFilter" with
    | some filter => filter
    | none => "^$"
  match mapGet nodeProfile.PtpSettings "logReduce" with
  | some logReduce =>
    if toLowerAscii logReduce = "true" then logFilterRegex ++ "|^.*master offset.*$"
    else logFilterRegex
  | none => logFilterRegex

/-- Embedding of `PluginManager.OnPTPConfigChange` (plugin.go 42-46). -/
def OnPTPConfigChange (dn : Daemon) (nodeProfile : PtpProfile) : Daemon :=
  { dn with log := dn.log ++ dn.plugins.map (fun pl => Event.onPTPConfigChange pl.Name nodeProfile) }

/-- Embedding of `PluginManager.PopulateHwConfig` (plugin.go 48-52). -/
def PopulateHwConfig (dn : Daemon) : Daemon :=
  { dn with
    hwconfigs := dn.plugins.foldl (fun hw pl => pl.PopulateHwConfig hw) dn.hwconfigs
    log := dn.log ++ dn.plugins.map (fun pl => Event.populateHwConfig pl.Name) }

/-! ## applyNodePtpProfile -/

/-- One iteration of the loop of `applyNodePtpProfile` (daemon.go 250-347) for role `p`.
The result is the state reached and the error, if the function returns at this role. -/
def applyRole (env : Env) (runID : Nat) (dn : Daemon) (nodeProfile : PtpProfile) (p : Role) :
    (Daemon × PtpProfile) × Option ApplyError :=
  match configOpts nodeProfile p with
  | none => ((dn, nodeProfile), none)
  | some opts =>
    if opts = "" then ((dn, nodeProfile), none)
    else
      match env.ops.populatePtp4lConf (configInput nodeProfile p) with
      | .error e => ((dn, nodeProfile), some (.parse e))
      | .ok parsed =>
        match nodeProfile.Name with
        | none => ((dn, nodeProfile), some .nilDereference)
        | some name =>
          let named : ptp4lConf := { parsed with profile_name := name }
          let profile1 := (interfaceStep nodeProfile named).2
          let flagged := renderInput env.ops p runID nodeProfile name opts parsed
          let profile2 := storeOpts profile1 p flagged.2
          let rendered := env.ops.renderPtp4lConf flagged.1
          let profile3 := storeConfigInput profile2 p rendered.1
          let cmdLine := addScheduling profile3 (baseCmdLine p (configPath p runID) flagged.2)
          match stringsSplit cmdLine ' ' with
          | [] => ((dn, profile3), some .indexOutOfRange)
          | arg0 :: args =>
            let process : ptpProcess :=
              { name := p.name
                ifaces := stringsSplit rendered.2 ','
                ptp4lConfigPath := configPath p runID
                ptp4lSocketPath := socketPath p runID
                configName := configFile p runID
                messageTag := messageTag p runID
                stopped := false
                logFilterRegex := getLogFilterRegex profile3
                cmd := some (execCommand arg0 args) }
            if env.writeFails (configPath p runID) then
              ((dn, profile3), some (.writeFile (configPath p runID)))
            else
              (({ dn with
                  files := mapSet dn.files (configPath p runID) rendered.1
                  log := dn.log ++ [Event.writeFile (configPath p runID) rendered.1]
                  process := dn.process ++ [process] }, profile3), none)

/-- The loop `for _, p := range ptp_processes` with its early returns. -/
def applyRoles (env : Env) (runID : Nat) :
    List Role → Daemon → PtpProfile → (Daemon × PtpProfile) × Option ApplyError
  | [], dn, nodeProfile => ((dn, nodeProfile), none)
  | p :: rest, dn, nodeProfile =>
    match applyRole env runID dn nodeProfile p with
    | (st, some e) => (st, some e)
    | ((dn1, profile1), none) => applyRoles env runID rest dn1 profile1

/-- Embedding of `applyNodePtpProfile` (daemon.go 227-352). -/
def applyNodePtpProfile (env : Env) (runID : Nat) (dn : Daemon) (nodeProfile : PtpProfile) :
    (Daemon × PtpProfile) × Option ApplyError :=
  match applyRoles env runID ptp_processes (OnPTPConfigChange dn nodeProfile) nodeProfile with
  | (st, some e) => (st, some e)
  | ((dn1, profile1), none) => ((PopulateHwConfig dn1, profile1), none)

/-! ## applyNodePTPProfiles -/

/-- Removal of a file (`os.Remove`); a missing file leaves the disk as it is. -/
def removeFile (files : List (String × String)) (path : String) : List (String × String) :=
  files.filter (fun f => decide (f.1 ≠ path))

/-- Embedding of `cmdStop` (daemon.go 446-468), seen from the caller: the flag is set, the
process is signalled when there is one, the config file is removed, the call waits for the
run loop to signal its exit, and the last statement reads `p.cmd.Process.Pid`, a nil
dereference when the command was never started.  The write of the flag is recorded as the
event `setStopped` and the receive on `exitCh` as the event `awaitExit`; the field `stopped`
of the descriptor value is not updated, the run loop takes the flag from its observations.
The result is the state in which the caller goes on once the receive has returned: whether
it returns is a matter of the run loop and is not decided here (it never does for a
descriptor whose run loop was not launched or waits for ever at `<-done`). -/
def cmdStop (dn : Daemon) (p : ptpProcess) : Daemon × Option ApplyError :=
  match p.cmd with
  | none => (dn, none)
  | some cmd =>
    let signal :=
      match cmd.Process with
      | some pid => [Event.signalTerm pid]
      | none => []
    let waited : Daemon :=
      if p.ptp4lConfigPath ≠ "" then
        { dn with
          files := removeFile dn.files p.ptp4lConfigPath
          log := dn.log ++ [Event.setStopped p.ptp4lConfigPath] ++ signal
            ++ [Event.removeFile p.ptp4lConfigPath, Event.awaitExit p.ptp4lConfigPath] }
      else
        { dn with
          log := dn.log ++ [Event.setStopped p.ptp4lConfigPath] ++ signal
            ++ [Event.awaitExit p.ptp4lConfigPath] }
    match cmd.Process with
    | some _ => (waited, none)
    | none => (waited, some .nilDereference)

/-- The loop of daemon.go 152-158 over the old group; a panic in `cmdStop` ends it. -/
def stopAll : List ptpProcess → Daemon → Daemon × Option ApplyError
  | [], dn => (dn, none)
  | p :: rest, dn =>
    match cmdStop dn p with
    | (dn1, some e) => (dn1, some e)
    | (dn1, none) => stopAll rest dn1

/-- The strings a profile points to are shared with `dn.ptpUpdate.NodeProfiles`, the
`Interface` pointer of the loop copy is not: what the slice element shows after the loop
copy has been worked on. -/
def sharedWith (stored loopCopy : PtpProfile) : PtpProfile :=
  { stored with
    Ptp4lOpts := loopCopy.Ptp4lOpts
    Ptp4lConf := loopCopy.Ptp4lConf
    Phc2sysOpts := loopCopy.Phc2sysOpts
    Phc2sysConf := loopCopy.Phc2sysConf
    Ts2PhcOpts := loopCopy.Ts2PhcOpts
    Ts2PhcConf := loopCopy.Ts2PhcConf }

/-- Update of the stored profile at position `idx`. -/
def storeBack (dn : Daemon) (idx : Nat) (loopCopy : PtpProfile) : Daemon :=
  { dn with nodeProfiles := dn.nodeProfiles.modify (fun stored => sharedWith stored loopCopy) idx }

/-- The loop of daemon.go 176-183 from run identifier `runID` on. -/
def applyProfilesFrom (env : Env) :
    Nat → List PtpProfile → Daemon → Daemon × Option ApplyError
  | _, [], dn => (dn, none)
  | runID, profile :: rest, dn =>
    match applyNodePtpProfile env runID dn profile with
    | ((dn1, profile1), some e) => (storeBack dn1 runID profile1, some e)
    | ((dn1, profile1), none) => applyProfilesFrom env (runID + 1) rest (storeBack dn1 runID profile1)

/-- The loop of daemon.go 186-191: one `go cmdRun(p)` per descriptor, in slice order. -/
def startAll (dn : Daemon) : Daemon :=
  { dn with log := dn.log ++ dn.process.map Event.goCmdRun }

/-- Embedding of `applyNodePTPProfiles` (daemon.go 149-193). -/
def applyNodePTPProfiles (env : Env) (dn : Daemon) : Daemon × Option ApplyError :=
  match stopAll dn.process dn with
  | (dn0, some e) => (dn0, some e)
  | (stopped, none) =>
    let cleared : Daemon := { stopped with process := [], hwconfigs := [] }
    match applyProfilesFrom env 0 cleared.nodeProfiles cleared with
    | (dn1, some e) => (dn1, some e)
    | (dn1, none) => (startAll dn1, none)

/-- The daemon once every run loop of the group has started its command: the command of
the descriptor at position i has a process, with pid 1000 + i. -/
def spawned (dn : Daemon) : Daemon :=
  { dn with
    process := dn.process.enum.map (fun ip =>
      { ip.2 with cmd := ip.2.cmd.map (fun c => { c with Process := some (1000 + ip.1) }) }) }

/-- The descriptors handed to `go cmdRun` in a log, in launch order. -/
def launched : List Event → List ptpProcess
  | [] => []
  | Event.goCmdRun p :: rest => p :: launched rest
  | _ :: rest => launched rest

/-- The paths written by `ioutil.WriteFile` in a log, in order. -/
def writtenPaths : List Event → List String
  | [] => []
  | Event.writeFile path _ :: rest => path :: writtenPaths rest
  | _ :: rest => writtenPaths rest

/-! ## A concrete instance of the config.go operations

Used to run the embedding on concrete inputs; no general result depends on it. -/

/-- Modelled from the spec: the parser step of config.go (`populatePtp4lConf`, absent from
the sources) for one line, after section 4.1: a line opening with a bracket starts a
section, an option line `key value` belongs to the section being read, and an option line
outside any section is a parse error.  The sections read so far are held newest first. -/
def sampleParseLine (acc : List ptp4lConfSection) (line : List Char) :
    Except String (List ptp4lConfSection) :=
  match line with
  | [] => .ok acc
  | '[' :: _ => .ok ({ sectionName := String.mk line, options := [] } :: acc)
  | _ =>
    match acc with
    | [] => .error "MalformedConfig"
    | cur :: done =>
      let key := String.mk (line.takeWhile (fun c => c ≠ ' '))
      let value := String.mk ((line.dropWhile (fun c => c ≠ ' ')).drop 1)
      .ok ({ cur with options := mapSet cur.options key value } :: done)

/-- Modelled from the spec: the line loop of the parser of section 4.1 (config.go is absent
from the sources). -/
def sampleParseLines : List (List Char) → List ptp4lConfSection →
    Except String (List ptp4lConfSection)
  | [], acc => .ok acc.reverse
  | line :: rest, acc =>
    match sampleParseLine acc line with
    | .error e => .error e
    | .ok acc1 => sampleParseLines rest acc1

/-- Modelled from the spec: the check of the parser of section 4.1 (config.go is absent from
the sources) that the global section exists: a config in which no section is named
`[global]` is an error. -/
def sampleRequireGlobal (sections : List ptp4lConfSection) : Except String ptp4lConf :=
  if sections.any (fun s => decide (s.sectionName = "[global]")) then
    .ok { sections := sections, profile_name := "" }
  else .error "MissingGlobalSection"

/-- Modelled from the spec: `populatePtp4lConf` of config.go (absent from the sources), after
section 4.1: a text is read line by line, malformed input is an error, and so is a config
without a global section; an absent text has no section and therefore no global one. -/
def samplePopulate (config : Option String) : Except String ptp4lConf :=
  match config with
  | none => sampleRequireGlobal []
  | some text =>
    match sampleParseLines (splitList '\n' text.data) [] with
    | .error e => .error e
    | .ok sections => sampleRequireGlobal sections

/-- Modelled from the spec: the interface name of a section header, its brackets removed
(config.go is absent from the sources). -/
def sampleIfaceName (sectionName : String) : String :=
  String.mk (sectionName.data.filter (fun c => c ≠ '[' ∧ c ≠ ']'))

/-- Modelled from the spec: `renderPtp4lConf` of config.go (absent from the sources), after
section 4.1: sections in their order, a header line then one `key value` line per option;
and the de-duplicated names of the non-global sections, joined by commas. -/
def sampleRender (conf : ptp4lConf) : String × String :=
  (String.intercalate "\n"
      (conf.sections.flatMap (fun s => s.sectionName :: s.options.map (fun kv => kv.1 ++ " " ++ kv.2))),
   String.intercalate ","
      (((conf.sections.filter (fun s => s.sectionName ≠ "[global]")).map
          (fun s => sampleIfaceName s.sectionName)).dedup))

/-- Modelled from the spec: the operations of config.go (absent from the sources); the
monitoring hook of section 4.1 is the one that recognises no flag and adds nothing. -/
def sampleOps : ConfigOps :=
  { populatePtp4lConf := samplePopulate
    addFlagsForMonitor := fun _ opts conf => (opts, conf)
    renderPtp4lConf := sampleRender }

/-- An environment in which every write succeeds. -/
def sampleEnv : Env := { ops := sampleOps, writeFails := fun _ => false }

/-- An environment in which every write fails. -/
def readOnlyEnv : Env := { ops := sampleOps, writeFails := fun _ => true }

/-- A daemon with no process, no plugin and no file. -/
def idleDaemon (profiles : List PtpProfile) : Daemon :=
  { process := [], hwconfigs := [], nodeProfiles := profiles, plugins := [], files := [], log := [] }

/-- A profile with a name and a ptp4l config text that holds an empty global section;
every other field is absent. -/
def bareProfile (name : String) : PtpProfile :=
  { Name := some name, Interface := none, Ptp4lOpts := none, Ptp4lConf := some "[global]",
    Phc2sysOpts := none, Phc2sysConf := none, Ts2PhcOpts := none, Ts2PhcConf := none,
    PtpSchedulingPolicy := none, PtpSchedulingPriority := none, PtpSettings := [] }

/-- A profile asking for FIFO scheduling with the given priority. -/
def fifoProfile (priority : Int) : PtpProfile :=
  { bareProfile "fifo" with
    Ptp4lOpts := some "-2"
    PtpSchedulingPolicy := some "SCHED_FIFO"
    PtpSchedulingPriority := some priority }

/-- A profile for interface `ens1` with ptp4l options and a config text with a global section. -/
def ens1Profile : PtpProfile :=
  { bareProfile "ens1-profile" with
    Interface := some "ens1"
    Ptp4lOpts := some "-2"
    Ptp4lConf := some "[global]\ntx_timestamp_timeout 50" }

/-- A profile with ptp4l options and the config text of `bareProfile`. -/
def optsOnlyProfile : PtpProfile :=
  { bareProfile "opts-only" with Ptp4lOpts := some "-2" }

/-- A profile with ptp4l options whose ptp4l config text has a section for `ens1` and no
global section. -/
def noGlobalProfile : PtpProfile :=
  { bareProfile "no-global" with Ptp4lOpts := some "-2", Ptp4lConf := some "[ens1]" }

/-! ## Auxiliary definitions of the statements -/

/-- Value of a string of decimal digits, most significant digit first. -/
def readDec (cs : List Char) : Nat :=
  cs.foldl (fun acc c => acc * 10 + (c.toNat - 48)) 0

/-- The part of a descriptor that identifies it: role name, config file name and config path. -/
def descriptorKey (d : ptpProcess) : String × String × String :=
  (d.name, d.configName, d.ptp4lConfigPath)

/-- The identification the descriptor of role `r` gets under run identifier `runID`. -/
def roleKey (runID : Nat) (r : Role) : String × String × String :=
  (r.name, configFile r runID, configPath r runID)

/-- The roles of a profile that the test of daemon.go 280 lets through, in loop order. -/
def activeRoles (nodeProfile : PtpProfile) (roles : List Role) : List Role :=
  roles.filter (fun r => !skipsRole nodeProfile r)

/-- The group the specification describes (section 4.4, step 4) for profiles numbered from
`runID` on: profile by profile, the roles that are not skipped in the order ts2phc, ptp4l,
phc2sys, each with config file name `<role>.<run id>.config`. -/
def expectedGroupFrom : Nat → List PtpProfile → List (String × String)
  | _, [] => []
  | runID, profile :: rest =>
    (activeRoles profile ptp_processes).map
        (fun r => (r.name, r.name ++ "." ++ sprintNat runID ++ ".config"))
      ++ expectedGroupFrom (runID + 1) rest

/-- Number of sections with a given name. -/
def countNamed (name : String) (sections : List ptp4lConfSection) : Nat :=
  (sections.map (fun s => s.sectionName)).count name

/-! ## Projections of the event log -/

/-- The config paths of the descriptors whose stop flag `cmdStop` set, in order. -/
def stoppedPaths (log : List Event) : List String :=
  log.filterMap (fun ev =>
    match ev with
    | Event.setStopped path => some path
    | _ => none)

/-- The config paths of the descriptors whose exit signal `cmdStop` received, in order. -/
def awaitedPaths (log : List Event) : List String :=
  log.filterMap (fun ev =>
    match ev with
    | Event.awaitExit path => some path
    | _ => none)

/-- Whether an event is a call of a plugin hook. -/
def isHookEvent : Event → Bool
  | Event.onPTPConfigChange _ _ => true
  | Event.populateHwConfig _ => true
  | _ => false

/-- The plugin hook calls of a log, in order. -/
def hookTrace (log : List Event) : List Event := log.filter isHookEvent

/-- The plugins whose `PopulateHwConfig` hook a log shows, one entry per call, in order. -/
def populateCalls (log : List Event) : List String :=
  log.filterMap (fun ev =>
    match ev with
    | Event.populateHwConfig name => some name
    | _ => none)

/-- Whether an event is the write of a config file. -/
def isWriteEvent : Event → Bool
  | Event.writeFile _ _ => true
  | _ => false

/-- Whether an event belongs to `cmdStop`. -/
def isStopEvent : Event → Bool
  | Event.setStopped _ => true
  | Event.signalTerm _ => true
  | Event.removeFile _ => true
  | Event.awaitExit _ => true
  | _ => false

/-- The hook calls of one `applyNodePtpProfile` that returns no error, for the plugins of
the manager: every plugin's `OnPTPConfigChange`, then every plugin's `PopulateHwConfig`. -/
def profileHookCalls (plugins : List Plugin) (nodeProfile : PtpProfile) : List Event :=
  plugins.map (fun pl => Event.onPTPConfigChange pl.Name nodeProfile)
    ++ plugins.map (fun pl => Event.populateHwConfig pl.Name)

/-- The fields of a stored profile that are not shared strings: name, interface pointer,
scheduling and settings. -/
def frameOf (p : PtpProfile) :
    Option String × Option String × Option String × Option Int × List (String × String) :=
  (p.Name, p.Interface, p.PtpSchedulingPolicy, p.PtpSchedulingPriority, p.PtpSettings)

/-- The option string of a role as the profile holds it (nil when absent). -/
def rawOpts (nodeProfile : PtpProfile) : Role → Option String
  | .ptp4l => nodeProfile.Ptp4lOpts
  | .phc2sys => nodeProfile.Phc2sysOpts
  | .ts2phc => nodeProfile.Ts2PhcOpts

/-- Embedding of `PopulateHwConfigGeneric` (addons/generic/generic.go): nothing is added. -/
def PopulateHwConfigGeneric (hwconfigs : List HwConfig) : List HwConfig := hwconfigs

/-- Embedding of `Reference` (addons/generic/generic.go 18-27). -/
def Reference (name : String) : Option Plugin :=
  if name ≠ "reference" then none
  else some { Name := "reference", PopulateHwConfig := PopulateHwConfigGeneric }

/-- Embedding of `PopulateHwConfigE810` (addons/intel/e810.go): nothing is added. -/
def PopulateHwConfigE810 (hwconfigs : List HwConfig) : List HwConfig := hwconfigs

/-- Embedding of `E810` (addons/intel/e810.go 66-76). -/
def E810 (name : String) : Option Plugin :=
  if name ≠ "e810" then none
  else some { Name := "e810", PopulateHwConfig := PopulateHwConfigE810 }

/-- A daemon with no process and the reference plugin registered. -/
def referenceDaemon (profiles : List PtpProfile) : Daemon :=
  { idleDaemon profiles with
    plugins := [{ Name := "reference", PopulateHwConfig := PopulateHwConfigGeneric }] }

/-- A profile with ts2phc and ptp4l options; the ts2phc config text holds a global section,
the ptp4l config text has an option line outside any section. -/
def brokenPtp4lProfile : PtpProfile :=
  { bareProfile "broken" with
    Ts2PhcOpts := some "-s generic"
    Ts2PhcConf := some "[global]"
    Ptp4lOpts := some "-2"
    Ptp4lConf := some "tx_timestamp_timeout 50" }

/-- A descriptor of the old group whose run loop never got its command started
(`cmd.Start` failed or was not reached): the command has no process. -/
def unstartedProcess : ptpProcess :=
  { name := "ptp4l", ifaces := ["ens1"], ptp4lSocketPath := "/var/run/ptp4l.0.socket",
    ptp4lConfigPath := "/var/run/ptp4l.0.config", configName := "ptp4l.0.config",
    messageTag := "[ptp4l.0.config]", stopped := false, logFilterRegex := "^$",
    cmd := some { Args := ["/usr/sbin/ptp4l", "-f", "/var/run/ptp4l.0.config", "", "-2", ""],
                  Process := none } }

/-- A descriptor of the old group whose command runs with pid 4711. -/
def runningProcess : ptpProcess :=
  { unstartedProcess with
    cmd := some { Args := ["/usr/sbin/ptp4l", "-f", "/var/run/ptp4l.0.config", "", "-2", ""],
                  Process := some 4711 } }

/-- A daemon whose old group is the given one, with one hardware record and no profile. -/
def daemonWithGroup (group : List ptpProcess) : Daemon :=
  { process := group
    hwconfigs := [{ DeviceID := "e810", VendorID := "8086", Failed := false, Status := "ok",
                    Config := none }]
    nodeProfiles := []
    plugins := []
    files := [("/var/run/ptp4l.0.config", "[global]")]
    log := [] }

/-- What the role loop may do to the shared strings of a profile: the strings of a role that
is outside `roles` or skipped are kept, a nil pointer stays nil and a non-nil one non-nil,
and the option strings are kept when the monitoring hook returns the one it is given. -/
def StringsKept (env : Env) (roles : List Role) (old new : PtpProfile) : Prop :=
  ∀ r : Role,
    ((r ∉ roles ∨ skipsRole old r = true) →
      configInput new r = configInput old r ∧ rawOpts new r = rawOpts old r) ∧
    (configInput new r = none ↔ configInput old r = none) ∧
    (rawOpts new r = none ↔ rawOpts old r = none) ∧
    ((∀ (q : Role) (o : String) (c : ptp4lConf), (env.ops.addFlagsForMonitor q o c).1 = o) →
      rawOpts new r = rawOpts old r)

/-- What an apply may do to a stored profile: name, interface, scheduling and settings are
kept; the strings of a skipped role are kept; a nil pointer stays nil and a non-nil one
non-nil; the option strings are kept when the monitoring hook returns the one it is given. -/
def ProfileKept (env : Env) (old new : PtpProfile) : Prop :=
  frameOf new = frameOf old ∧
  ∀ r : Role,
    (skipsRole old r = true →
      configInput new r = configInput old r ∧ rawOpts new r = rawOpts old r) ∧
    (configInput new r = none ↔ configInput old r = none) ∧
    (rawOpts new r = none ↔ rawOpts old r = none) ∧
    ((∀ (q : Role) (o : String) (c : ptp4lConf), (env.ops.addFlagsForMonitor q o c).1 = o) →
      rawOpts new r = rawOpts old r)

/-- Role `r` of the profile `old` has been rendered in run `runID` and `new` shows the
result: the option string is non-empty, the profile has a name, the parser succeeded on the
config text `old` held, the config text of `new` (when the pointer is not nil) is the text
rendered from the configuration of daemon.go 292-312, and the option string of `new` (when
the pointer is not nil) is the one the monitoring hook leaves. -/
def RoleRendered (env : Env) (runID : Nat) (old new : PtpProfile) (r : Role) : Prop :=
  ∃ (opts name : String) (parsed : ptp4lConf),
    configOpts old r = some opts ∧ opts ≠ "" ∧ old.Name = some name ∧
    env.ops.populatePtp4lConf (configInput old r) = Except.ok parsed ∧
    configInput new r
      = (configInput old r).map (fun _ =>
          (env.ops.renderPtp4lConf (renderInput env.ops r runID old name opts parsed).1).1) ∧
    rawOpts new r
      = (rawOpts old r).map (fun _ => (renderInput env.ops r runID old name opts parsed).2)

/-- Role `r` of the profile `old` has its two strings unchanged in `new`. -/
def RoleKept (old new : PtpProfile) (r : Role) : Prop :=
  configInput new r = configInput old r ∧ rawOpts new r = rawOpts old r

/-! ## Plugin registry (plugin.go) -/

/-- Go map read for a map with string keys. -/
def lookupKey {α : Type} (m : List (String × α)) (k : String) : Option α :=
  match m with
  | [] => none
  | (k1, v1) :: rest => if k1 = k then some v1 else lookupKey rest k

/-- Go map write `m[k] = v` for a map with string keys. -/
def setKey {α : Type} (m : List (String × α)) (k : String) (v : α) : List (String × α) :=
  match m with
  | [] => [(k, v)]
  | (k1, v1) :: rest => if k1 = k then (k, v) :: rest else (k1, v1) :: setKey rest k v

/-- Embedding of `registerPlugin` (plugin.go 30-40) for a name-to-constructor mapping
(`mapping.PluginMapping`, not part of the sources, is the parameter `pluginMapping`). -/
def registerPlugin (pluginMapping : List (String × (String → Option Plugin))) (name : String) :
    Option Plugin :=
  match pluginMapping with
  | [] => none
  | (mName, mConstructor) :: rest =>
    if mName = name then mConstructor name else registerPlugin rest name

/-- Embedding of `registerPlugins` (plugin.go 19-28): the map `manager.plugins`. -/
def registerPlugins (pluginMapping : List (String × (String → Option Plugin)))
    (plugins : List String) : List (String × Plugin) :=
  plugins.foldl
    (fun manager name =>
      match registerPlugin pluginMapping name with
      | some currentPlugin => setKey manager name currentPlugin
      | none => manager)
    []

/-! ## The run loop (daemon.go 373-443) -/

/-- Go `strings.Replace(s, old, "", 1)` for a one-character `old`: the first occurrence
of the character is removed. -/
def removeFirst (c : Char) : List Char → List Char
  | [] => []
  | x :: xs => if x = c then xs else x :: removeFirst c xs

/-- The two status constants `PtpProcessDown` and `PtpProcessUp` (their numeric values are
declared outside the sources). -/
inductive ProcessStatus where
  | PtpProcessDown
  | PtpProcessUp
  deriving DecidableEq, Repr

/-- What the run loop does that is visible outside it, in program order: the status it
reports, each value it reads from `p.Stopped()`, each call of `cmd.Start` with the argument
vector of the command and the pid it yields (none when it fails), the wait for the process,
the backoff sleep, the construction of a new command, and the send on `exitCh`. -/
inductive RunEvent where
  | processStatus (processName cfgName : String) (status : ProcessStatus)
  | readStopped (value : Bool)
  | start (args : List String) (pid : Option Nat)
  | wait
  | sleep
  | newCommand (args : List String)
  | exitSignal
  deriving DecidableEq, Repr

/-- Embedding of `processStatus` (daemon.go 373-379): the status record it hands to the
metrics sink and the log. -/
def processStatus (processName messageTag : String) (status : ProcessStatus) : RunEvent :=
  let cfgName := String.mk (removeFirst '[' (removeFirst ']' messageTag.data))
  RunEvent.processStatus processName cfgName status

/-- What one pass of the run loop meets from outside: whether `StdoutPipe` fails, the value
of the stop flag at each of its two reads, the outcome of `cmd.Start` (the pid, none when it
fails) and whether the started process ever closes its output and exits. -/
structure RunObs where
  pipeError : Bool
  stoppedBeforeStart : Bool
  startPid : Option Nat
  outputCloses : Bool
  stoppedAfterExit : Bool
  deriving DecidableEq, Repr

/-- How a run of the loop ends: the loop was left (`break`), an index expression panicked,
a pass waits for ever at `<-done`, or the observations ran out with the loop still going. -/
inductive RunEnd where
  | exited
  | panicked
  | blocked
  | running
  deriving DecidableEq, Repr

/-- Whether a pass never gets past `<-done` (daemon.go 425).  The scanner goroutine sends on
`done` once the output pipe is closed: a started process closes it when it exits, a failed
`cmd.Start` closes it itself, and when `cmd.Start` is skipped (the stop flag read as true at
line 419) nothing ever closes it. -/
def passBlocks (o : RunObs) : Bool :=
  o.stoppedBeforeStart || (o.startPid.isSome && !o.outputCloses)

/-- The events of one pass of the loop of `cmdRun` on the command `cmd` (daemon.go 400-434):
status up, the read of the stop flag and the start it guards; then, unless the pass waits
for ever at `<-done`, the wait, status down, the backoff sleep and the second read of the
stop flag. -/
def passEvents (p : ptpProcess) (o : RunObs) (cmd : Cmd) : List RunEvent :=
  [processStatus p.name p.messageTag ProcessStatus.PtpProcessUp,
    RunEvent.readStopped o.stoppedBeforeStart]
  ++ (if !o.stoppedBeforeStart then [RunEvent.start cmd.Args o.startPid] else [])
  ++ (if passBlocks o then []
      else [RunEvent.wait, processStatus p.name p.messageTag ProcessStatus.PtpProcessDown,
        RunEvent.sleep, RunEvent.readStopped o.stoppedAfterExit])

/-- The `for` loop of `cmdRun` (daemon.go 393-442) on the command `cmd`, one observation
per pass.  A pass ends the loop when `StdoutPipe` fails or the stop flag is found set after
the exit; a pass that waits for ever at `<-done` ends the run there; otherwise the command
is rebuilt from `Args[0]` and `Args[1:]`.  The output lines of the process are not part of
the embedding. -/
def runLoop (p : ptpProcess) : List RunObs → Cmd → List RunEvent × RunEnd
  | [], _ => ([], RunEnd.running)
  | o :: rest, cmd =>
    if o.pipeError then ([], RunEnd.exited)
    else if passBlocks o then (passEvents p o cmd, RunEnd.blocked)
    else if o.stoppedAfterExit then (passEvents p o cmd, RunEnd.exited)
    else
      match cmd.Args with
      | [] => (passEvents p o cmd, RunEnd.panicked)
      | arg0 :: args =>
        (passEvents p o cmd ++ RunEvent.newCommand (execCommand arg0 args).Args
            :: (runLoop p rest (execCommand arg0 args)).1,
         (runLoop p rest (execCommand arg0 args)).2)

/-- Embedding of `cmdRun` (daemon.go 382-443): the loop on the descriptor's command, and
the deferred send on `exitCh` once the function is left (it is not left by a pass that
waits for ever). -/
def cmdRun (p : ptpProcess) (obs : List RunObs) : List RunEvent × RunEnd :=
  match p.cmd with
  | none => ([RunEvent.exitSignal], RunEnd.panicked)
  | some cmd =>
    match (runLoop p obs cmd).2 with
    | RunEnd.running => ((runLoop p obs cmd).1, RunEnd.running)
    | RunEnd.blocked => ((runLoop p obs cmd).1, RunEnd.blocked)
    | e => ((runLoop p obs cmd).1 ++ [RunEvent.exitSignal], e)

/-- Whether a trace holds a call of `cmd.Start`. -/
def hasStart : List RunEvent → Bool
  | [] => false
  | RunEvent.start _ _ :: _ => true
  | _ :: rest => hasStart rest

/-- Whether a trace holds a newly built command. -/
def hasNewCommand : List RunEvent → Bool
  | [] => false
  | RunEvent.newCommand _ :: _ => true
  | _ :: rest => hasNewCommand rest

/-- Whether no `cmd.Start` follows a read of the stop flag that gave true. -/
def noStartAfterStop : List RunEvent → Bool
  | [] => true
  | RunEvent.readStopped true :: rest => !hasStart rest
  | _ :: rest => noStartAfterStop rest

/-- Whether every `cmd.Start` of a trace comes right after a read of the stop flag that gave
false; `guarded` says whether the event before the trace was such a read. -/
def guardedFrom (guarded : Bool) : List RunEvent → Bool
  | [] => true
  | RunEvent.start _ _ :: rest => guarded && guardedFrom false rest
  | RunEvent.readStopped value :: rest => guardedFrom (!value) rest
  | _ :: rest => guardedFrom false rest

/-- Whether every `cmd.Start` comes right after a read of the stop flag that gave false. -/
def startsGuarded (trace : List RunEvent) : Bool := guardedFrom false trace

/-- The argument vectors of the calls of `cmd.Start` in a trace, in order. -/
def startArgs (trace : List RunEvent) : List (List String) :=
  trace.filterMap (fun ev =>
    match ev with
    | RunEvent.start args _ => some args
    | _ => none)

/-- A run of three passes: the process exits twice on its own and is restarted, then the
stop flag is found set after the third exit. -/
def threePasses : List RunObs :=
  [{ pipeError := false, stoppedBeforeStart := false, startPid := some 100, outputCloses := true,
     stoppedAfterExit := false },
   { pipeError := false, stoppedBeforeStart := false, startPid := some 101, outputCloses := true,
     stoppedAfterExit := false },
   { pipeError := false, stoppedBeforeStart := false, startPid := some 102, outputCloses := true,
     stoppedAfterExit := true }]

/-- A run in which the stop flag is set between the second read of the first pass and the
first read of the second pass. -/
def stoppedEarly : List RunObs :=
  [{ pipeError := false, stoppedBeforeStart := false, startPid := some 100, outputCloses := true,
     stoppedAfterExit := false },
   { pipeError := false, stoppedBeforeStart := true, startPid := none, outputCloses := false,
     stoppedAfterExit := true }]

/-! ## Profile recommendation (controllers/recommend.go) -/

/-- The struct `ptpv1.MatchRule`, as `nodeMatches` reads it. -/
structure MatchRule where
  NodeLabel : Option String
  NodeName : Option String
  deriving DecidableEq, Repr

/-- The struct `ptpv1.PtpRecommend`, as `getRecommendProfilesNames` reads it. -/
structure PtpRecommend where
  Profile : Option String
  Priority : Option Int
  Match : List MatchRule
  deriving DecidableEq, Repr

/-- The field `Spec` of a PtpConfig: profiles and recommend entries (a nil slice is the
empty list). -/
structure PtpConfigSpec where
  Profile : List PtpProfile
  Recommend : List PtpRecommend
  deriving DecidableEq, Repr

/-- The struct `ptpv1.PtpConfig`: the name of the custom resource and its spec. -/
structure PtpConfig where
  Name : String
  Spec : PtpConfigSpec
  deriving DecidableEq, Repr

/-- The fields of `corev1.Node` the controller reads: name and labels. -/
structure Node where
  Name : String
  Labels : List (String × String)
  deriving DecidableEq, Repr

/-- Embedding of `nodeMatches` (recommend.go 235-259). -/
def nodeMatches (node : Node) : List MatchRule → Bool
  | [] => false
  | m :: rest =>
    if m.NodeName = some node.Name then true
    else if node.Labels.any (fun kv => decide (m.NodeLabel = some kv.1)) then true
    else nodeMatches node rest

/-- The comparison handed to `sort.Slice` in `getRecommendProfilesNames` (recommend.go
191-196): by priority, entries without priority last. -/
def recommendLess (a b : PtpRecommend) : Bool :=
  match a.Priority, b.Priority with
  | some pa, some pb => decide (pa < pb)
  | some _, none => true
  | none, _ => false

/-- Go `m[k] = struct{}{}` on a map used as a set of strings. -/
def setInsert (names : List String) (name : String) : List String :=
  if name ∈ names then names else names ++ [name]

/-- The variables of the selection loop of `getRecommendProfilesNames`. -/
structure NameSelection where
  profilesNames : List String
  foundPolicy : Bool
  priority : Int
  deriving DecidableEq, Repr

/-- One pass of the loop of recommend.go 204-230; the result is none when the pass
dereferences a nil `Priority`. -/
def selectRecommend (node : Node) (st : NameSelection) (r : PtpRecommend) :
    Option NameSelection :=
  match r.Profile with
  | none => some st
  | some profile =>
    if r.Match.length = 0 then some st
    else if !nodeMatches node r.Match then some st
    else if !st.foundPolicy then
      match r.Priority with
      | none => none
      | some pr =>
        some { profilesNames := setInsert st.profilesNames profile, foundPolicy := true,
               priority := pr }
    else
      match r.Priority with
      | none => none
      | some pr =>
        if pr = st.priority then
          some { st with profilesNames := setInsert st.profilesNames profile }
        else some st

/-- The loop of recommend.go 204-230 over the sorted entries. -/
def selectLoop (node : Node) : List PtpRecommend → NameSelection → Option NameSelection
  | [], st => some st
  | r :: rest, st =>
    match selectRecommend node st r with
    | none => none
    | some st1 => selectLoop node rest st1

/-- The slice `allRecommend` before sorting (recommend.go 184-188). -/
def allRecommend (ptpConfigList : List PtpConfig) : List PtpRecommend :=
  ptpConfigList.flatMap (fun cfg => cfg.Spec.Recommend)

/-- The selection loop from the initial variables, on entries in the order `sorted`. -/
def selectNames (node : Node) (sorted : List PtpRecommend) : Option (List String) :=
  (selectLoop node sorted { profilesNames := [], foundPolicy := false, priority := -1 }).map
    (fun st => st.profilesNames)

/-- Embedding of `getRecommendProfilesNames` (recommend.go 176-233), with an insertion sort
for `sort.Slice` (which may leave entries that compare equal in any order).  The result is
the key set of the returned map, or none when a nil `Priority` is dereferenced. -/
def getRecommendProfilesNames (ptpConfigList : List PtpConfig) (node : Node) :
    Option (List String) :=
  selectNames node
    ((allRecommend ptpConfigList).insertionSort (fun a b => recommendLess b a = false))

/-- Whether the loop takes a recommend entry into account: it has a profile, a non-empty
match list, and matches the node. -/
def eligible (node : Node) (r : PtpRecommend) : Bool :=
  r.Profile.isSome && decide (r.Match.length ≠ 0) && nodeMatches node r.Match

/-- The set the specification describes: the profile names of the eligible entries whose
priority is smallest among the eligible entries. -/
def BestPriorityNames (node : Node) (entries : List PtpRecommend) (names : List String) : Prop :=
  ∀ n : String, n ∈ names ↔
    ∃ r ∈ entries, eligible node r = true ∧ r.Profile = some n ∧
      ∀ r2 ∈ entries, eligible node r2 = true →
        ∀ p p2 : Int, r.Priority = some p → r2.Priority = some p2 → p ≤ p2

/-- A node with one label. -/
def workerNode : Node := { Name := "worker-0", Labels := [("node-role.kubernetes.io/worker", "")] }

/-- Two custom resources: one recommends `slave` at priority 5 and `boundary` at priority 10
by label, the other `grandmaster` at priority 5 by node name and `other` for another node. -/
def sampleConfigs : List PtpConfig :=
  [{ Name := "cr-a",
     Spec := { Profile := [],
               Recommend :=
                [{ Profile := some "boundary", Priority := some 10,
                   Match := [{ NodeLabel := some "node-role.kubernetes.io/worker", NodeName := none }] },
                 { Profile := some "slave", Priority := some 5,
                   Match := [{ NodeLabel := some "node-role.kubernetes.io/worker", NodeName := none }] }] } },
   { Name := "cr-b",
     Spec := { Profile := [],
               Recommend :=
                [{ Profile := some "other", Priority := some 0,
                   Match := [{ NodeLabel := none, NodeName := some "worker-1" }] },
                 { Profile := some "grandmaster", Priority := some 5,
                   Match := [{ NodeLabel := none, NodeName := some "worker-0" }] }] } }]

/-! ## The descriptor built for a role -/

/-- What a descriptor built for role `p` under run identifier `runID` carries: the name of
the role, the message tag and config file name of the switch, and a command whose argument
vector is the split of the command line for some option string `o` (the one the monitoring
hook leaves). -/
def BuiltFor (nodeProfile : PtpProfile) (runID : Nat) (p : Role) (d : ptpProcess) : Prop :=
  d.name = p.name ∧ d.messageTag = messageTag p runID ∧ d.configName = configFile p runID ∧
  ∃ o : String,
    d.cmd = some { Args := stringsSplit
                     (addScheduling nodeProfile (baseCmdLine p (configPath p runID) o)) ' ',
                   Process := none }

/-! ## Qualified profile names and cross-profile references (controllers/recommend.go) -/

/-- The constant `ProfileNameSeperator`. -/
def ProfileNameSeperator : String := "_"

/-- Embedding of `qualifyProfileName` (recommend.go 19-21). -/
def qualifyProfileName (crName profileName : String) : String :=
  crName ++ ProfileNameSeperator ++ profileName

/-- The inner loop of `profileExistsInCR` and of `resolveProfileReference`: whether a
profile of the CR has a non-nil name equal to `profileName`. -/
def hasProfileNamed (cfg : PtpConfig) (profileName : String) : Bool :=
  cfg.Spec.Profile.any (fun p => decide (p.Name = some profileName))

/-- Embedding of `profileExistsInCR` (recommend.go 24-36). -/
def profileExistsInCR (crName profileName : String) : List PtpConfig → Bool
  | [] => false
  | cfg :: rest =>
    if cfg.Name ≠ crName then profileExistsInCR crName profileName rest
    else if hasProfileNamed cfg profileName then true
    else profileExistsInCR crName profileName rest

/-- The text before and after the first occurrence of `sep`, none when `sep` does not
occur. -/
def splitFirst (sep : Char) : List Char → Option (List Char × List Char)
  | [] => none
  | c :: cs =>
    if c = sep then some ([], cs)
    else
      match splitFirst sep cs with
      | some (before, after) => some (c :: before, after)
      | none => none

/-- Go `strings.SplitN(s, sep, 2)` for a one-character separator: the string itself, or the
two parts around the first separator. -/
def stringsSplitN2 (s : String) (sep : Char) : List String :=
  match splitFirst sep s.data with
  | some (before, after) => [String.mk before, String.mk after]
  | none => [s]

/-- The search loop of `resolveProfileReference` (recommend.go 47-56): the qualified name
built from the first CR, in list order, that has a profile named `value`. -/
def searchProfile (value : String) : List PtpConfig → Option String
  | [] => none
  | cfg :: rest =>
    if hasProfileNamed cfg value then some (qualifyProfileName cfg.Name value)
    else searchProfile value rest

/-- The test of recommend.go 41-45: the value splits at its first underscore into a CR name
and a profile name, and that CR has that profile. -/
def validPrefix (value : String) (ptpConfigList : List PtpConfig) : Bool :=
  match stringsSplitN2 value '_' with
  | [crName, profileName] => profileExistsInCR crName profileName ptpConfigList
  | _ => false

/-- Embedding of `resolveProfileReference` (recommend.go 39-70): the returned reference, and
whether the condition `ProfileReferenceValid = False` is set on the PtpConfig (the setting
name and the PtpConfig only go into the warning and that condition). -/
def resolveProfileReference (value : String) (ptpConfigList : List PtpConfig) : String × Bool :=
  if validPrefix value ptpConfigList then (value, false)
  else
    match searchProfile value ptpConfigList with
    | some qualified => (qualified, false)
    | none => (value, true)

/-- Go `unicode.IsSpace`: the characters with the Unicode property White_Space. -/
def isSpace (c : Char) : Bool :=
  c = '\t' || c = '\n' || c.toNat = 0x0b || c.toNat = 0x0c || c = '\r' || c = ' ' ||
  c.toNat = 0x85 || c.toNat = 0xa0 || c.toNat = 0x1680 ||
  (0x2000 ≤ c.toNat && c.toNat ≤ 0x200a) || c.toNat = 0x2028 || c.toNat = 0x2029 ||
  c.toNat = 0x202f || c.toNat = 0x205f || c.toNat = 0x3000

/-- Go `strings.TrimSpace`. -/
def trimSpace (s : String) : String :=
  String.mk ((s.data.dropWhile isSpace).reverse.dropWhile isSpace).reverse

/-- Embedding of `qualifyCrossProfileReferences` (recommend.go 73-84) on the settings map. -/
def qualifyCrossProfileReferences (settings : List (String × String))
    (ptpConfigList : List PtpConfig) : List (String × String) :=
  let settings1 :=
    match mapGet settings "controllingProfile" with
    | some cp =>
      if cp ≠ "" then
        mapSet settings "controllingProfile" (resolveProfileReference cp ptpConfigList).1
      else settings
    | none => settings
  match mapGet settings1 "haProfiles" with
  | some ha =>
    if ha ≠ "" then
      mapSet settings1 "haProfiles"
        (String.intercalate ","
          ((stringsSplit ha ',').map
            (fun p => (resolveProfileReference (trimSpace p) ptpConfigList).1)))
    else settings1
  | none => settings1

/-! ## getRecommendProfiles (controllers/recommend.go 132-174) -/

/-- The copy appended for a profile named `name` of the CR `cfg`: the name is qualified
and the cross-profile references of the settings are resolved. -/
def qualifiedCopy (ptpConfigList : List PtpConfig) (cfg : PtpConfig) (profile : PtpProfile)
    (name : String) : PtpProfile :=
  { profile with
    Name := some (qualifyProfileName cfg.Name name)
    PtpSettings := qualifyCrossProfileReferences profile.PtpSettings ptpConfigList }

/-- The variables `profiles` and `foundNames` of `getRecommendProfiles`. -/
structure Collected where
  profiles : List PtpProfile
  foundNames : List String
  deriving DecidableEq, Repr

/-- The body of the inner loop of `getRecommendProfiles` (recommend.go 145-162). -/
def collectProfile (profilesNames : List String) (ptpConfigList : List PtpConfig)
    (cfg : PtpConfig) (acc : Collected) (profile : PtpProfile) : Collected :=
  match profile.Name with
  | none => acc
  | some name =>
    if name ∈ profilesNames then
      { profiles := acc.profiles ++ [qualifiedCopy ptpConfigList cfg profile name]
        foundNames := setInsert acc.foundNames name }
    else acc

/-- The two nested loops of `getRecommendProfiles` (recommend.go 140-163). -/
def collectProfiles (profilesNames : List String) (ptpConfigList : List PtpConfig)
    (items : List PtpConfig) (acc : Collected) : Collected :=
  items.foldl
    (fun acc cfg => cfg.Spec.Profile.foldl (collectProfile profilesNames ptpConfigList cfg) acc)
    acc

/-- Lexicographic comparison of two character sequences by code point. -/
def lessChars : List Char → List Char → Bool
  | _, [] => false
  | [], _ :: _ => true
  | a :: as, b :: bs =>
    if a.toNat < b.toNat then true
    else if b.toNat < a.toNat then false
    else lessChars as bs

/-- Go `a < b` on strings: the lexicographic order of the bytes, which for UTF-8 text is the
lexicographic order of the code points. -/
def stringLess (a b : String) : Bool := lessChars a.data b.data

/-- The comparison handed to `sort.SliceStable` (recommend.go 169-171); every name in the
slice is non-nil, set at line 153. -/
def profileNameLess (a b : PtpProfile) : Bool :=
  stringLess (a.Name.getD "") (b.Name.getD "")

/-- How `getRecommendProfiles` ends: a run-time panic (the nil dereference inside
`getRecommendProfilesNames`), the error "Failed to find all the recommended profiles", or
the sorted profiles. -/
inductive RecommendResult where
  | panic
  | error
  | ok (profiles : List PtpProfile)
  deriving DecidableEq, Repr

/-- Embedding of `getRecommendProfiles` (recommend.go 132-174).  The stable sort is an
insertion sort, which leaves entries of equal name in their order. -/
def getRecommendProfiles (ptpConfigList : List PtpConfig) (node : Node) : RecommendResult :=
  match getRecommendProfilesNames ptpConfigList node with
  | none => RecommendResult.panic
  | some profilesNames =>
    let collected := collectProfiles profilesNames ptpConfigList ptpConfigList
      { profiles := [], foundNames := [] }
    if collected.foundNames.length ≠ profilesNames.length then RecommendResult.error
    else
      RecommendResult.ok
        (collected.profiles.insertionSort (fun a b => profileNameLess b a = false))

/-- The copy the loop appends for a profile of `cfg`, if it appends one: the profile has a
name and the name is recommended. -/
def copyIfRecommended (profilesNames : List String) (ptpConfigList : List PtpConfig)
    (cfg : PtpConfig) (profile : PtpProfile) : Option PtpProfile :=
  match profile.Name with
  | none => none
  | some name =>
    if name ∈ profilesNames then some (qualifiedCopy ptpConfigList cfg profile name)
    else none

/-- The list the specification describes: one qualified copy for every profile of every CR
whose name is a recommended name, CR by CR in list order. -/
def recommendedCopies (profilesNames : List String) (ptpConfigList : List PtpConfig) :
    List PtpProfile :=
  ptpConfigList.flatMap (fun cfg =>
    cfg.Spec.Profile.filterMap (copyIfRecommended profilesNames ptpConfigList cfg))

/-- The qualified names of the recommended profiles of the CRs `items`. -/
def qualifiedNames (profilesNames : List String) (items : List PtpConfig) : List String :=
  items.flatMap (fun cfg =>
    ((cfg.Spec.Profile.filterMap (fun p => p.Name)).filter (fun n => decide (n ∈ profilesNames))).map
      (qualifyProfileName cfg.Name))

/-- A profile of the examples with a name and a settings map. -/
def namedProfile (name : String) (settings : List (String × String)) : PtpProfile :=
  { bareProfile name with PtpSettings := settings }

/-- Two custom resources for the worker node: `cr-b` recommends its profile `slave` and
`cr-a` its profile `grandmaster`, both at priority 5; the settings of `slave` refer to other
profiles by unqualified and by qualified name. -/
def profileConfigs : List PtpConfig :=
  [{ Name := "cr-b",
     Spec := { Profile :=
                [namedProfile "slave"
                  [("controllingProfile", "grandmaster"),
                   ("haProfiles", "cr-a_grandmaster, boundary ,missing")],
                 namedProfile "boundary" []],
               Recommend :=
                [{ Profile := some "slave", Priority := some 5,
                   Match := [{ NodeLabel := none, NodeName := some "worker-0" }] }] } },
   { Name := "cr-a",
     Spec := { Profile := [namedProfile "grandmaster" []],
               Recommend :=
                [{ Profile := some "grandmaster", Priority := some 5,
                   Match := [{ NodeLabel := some "node-role.kubernetes.io/worker",
                               NodeName := none }] }] } }]

/-! ## Status conditions (pkg/status/ptpconfig_status.go) -/

/-- The struct `ptpv1.PtpCondition` as `UpsertPtpCondition` reads it: the four fields of the
composite key (`CondType` is the field `Type`), and the remaining fields, which the function
only copies, as one value of any type. -/
structure PtpCondition (β : Type) where
  CondType : String
  Profile : String
  Filename : String
  Process : String
  Rest : β
  deriving DecidableEq, Repr

/-- The test of ptpconfig_status.go 27: equal type, profile, filename and process. -/
def sameKey {β : Type} (c cond : PtpCondition β) : Bool :=
  decide (c.CondType = cond.CondType) && decide (c.Profile = cond.Profile) &&
    decide (c.Filename = cond.Filename) && decide (c.Process = cond.Process)

/-- The loop of ptpconfig_status.go 25-32: the first entry with the key of `cond` is
overwritten; the result is none when no entry has the key (`updated` stays false). -/
def upsertLoop {β : Type} (cond : PtpCondition β) :
    List (PtpCondition β) → Option (List (PtpCondition β))
  | [] => none
  | c :: rest =>
    if sameKey c cond then some (cond :: rest)
    else
      match upsertLoop cond rest with
      | some updated => some (c :: updated)
      | none => none

/-- The conditions after the loop and the append of ptpconfig_status.go 33-35. -/
def upsertCondition {β : Type} (conds : List (PtpCondition β)) (cond : PtpCondition β) :
    List (PtpCondition β) :=
  match upsertLoop cond conds with
  | some updated => updated
  | none => conds ++ [cond]

/-- The constant `maxConditions`. -/
def maxConditions : Nat := 100

/-- The cut of ptpconfig_status.go 38-41: the last `maxConditions` entries. -/
def enforceMaxHistory {β : Type} (conds : List (PtpCondition β)) : List (PtpCondition β) :=
  if conds.length > maxConditions then conds.drop (conds.length - maxConditions) else conds

/-- The conditions handed to `UpdateStatus` by one attempt that fetched `conds`. -/
def writtenConditions {β : Type} (conds : List (PtpCondition β)) (cond : PtpCondition β) :
    List (PtpCondition β) :=
  enforceMaxHistory (upsertCondition conds cond)

/-- What one attempt meets: the conditions of the fetched object (none when `Get` fails) and
whether `UpdateStatus` fails. -/
structure AttemptObs (β : Type) where
  fetched : Option (List (PtpCondition β))
  updateFails : Bool

/-- How `UpsertPtpCondition` returns: nil, the error of `Get`, or the timeout error of the
backoff when every attempt ended in a failed update. -/
inductive UpsertOutcome where
  | done
  | getError
  | timeout
  deriving DecidableEq, Repr

/-- The attempts of `wait.ExponentialBackoff` with `steps` steps left, the attempt number
`i` meeting `obs i`: the lists handed to `UpdateStatus`, in order, and the outcome.  An
attempt ends the retries when `Get` fails (the error is returned) or the update succeeds;
a failed update is retried. -/
def upsertAttempts {β : Type} (obs : Nat → AttemptObs β) (cond : PtpCondition β) :
    Nat → Nat → List (List (PtpCondition β)) × UpsertOutcome
  | 0, _ => ([], UpsertOutcome.timeout)
  | steps + 1, i =>
    match (obs i).fetched with
    | none => ([], UpsertOutcome.getError)
    | some conds =>
      if (obs i).updateFails then
        (writtenConditions conds cond :: (upsertAttempts obs cond steps (i + 1)).1,
          (upsertAttempts obs cond steps (i + 1)).2)
      else ([writtenConditions conds cond], UpsertOutcome.done)

/-- Embedding of `UpsertPtpCondition` (ptpconfig_status.go 15-49): six steps of backoff. -/
def UpsertPtpCondition {β : Type} (obs : Nat → AttemptObs β) (cond : PtpCondition β) :
    List (List (PtpCondition β)) × UpsertOutcome :=
  upsertAttempts obs cond 6 0

/-- A condition of the examples: type, profile, file name, process and a message. -/
def sampleCondition (process message : String) : PtpCondition String :=
  { CondType := "ConfigApplied", Profile := "grandmaster", Filename := "ptp4l.0.config",
    Process := process, Rest := message }

/-- A stored list of 101 conditions: one of process ptp4l followed by a hundred of process
phc2sys. -/
def longHistory : List (PtpCondition String) :=
  sampleCondition "ptp4l" "old" :: List.replicate 100 (sampleCondition "phc2sys" "old")

/-! ## Cipher suites (pkg/tls/tls.go) -/

/-- The identifiers of `crypto/tls` that `opensslToGoCipher` names, with the values the Go
standard library declares for them (the IANA code points); a `uint16` is a natural number
below 65536. -/
def tls.TLS_RSA_WITH_3DES_EDE_CBC_SHA : Nat := 0x000a
def tls.TLS_RSA_WITH_AES_128_CBC_SHA : Nat := 0x002f
def tls.TLS_RSA_WITH_AES_256_CBC_SHA : Nat := 0x0035
def tls.TLS_RSA_WITH_AES_128_CBC_SHA256 : Nat := 0x003c
def tls.TLS_RSA_WITH_AES_128_GCM_SHA256 : Nat := 0x009c
def tls.TLS_RSA_WITH_AES_256_GCM_SHA384 : Nat := 0x009d
def tls.TLS_ECDHE_ECDSA_WITH_AES_128_CBC_SHA : Nat := 0xc009
def tls.TLS_ECDHE_ECDSA_WITH_AES_256_CBC_SHA : Nat := 0xc00a
def tls.TLS_ECDHE_RSA_WITH_AES_128_CBC_SHA : Nat := 0xc013
def tls.TLS_ECDHE_RSA_WITH_AES_256_CBC_SHA : Nat := 0xc014
def tls.TLS_ECDHE_ECDSA_WITH_AES_128_CBC_SHA256 : Nat := 0xc023
def tls.TLS_ECDHE_RSA_WITH_AES_128_CBC_SHA256 : Nat := 0xc027
def tls.TLS_ECDHE_RSA_WITH_AES_128_GCM_SHA256 : Nat := 0xc02f
def tls.TLS_ECDHE_ECDSA_WITH_AES_128_GCM_SHA256 : Nat := 0xc02b
def tls.TLS_ECDHE_RSA_WITH_AES_256_GCM_SHA384 : Nat := 0xc030
def tls.TLS_ECDHE_ECDSA_WITH_AES_256_GCM_SHA384 : Nat := 0xc02c
def tls.TLS_ECDHE_RSA_WITH_CHACHA20_POLY1305_SHA256 : Nat := 0xcca8
def tls.TLS_ECDHE_ECDSA_WITH_CHACHA20_POLY1305_SHA256 : Nat := 0xcca9

/-- The map `opensslToGoCipher` (tls.go 21-40), in source order. -/
def opensslToGoCipher : List (String × Nat) :=
  [("ECDHE-ECDSA-AES128-GCM-SHA256", tls.TLS_ECDHE_ECDSA_WITH_AES_128_GCM_SHA256),
   ("ECDHE-RSA-AES128-GCM-SHA256", tls.TLS_ECDHE_RSA_WITH_AES_128_GCM_SHA256),
   ("ECDHE-ECDSA-AES256-GCM-SHA384", tls.TLS_ECDHE_ECDSA_WITH_AES_256_GCM_SHA384),
   ("ECDHE-RSA-AES256-GCM-SHA384", tls.TLS_ECDHE_RSA_WITH_AES_256_GCM_SHA384),
   ("ECDHE-ECDSA-CHACHA20-POLY1305", tls.TLS_ECDHE_ECDSA_WITH_CHACHA20_POLY1305_SHA256),
   ("ECDHE-RSA-CHACHA20-POLY1305", tls.TLS_ECDHE_RSA_WITH_CHACHA20_POLY1305_SHA256),
   ("ECDHE-ECDSA-AES128-SHA256", tls.TLS_ECDHE_ECDSA_WITH_AES_128_CBC_SHA256),
   ("ECDHE-RSA-AES128-SHA256", tls.TLS_ECDHE_RSA_WITH_AES_128_CBC_SHA256),
   ("ECDHE-ECDSA-AES128-SHA", tls.TLS_ECDHE_ECDSA_WITH_AES_128_CBC_SHA),
   ("ECDHE-RSA-AES128-SHA", tls.TLS_ECDHE_RSA_WITH_AES_128_CBC_SHA),
   ("ECDHE-ECDSA-AES256-SHA", tls.TLS_ECDHE_ECDSA_WITH_AES_256_CBC_SHA),
   ("ECDHE-RSA-AES256-SHA", tls.TLS_ECDHE_RSA_WITH_AES_256_CBC_SHA),
   ("AES128-GCM-SHA256", tls.TLS_RSA_WITH_AES_128_GCM_SHA256),
   ("AES256-GCM-SHA384", tls.TLS_RSA_WITH_AES_256_GCM_SHA384),
   ("AES128-SHA256", tls.TLS_RSA_WITH_AES_128_CBC_SHA256),
   ("AES128-SHA", tls.TLS_RSA_WITH_AES_128_CBC_SHA),
   ("AES256-SHA", tls.TLS_RSA_WITH_AES_256_CBC_SHA),
   ("DES-CBC3-SHA", tls.TLS_RSA_WITH_3DES_EDE_CBC_SHA)]

/-- The map `tls13Ciphers` (tls.go 44-48). -/
def tls13Ciphers : List (String × Bool) :=
  [("TLS_AES_128_GCM_SHA256", true),
   ("TLS_AES_256_GCM_SHA384", true),
   ("TLS_CHACHA20_POLY1305_SHA256", true)]

/-- Go `tls13Ciphers[name]`: the stored value, false for an absent key. -/
def isTLS13 (name : String) : Bool := (lookupKey tls13Ciphers name).getD false

/-- Embedding of `CipherSuites` (tls.go 104-117): the slice `suites` after the loop. -/
def CipherSuites (opensslCiphers : List String) : List Nat :=
  opensslCiphers.foldl
    (fun suites name =>
      if isTLS13 name then suites
      else
        match lookupKey opensslToGoCipher name with
        | some id => suites ++ [id]
        | none => suites)
    []

/-- Whether `CipherSuites` has a Go identifier for a name: it is a key of `opensslToGoCipher`
and not a TLS 1.3 name. -/
def supportedCipher (name : String) : Bool :=
  (lookupKey opensslToGoCipher name).isSome && !isTLS13 name

/-! ## Decimal rendering is injective -/

theorem readDec_snoc (cs : List Char) (c : Char) :
    readDec (cs ++ [c]) = readDec cs * 10 + (c.toNat - 48) := by
  simp [readDec, List.foldl_append]

theorem digitChar_value (d : Nat) (h : d < 10) : (Nat.digitChar d).toNat - 48 = d := by
  interval_cases d <;> decide

theorem toDigitsCore_acc (fuel : Nat) : ∀ (n : Nat) (acc : List Char),
    Nat.toDigitsCore 10 fuel n acc = Nat.toDigitsCore 10 fuel n [] ++ acc := by
  induction fuel with
  | zero => intro n acc; simp [Nat.toDigitsCore]
  | succ fuel ih =>
    intro n acc
    simp only [Nat.toDigitsCore]
    split
    · simp
    · rw [ih (n / 10) (Nat.digitChar (n % 10) :: acc), ih (n / 10) [Nat.digitChar (n % 10)]]
      simp

theorem readDec_toDigitsCore (fuel : Nat) : ∀ n : Nat, n < fuel →
    readDec (Nat.toDigitsCore 10 fuel n []) = n := by
  induction fuel with
  | zero => intro n h; omega
  | succ fuel ih =>
    intro n h
    simp only [Nat.toDigitsCore]
    split
    · have hone : readDec [Nat.digitChar (n % 10)] = (Nat.digitChar (n % 10)).toNat - 48 := by
        simp [readDec]
      rw [hone, digitChar_value _ (Nat.mod_lt n (by decide))]
      omega
    · rw [toDigitsCore_acc, readDec_snoc, ih (n / 10) (by omega),
        digitChar_value _ (Nat.mod_lt n (by decide))]
      omega

theorem sprintNat_injective (a b : Nat) (h : sprintNat a = sprintNat b) : a = b := by
  have hd : Nat.toDigits 10 a = Nat.toDigits 10 b := by
    have hdata := congrArg String.data h
    simpa [sprintNat, Nat.repr, List.asString] using hdata
  have ha := readDec_toDigitsCore (a + 1) a (by omega)
  have hb := readDec_toDigitsCore (b + 1) b (by omega)
  unfold Nat.toDigits at hd
  rw [hd] at ha
  omega

/-! ## Scheduling wrapper (C1, C2) -/

/-- C1: for a profile with policy SCHED_FIFO and a priority p with 1 <= p <= 65, the result
of addScheduling on a command line c is "/bin/chrt -f ", the decimal rendering of p, one
blank and c; the command line built for role ptp4l therefore begins with
"/bin/chrt -f <p> /usr/sbin/ptp4l". -/
theorem addScheduling_fifo (nodeProfile : PtpProfile) (c : String) (p : Int)
    (hpol : nodeProfile.PtpSchedulingPolicy = some "SCHED_FIFO")
    (hprio : nodeProfile.PtpSchedulingPriority = some p) (h1 : 1 ≤ p) (h65 : p ≤ 65) :
    addScheduling nodeProfile c = "/bin/chrt -f " ++ sprintInt p ++ " " ++ c ∧
    sprintInt p = Nat.repr p.toNat ∧
    ∀ (runID : Nat) (opts : String),
      addScheduling nodeProfile (baseCmdLine Role.ptp4l (configPath Role.ptp4l runID) opts)
        = "/bin/chrt -f " ++ sprintInt p ++ " /usr/sbin/ptp4l"
            ++ (" -f " ++ configPath Role.ptp4l runID ++ "  " ++ opts ++ " ") := by
  have hgen : ∀ c : String,
      addScheduling nodeProfile c = "/bin/chrt -f " ++ sprintInt p ++ " " ++ c := by
    intro c
    unfold addScheduling
    rw [if_pos hpol, hprio]
    simp only
    rw [if_neg (by omega)]
  refine ⟨hgen c, ?_, ?_⟩
  · obtain ⟨n, rfl⟩ : ∃ n : Nat, p = Int.ofNat n := ⟨p.toNat, by simp; omega⟩
    simp [sprintInt]
  · intro runID opts
    rw [hgen]
    apply String.ext
    simp [baseCmdLine, Role.name, String.data_append]

/-- Witness of C1: priority 50 on the ptp4l command line of run 0. -/
theorem addScheduling_fifo_witness :
    (fifoProfile 50).PtpSchedulingPolicy = some "SCHED_FIFO" ∧
    (fifoProfile 50).PtpSchedulingPriority = some 50 ∧
    addScheduling (fifoProfile 50) "/usr/sbin/ptp4l -f /var/run/ptp4l.0.config  -2 "
      = "/bin/chrt -f " ++ sprintInt 50 ++ " " ++ "/usr/sbin/ptp4l -f /var/run/ptp4l.0.config  -2 " :=
  ⟨rfl, rfl,
    (addScheduling_fifo (fifoProfile 50) "/usr/sbin/ptp4l -f /var/run/ptp4l.0.config  -2 " 50
      rfl rfl (by decide) (by decide)).1⟩

/-- C2: addScheduling returns the command line as it is when the policy is not SCHED_FIFO
(an absent policy included), or the priority is absent, or the priority is below 1 or
above 65; the function has no error result. -/
theorem addScheduling_default (nodeProfile : PtpProfile) (c : String)
    (h : nodeProfile.PtpSchedulingPolicy ≠ some "SCHED_FIFO" ∨
      nodeProfile.PtpSchedulingPriority = none ∨
      ∃ p : Int, nodeProfile.PtpSchedulingPriority = some p ∧ (p < 1 ∨ 65 < p)) :
    addScheduling nodeProfile c = c := by
  unfold addScheduling
  split
  · rcases h with h | h | ⟨p, hp, hr⟩
    · contradiction
    · rw [h]
    · rw [hp]
      simp only
      rw [if_pos (by omega)]
  · rfl

/-- Witness of C2: priority 99 with policy SCHED_FIFO leaves the command line as it is. -/
theorem addScheduling_default_witness :
    (fifoProfile 99).PtpSchedulingPriority = some 99 ∧
    addScheduling (fifoProfile 99) "/usr/sbin/ptp4l -f /var/run/ptp4l.0.config  -2 "
      = "/usr/sbin/ptp4l -f /var/run/ptp4l.0.config  -2 " :=
  ⟨rfl, addScheduling_default (fifoProfile 99) _
    (Or.inr (Or.inr ⟨99, rfl, Or.inr (by decide)⟩))⟩

/-! ## Derived paths (C5, C6) -/

/-- C5: the control-socket path depends on the run identifier only: for all roles r1, r2
and run identifiers n1, n2, socketPath r1 n1 = socketPath r2 n2 exactly when n1 = n2, and
the path is "/var/run/ptp4l.<n>.socket"; the three roles of a run share one socket and two
runs never do. -/
theorem socketPath_eq_iff (r1 r2 : Role) (n1 n2 : Nat) :
    (socketPath r1 n1 = socketPath r2 n2 ↔ n1 = n2) ∧
    socketPath r1 n1 = "/var/run/ptp4l." ++ sprintNat n1 ++ ".socket" := by
  have hform : ∀ (r : Role) (n : Nat),
      socketPath r n = "/var/run/ptp4l." ++ sprintNat n ++ ".socket" := by
    intro r n; cases r <;> rfl
  refine ⟨⟨fun h => ?_, fun h => ?_⟩, hform r1 n1⟩
  · rw [hform, hform] at h
    have hd := congrArg String.data h
    simp only [String.data_append] at hd
    exact sprintNat_injective _ _
      (String.ext (List.append_cancel_left (List.append_cancel_right hd)))
  · rw [hform, hform, h]

theorem configFile_eq (r : Role) (n : Nat) :
    configFile r n = r.name ++ "." ++ sprintNat n ++ ".config" := by
  cases r <;>
    exact String.ext (by simp [configFile, Role.name, String.data_append])

theorem configPath_inj (r1 r2 : Role) (n1 n2 : Nat) (h : configPath r1 n1 = configPath r2 n2) :
    r1 = r2 ∧ n1 = n2 := by
  have hd := congrArg String.data h
  have e1 : ("ts2phc." : String).data = ['t', 's', '2', 'p', 'h', 'c', '.'] := rfl
  have e2 : ("ptp4l." : String).data = ['p', 't', 'p', '4', 'l', '.'] := rfl
  have e3 : ("phc2sys." : String).data = ['p', 'h', 'c', '2', 's', 'y', 's', '.'] := rfl
  cases r1 <;> cases r2 <;>
    simp only [configPath, configFile, String.data_append, e1, e2, e3,
      List.append_cancel_left_eq, List.cons_append, List.nil_append, List.cons.injEq,
      Char.reduceEq, false_and, and_false, true_and] at hd
  all_goals
    exact ⟨rfl, sprintNat_injective _ _ (String.ext (List.append_cancel_right hd))⟩

/-- C6: the config-file path is "/var/run/<role>.<runID>.config" and identifies the pair of
run identifier and role: configPath r1 n1 = configPath r2 n2 exactly when r1 = r2 and
n1 = n2. -/
theorem configPath_eq_iff (r1 r2 : Role) (n1 n2 : Nat) :
    (configPath r1 n1 = configPath r2 n2 ↔ r1 = r2 ∧ n1 = n2) ∧
    configPath r1 n1 = "/var/run/" ++ (r1.name ++ "." ++ sprintNat n1 ++ ".config") := by
  refine ⟨⟨configPath_inj r1 r2 n1 n2, ?_⟩, ?_⟩
  · rintro ⟨rfl, rfl⟩; rfl
  · rw [configPath, configFile_eq]

/-! ## Injection of the global keys (C7) -/

theorem mapGet_mapSet_same (m : List (String × String)) (k v : String) :
    mapGet (mapSet m k v) k = some v := by
  induction m with
  | nil => simp [mapSet, mapGet]
  | cons e rest ih =>
    obtain ⟨k1, v1⟩ := e
    by_cases hk : k1 = k
    · simp [mapSet, mapGet, hk]
    · simp [mapSet, mapGet, hk, ih]

theorem mapGet_mapSet_other (m : List (String × String)) (k v k2 : String) (h : k2 ≠ k) :
    mapGet (mapSet m k v) k2 = mapGet m k2 := by
  induction m with
  | nil => simp [mapSet, mapGet, Ne.symm h]
  | cons e rest ih =>
    obtain ⟨k1, v1⟩ := e
    by_cases hk : k1 = k
    · subst hk
      simp [mapSet, mapGet, Ne.symm h]
    · by_cases hk2 : k1 = k2
      · subst hk2
        simp [mapSet, mapGet, hk]
      · simp [mapSet, mapGet, hk, hk2, ih]

theorem injectSection_name (tag sock : String) (s : ptp4lConfSection) :
    (injectSection tag sock s).sectionName = s.sectionName := by
  unfold injectSection
  split <;> rfl

theorem injectSection_other (tag sock : String) (s : ptp4lConfSection)
    (h : s.sectionName ≠ "[global]") : injectSection tag sock s = s := by
  simp [injectSection, h]

theorem injectGlobal_names (tag sock : String) (sections : List ptp4lConfSection) :
    (injectGlobal tag sock sections).map (fun t => t.sectionName)
      = sections.map (fun t => t.sectionName) := by
  simp [injectGlobal, List.map_map, Function.comp_def, injectSection_name]

/-- C7: the injection step keeps the number and the names of the sections in order; a
section named "[global]" afterwards maps message_tag to the message tag and uds_address to
the socket path and maps every other key to what it mapped before (no other key is added
or removed); a section with another name is unchanged. -/
theorem injectGlobal_frame (tag sock : String) (sections : List ptp4lConfSection)
    (i : Nat) (s : ptp4lConfSection) (hs : sections[i]? = some s) :
    (injectGlobal tag sock sections).length = sections.length ∧
    (injectGlobal tag sock sections).map (fun t => t.sectionName)
      = sections.map (fun t => t.sectionName) ∧
    ∃ t : ptp4lConfSection, (injectGlobal tag sock sections)[i]? = some t ∧
      t.sectionName = s.sectionName ∧
      (s.sectionName = "[global]" →
        mapGet t.options "message_tag" = some tag ∧
        mapGet t.options "uds_address" = some sock ∧
        ∀ k : String, k ≠ "message_tag" → k ≠ "uds_address" →
          mapGet t.options k = mapGet s.options k) ∧
      (s.sectionName ≠ "[global]" → t = s) := by
  refine ⟨by simp [injectGlobal], injectGlobal_names tag sock sections,
    injectSection tag sock s, ?_, injectSection_name tag sock s, ?_, ?_⟩
  · simp [injectGlobal, List.getElem?_map, hs]
  · intro hg
    simp only [injectSection, hg, if_true]
    refine ⟨?_, mapGet_mapSet_same _ _ _, ?_⟩
    · rw [mapGet_mapSet_other _ _ _ _ (by decide), mapGet_mapSet_same]
    · intro k h1 h2
      rw [mapGet_mapSet_other _ _ _ _ h2, mapGet_mapSet_other _ _ _ _ h1]
  · exact injectSection_other tag sock s

/-- Witness of C7: an interface section and a global section that already has a message
tag; the tag is overwritten, the socket path added, the other key and section kept. -/
theorem injectGlobal_frame_witness :
    ([⟨"[ens1]", [("masterOnly", "1")]⟩,
        ⟨"[global]", [("domainNumber", "24"), ("message_tag", "old")]⟩]
        : List ptp4lConfSection)[1]?
      = some ⟨"[global]", [("domainNumber", "24"), ("message_tag", "old")]⟩ ∧
    injectGlobal "[ptp4l.0.config]" "/var/run/ptp4l.0.socket"
        [⟨"[ens1]", [("masterOnly", "1")]⟩,
          ⟨"[global]", [("domainNumber", "24"), ("message_tag", "old")]⟩]
      = [⟨"[ens1]", [("masterOnly", "1")]⟩,
         ⟨"[global]", [("domainNumber", "24"), ("message_tag", "[ptp4l.0.config]"),
            ("uds_address", "/var/run/ptp4l.0.socket")]⟩] ∧
    (injectGlobal "[ptp4l.0.config]" "/var/run/ptp4l.0.socket"
        [⟨"[ens1]", [("masterOnly", "1")]⟩,
          ⟨"[global]", [("domainNumber", "24"), ("message_tag", "old")]⟩]).length = 2 :=
  ⟨rfl, by decide,
    (injectGlobal_frame "[ptp4l.0.config]" "/var/run/ptp4l.0.socket"
      [⟨"[ens1]", [("masterOnly", "1")]⟩,
        ⟨"[global]", [("domainNumber", "24"), ("message_tag", "old")]⟩]
      1 ⟨"[global]", [("domainNumber", "24"), ("message_tag", "old")]⟩ rfl).1⟩

/-! ## Interface section (C8, C9) -/

theorem bracket_inj (a b : String) (h : "[" ++ a ++ "]" = "[" ++ b ++ "]") : a = b := by
  have hd := congrArg String.data h
  simp only [String.data_append] at hd
  exact String.ext (List.append_cancel_left (List.append_cancel_right hd))

theorem interfaceStep_sections (nodeProfile : PtpProfile) (output : ptp4lConf) (iface : String)
    (hI : nodeProfile.Interface = some iface) (hne : iface ≠ "") :
    (interfaceStep nodeProfile output).1.sections = interfaceSection iface :: output.sections := by
  simp [interfaceStep, hI, hne]

theorem countNamed_cons (n : String) (s : ptp4lConfSection) (rest : List ptp4lConfSection) :
    countNamed n (s :: rest) = countNamed n rest + (if s.sectionName = n then 1 else 0) := by
  simp [countNamed, List.count_cons]

/-- C9 (as amended): for a profile with a non-empty interface name I the interface step
prepends a new empty section "[I]" whatever the input holds: the number of sections named
"[I]" grows by exactly one, the number of sections of any other name is unchanged, and the
section names are pairwise distinct afterwards exactly when they were so before and no
section was named "[I]". -/
theorem interfaceStep_prepends (nodeProfile : PtpProfile) (output : ptp4lConf) (iface : String)
    (hI : nodeProfile.Interface = some iface) (hne : iface ≠ "") :
    (interfaceStep nodeProfile output).1.sections = interfaceSection iface :: output.sections ∧
    countNamed ("[" ++ iface ++ "]") (interfaceStep nodeProfile output).1.sections
      = countNamed ("[" ++ iface ++ "]") output.sections + 1 ∧
    (∀ n : String, n ≠ "[" ++ iface ++ "]" →
      countNamed n (interfaceStep nodeProfile output).1.sections
        = countNamed n output.sections) ∧
    (((interfaceStep nodeProfile output).1.sections.map (fun s => s.sectionName)).Nodup ↔
      (output.sections.map (fun s => s.sectionName)).Nodup ∧
        countNamed ("[" ++ iface ++ "]") output.sections = 0) := by
  rw [interfaceStep_sections nodeProfile output iface hI hne]
  refine ⟨rfl, ?_, ?_, ?_⟩
  · rw [countNamed_cons]
    simp [interfaceSection]
  · intro n hn
    rw [countNamed_cons]
    simp [interfaceSection, Ne.symm hn]
  · simp only [List.map_cons, List.nodup_cons, countNamed, List.count_eq_zero, interfaceSection]
    exact And.comm

/-- C9 (counterexample): with interface ens1 and a section list that already holds "[ens1]"
(what a previous render of the same profile produces), the interface step yields two
sections named "[ens1]"; applying the same profile twice writes a config file with the
section twice. -/
theorem interfaceStep_duplicates :
    ens1Profile.Interface = some "ens1" ∧
    ((interfaceStep ens1Profile
        { sections := [⟨"[ens1]", []⟩, ⟨"[global]", [("message_tag", "[ptp4l.0.config]")]⟩],
          profile_name := "ens1-profile" }).1.sections.map (fun s => s.sectionName))
      = ["[ens1]", "[ens1]", "[global]"] ∧
    (applyNodePTPProfiles sampleEnv
        (spawned (applyNodePTPProfiles sampleEnv (idleDaemon [ens1Profile])).1)).1.files
      = [("/var/run/ptp4l.0.config",
          "[ens1]\n[ens1]\n[global]\ntx_timestamp_timeout 50\nmessage_tag [ptp4l.0.config]\nuds_address /var/run/ptp4l.0.socket")] := by
  decide

/-- Witness of C9 (as amended): interface ens1 on a list that holds "[ens1]" once. -/
theorem interfaceStep_prepends_witness :
    ens1Profile.Interface = some "ens1" ∧ ("ens1" : String) ≠ "" ∧
    countNamed ("[" ++ "ens1" ++ "]")
        (interfaceStep ens1Profile { sections := [⟨"[ens1]", []⟩], profile_name := "" }).1.sections
      = countNamed ("[" ++ "ens1" ++ "]") [⟨"[ens1]", []⟩] + 1 :=
  ⟨rfl, by decide,
    (interfaceStep_prepends ens1Profile { sections := [⟨"[ens1]", []⟩], profile_name := "" }
      "ens1" rfl (by decide)).2.1⟩

theorem injectedConf_sections (p : Role) (runID : Nat) (nodeProfile : PtpProfile)
    (name : String) (parsed : ptp4lConf) (iface : String)
    (hI : nodeProfile.Interface = some iface) (hne : iface ≠ "") (hng : iface ≠ "global") :
    (injectedConf p runID nodeProfile name parsed).sections
      = interfaceSection iface
          :: injectGlobal (messageTag p runID) (socketPath p runID) parsed.sections := by
  have hname : (interfaceSection iface).sectionName ≠ "[global]" := by
    intro h
    exact hng (bracket_inj iface "global" h)
  simp only [injectedConf]
  rw [interfaceStep_sections _ _ iface hI hne]
  simp only [injectGlobal, List.map_cons]
  rw [injectSection_other _ _ _ hname]

/-- C8: for every profile with a non-empty interface name I and every section list the
parser returns (which holds a global section, as section 4.1 requires of the parser) that has
no section named "[I]", the list after the interface and injection steps is "[I]" with an
empty option map followed by the parsed sections in their order (those named "[global]" with
the injected keys); and when the monitoring hook keeps the sections as its contract says,
the list handed to rendering starts with that empty "[I]" section, which is its first
non-global section and the only one of its name, placed ahead of all other sections, and the
remaining sections have the names of the parsed ones in their order, the non-global ones
unchanged. -/
theorem interface_section_first (ops : ConfigOps) (hops : HookKeepsSections ops)
    (hreq : RequiresGlobal ops)
    (p : Role) (runID : Nat) (nodeProfile : PtpProfile) (name opts : String)
    (parsed : ptp4lConf) (iface : String)
    (hparse : ops.populatePtp4lConf (configInput nodeProfile p) = Except.ok parsed)
    (hI : nodeProfile.Interface = some iface) (hne : iface ≠ "")
    (hno : ∀ s ∈ parsed.sections, s.sectionName ≠ "[" ++ iface ++ "]") :
    (injectedConf p runID nodeProfile name parsed).sections
      = interfaceSection iface
          :: injectGlobal (messageTag p runID) (socketPath p runID) parsed.sections ∧
    interfaceSection iface = { sectionName := "[" ++ iface ++ "]", options := [] } ∧
    ∃ rest : List ptp4lConfSection,
      (renderInput ops p runID nodeProfile name opts parsed).1.sections
        = interfaceSection iface :: rest ∧
      (interfaceSection iface).sectionName ≠ "[global]" ∧
      (renderInput ops p runID nodeProfile name opts parsed).1.sections.find?
          (fun s => decide (s.sectionName ≠ "[global]"))
        = some (interfaceSection iface) ∧
      rest.map (fun s => s.sectionName) = parsed.sections.map (fun s => s.sectionName) ∧
      (∀ (i : Nat) (s : ptp4lConfSection), parsed.sections[i]? = some s →
        s.sectionName ≠ "[global]" → rest[i]? = some s) ∧
      countNamed ("[" ++ iface ++ "]") (interfaceSection iface :: rest) = 1 := by
  have hng : iface ≠ "global" := by
    intro h
    obtain ⟨s, hs, hsn⟩ := hreq _ _ hparse
    exact hno s hs (by rw [hsn, h]; rfl)
  have hinj := injectedConf_sections p runID nodeProfile name parsed iface hI hne hng
  have hname : (interfaceSection iface).sectionName ≠ "[global]" := by
    intro h
    exact hng (bracket_inj iface "global" h)
  refine ⟨hinj, rfl, ?_⟩
  obtain ⟨hnames, hkeep⟩ := hops p opts (injectedConf p runID nodeProfile name parsed)
  have h0 := hkeep 0 (interfaceSection iface) (by rw [hinj]; simp) hname
  simp only [renderInput]
  cases hsec : (ops.addFlagsForMonitor p opts (injectedConf p runID nodeProfile name parsed)).2.sections with
  | nil => rw [hsec] at h0; simp at h0
  | cons a rest =>
    rw [hsec] at h0 hnames
    have ha : a = interfaceSection iface := by simpa using h0
    subst ha
    have hrest : rest.map (fun s => s.sectionName)
        = parsed.sections.map (fun s => s.sectionName) := by
      rw [hinj] at hnames
      simp only [List.map_cons, List.cons.injEq, true_and] at hnames
      rw [hnames, injectGlobal_names]
    refine ⟨rest, rfl, hname, ?_, hrest, ?_, ?_⟩
    · simp [List.find?_cons, hname]
    · intro i s hs hsg
      have h1 := hkeep (i + 1) s (by
        rw [hinj]
        simp [injectGlobal, List.getElem?_map, hs, injectSection_other _ _ _ hsg]) hsg
      rw [hsec] at h1
      simpa using h1
    · rw [countNamed_cons]
      have hz : countNamed ("[" ++ iface ++ "]") rest = 0 := by
        simp only [countNamed, hrest]
        rw [List.count_eq_zero]
        intro hmem
        obtain ⟨s, hs, hsn⟩ := List.mem_map.mp hmem
        exact hno s hs hsn
      simp [hz, interfaceSection]

theorem sampleOps_keeps : HookKeepsSections sampleOps := by
  intro p opts conf
  exact ⟨rfl, fun i s hs _ => hs⟩

theorem sampleRequireGlobal_ok (sections : List ptp4lConfSection) (parsed : ptp4lConf)
    (h : sampleRequireGlobal sections = Except.ok parsed) :
    ∃ s ∈ parsed.sections, s.sectionName = "[global]" := by
  unfold sampleRequireGlobal at h
  split at h
  · rename_i hany
    cases h
    obtain ⟨s, hs, hsn⟩ := List.any_eq_true.mp hany
    exact ⟨s, hs, by simpa using hsn⟩
  · cases h

/-- The parser of the examples meets the contract of section 4.1: what it returns holds a
global section. -/
theorem sampleOps_requires_global : RequiresGlobal sampleOps := by
  intro config parsed h
  have h2 : samplePopulate config = Except.ok parsed := h
  unfold samplePopulate at h2
  cases config with
  | none => exact sampleRequireGlobal_ok _ _ h2
  | some text =>
    simp only at h2
    split at h2
    · cases h2
    · exact sampleRequireGlobal_ok _ _ h2

/-- Witness of C8: interface ens1 and the parsed config text of the profile, a global section
with one option. -/
theorem interface_section_first_witness :
    HookKeepsSections sampleOps ∧ RequiresGlobal sampleOps ∧
    sampleOps.populatePtp4lConf (configInput ens1Profile Role.ptp4l)
      = Except.ok { sections := [⟨"[global]", [("tx_timestamp_timeout", "50")]⟩],
                    profile_name := "" } ∧
    ens1Profile.Interface = some "ens1" ∧
    (injectedConf Role.ptp4l 0 ens1Profile "ens1-profile"
        { sections := [⟨"[global]", [("tx_timestamp_timeout", "50")]⟩],
          profile_name := "" }).sections
      = interfaceSection "ens1"
          :: injectGlobal (messageTag Role.ptp4l 0) (socketPath Role.ptp4l 0)
              [⟨"[global]", [("tx_timestamp_timeout", "50")]⟩] :=
  ⟨sampleOps_keeps, sampleOps_requires_global, rfl, rfl,
    (interface_section_first sampleOps sampleOps_keeps sampleOps_requires_global Role.ptp4l 0
      ens1Profile "ens1-profile" "-2"
      { sections := [⟨"[global]", [("tx_timestamp_timeout", "50")]⟩], profile_name := "" } "ens1"
      rfl rfl (by decide) (by decide)).1⟩

/-! ## The role loop of applyNodePtpProfile (C3) -/

theorem splitList_ne_nil (sep : Char) (cs : List Char) : splitList sep cs ≠ [] := by
  cases cs with
  | nil => simp [splitList]
  | cons c rest =>
    simp only [splitList]
    split
    · simp
    · split <;> simp

theorem stringsSplit_ne_nil (s : String) (sep : Char) : stringsSplit s sep ≠ [] := by
  simp [stringsSplit, splitList_ne_nil]

theorem configOpts_storeConfigInput (nodeProfile : PtpProfile) (p r : Role) (v : String) :
    configOpts (storeConfigInput nodeProfile p v) r = configOpts nodeProfile r := by
  cases p <;> simp only [storeConfigInput] <;> split <;> cases r <;> rfl

theorem configOpts_storeOpts (nodeProfile : PtpProfile) (p r : Role) (v : String) (h : r ≠ p) :
    configOpts (storeOpts nodeProfile p v) r = configOpts nodeProfile r := by
  cases p <;> cases r <;> first
    | exact absurd rfl h
    | (simp only [storeOpts]; split <;> rfl)

theorem configOpts_interfaceStep (nodeProfile : PtpProfile) (output : ptp4lConf) (r : Role) :
    configOpts (interfaceStep nodeProfile output).2 r = configOpts nodeProfile r := by
  unfold interfaceStep
  split
  · split <;> cases r <;> rfl
  · cases r <;> rfl

/-- The three ways an iteration of the role loop can end. -/
theorem applyRole_spec (env : Env) (runID : Nat) (dn : Daemon) (nodeProfile : PtpProfile)
    (p : Role) :
    ∃ profile1 : PtpProfile,
      (∀ r : Role, r ≠ p → configOpts profile1 r = configOpts nodeProfile r) ∧
      ((skipsRole nodeProfile p = true ∧
          applyRole env runID dn nodeProfile p = ((dn, nodeProfile), none)) ∨
       (skipsRole nodeProfile p = false ∧
          ∃ e, applyRole env runID dn nodeProfile p = ((dn, profile1), some e)) ∨
       (skipsRole nodeProfile p = false ∧
          ∃ (d : ptpProcess) (content : String),
            descriptorKey d = roleKey runID p ∧
            applyRole env runID dn nodeProfile p =
              (({ dn with
                  files := mapSet dn.files (configPath p runID) content
                  log := dn.log ++ [Event.writeFile (configPath p runID) content]
                  process := dn.process ++ [d] }, profile1), none))) := by
  unfold applyRole skipsRole
  split
  · exact ⟨nodeProfile, fun _ _ => rfl, Or.inl ⟨rfl, rfl⟩⟩
  · rename_i opts hopts
    split
    · rename_i he
      exact ⟨nodeProfile, fun _ _ => rfl, Or.inl ⟨by simp [he], rfl⟩⟩
    · rename_i he
      have hskip : decide (opts = "") = false := by simp [he]
      split
      · exact ⟨nodeProfile, fun _ _ => rfl, Or.inr (Or.inl ⟨hskip, _, rfl⟩)⟩
      · split
        · exact ⟨nodeProfile, fun _ _ => rfl, Or.inr (Or.inl ⟨hskip, _, rfl⟩)⟩
        · have hkeep : ∀ (a b : String) (out : ptp4lConf) (r : Role), r ≠ p →
              configOpts (storeConfigInput (storeOpts (interfaceStep nodeProfile out).2 p a) p b) r
                = configOpts nodeProfile r := by
            intro a b out r hr
            rw [configOpts_storeConfigInput, configOpts_storeOpts _ _ _ _ hr,
              configOpts_interfaceStep]
          simp only
          split
          · exact ⟨_, hkeep _ _ _, Or.inr (Or.inl ⟨hskip, _, rfl⟩)⟩
          · split
            · exact ⟨_, hkeep _ _ _, Or.inr (Or.inl ⟨hskip, _, rfl⟩)⟩
            · refine ⟨_, hkeep _ _ _, Or.inr (Or.inr ⟨hskip, _, _, ?_, rfl⟩)⟩
              rfl

theorem launched_append (l1 l2 : List Event) : launched (l1 ++ l2) = launched l1 ++ launched l2 := by
  induction l1 with
  | nil => rfl
  | cons e rest ih => cases e <;> simp [launched, ih]

theorem writtenPaths_append (l1 l2 : List Event) :
    writtenPaths (l1 ++ l2) = writtenPaths l1 ++ writtenPaths l2 := by
  induction l1 with
  | nil => rfl
  | cons e rest ih => cases e <;> simp [writtenPaths, ih]

theorem launched_goCmdRun (ps : List ptpProcess) : launched (ps.map Event.goCmdRun) = ps := by
  induction ps with
  | nil => rfl
  | cons p rest ih => simp [launched, ih]

theorem skipsRole_congr (a b : PtpProfile) (r : Role) (h : configOpts a r = configOpts b r) :
    skipsRole a r = skipsRole b r := by
  simp [skipsRole, h]

theorem activeRoles_congr (a b : PtpProfile) (roles : List Role)
    (h : ∀ r ∈ roles, configOpts a r = configOpts b r) :
    activeRoles a roles = activeRoles b roles := by
  unfold activeRoles
  apply List.filter_congr
  intro r hr
  rw [skipsRole_congr a b r (h r hr)]

/-- Effect of the role loop on the daemon, for a list of pairwise distinct roles. -/
theorem applyRoles_spec (env : Env) (runID : Nat) (roles : List Role) (hnd : roles.Nodup) :
    ∀ (dn : Daemon) (nodeProfile : PtpProfile),
    ∃ ds : List ptpProcess,
      (applyRoles env runID roles dn nodeProfile).1.1.process = dn.process ++ ds ∧
      writtenPaths (applyRoles env runID roles dn nodeProfile).1.1.log
        = writtenPaths dn.log ++ ds.map (fun d => d.ptp4lConfigPath) ∧
      launched (applyRoles env runID roles dn nodeProfile).1.1.log = launched dn.log ∧
      (applyRoles env runID roles dn nodeProfile).1.1.nodeProfiles = dn.nodeProfiles ∧
      (applyRoles env runID roles dn nodeProfile).1.1.plugins = dn.plugins ∧
      ds.map descriptorKey <+: (activeRoles nodeProfile roles).map (roleKey runID) ∧
      ((applyRoles env runID roles dn nodeProfile).2 = none →
        ds.map descriptorKey = (activeRoles nodeProfile roles).map (roleKey runID)) := by
  induction roles with
  | nil =>
    intro dn nodeProfile
    exact ⟨[], by simp [applyRoles], by simp [applyRoles], rfl, rfl, rfl, by simp [activeRoles],
      fun _ => by simp [activeRoles]⟩
  | cons p rest ih =>
    intro dn nodeProfile
    have hp : p ∉ rest := (List.nodup_cons.mp hnd).1
    have hrest : rest.Nodup := (List.nodup_cons.mp hnd).2
    obtain ⟨profile1, hopts, hcase⟩ := applyRole_spec env runID dn nodeProfile p
    rcases hcase with ⟨hskip, hrun⟩ | ⟨hskip, e, hrun⟩ | ⟨hskip, d, content, hkey, hrun⟩
    · have hact : activeRoles nodeProfile (p :: rest) = activeRoles nodeProfile rest := by
        simp [activeRoles, List.filter_cons, hskip]
      have happ : applyRoles env runID (p :: rest) dn nodeProfile
          = applyRoles env runID rest dn nodeProfile := by
        simp only [applyRoles, hrun]
      rw [happ, hact]
      exact ih hrest dn nodeProfile
    · have happ : applyRoles env runID (p :: rest) dn nodeProfile = ((dn, profile1), some e) := by
        simp only [applyRoles, hrun]
      rw [happ]
      exact ⟨[], by simp, by simp, rfl, rfl, rfl, List.nil_prefix, fun h => by simp at h⟩
    · have hact : activeRoles nodeProfile (p :: rest) = p :: activeRoles profile1 rest := by
        have hsame : activeRoles profile1 rest = activeRoles nodeProfile rest :=
          activeRoles_congr _ _ _ (fun r hr => hopts r (fun h => hp (h ▸ hr)))
        rw [hsame]
        simp [activeRoles, List.filter_cons, hskip]
      have hpath : d.ptp4lConfigPath = configPath p runID := by
        have := congrArg (fun k => k.2.2) hkey
        simpa [descriptorKey, roleKey] using this
      have happ : applyRoles env runID (p :: rest) dn nodeProfile
          = applyRoles env runID rest
              { dn with
                files := mapSet dn.files (configPath p runID) content
                log := dn.log ++ [Event.writeFile (configPath p runID) content]
                process := dn.process ++ [d] } profile1 := by
        simp only [applyRoles, hrun]
      rw [happ, hact]
      obtain ⟨ds, h1, h2, h3, h4, h5, h6, h7⟩ := ih hrest
        { dn with
          files := mapSet dn.files (configPath p runID) content
          log := dn.log ++ [Event.writeFile (configPath p runID) content]
          process := dn.process ++ [d] } profile1
      refine ⟨d :: ds, ?_, ?_, ?_, h4, h5, ?_, ?_⟩
      · rw [h1]; simp
      · rw [h2, writtenPaths_append]; simp [writtenPaths, hpath]
      · rw [h3, launched_append]; simp [launched]
      · simp only [List.map_cons, hkey]
        exact (List.prefix_cons_inj _).mpr h6
      · intro hnone
        simp only [List.map_cons, hkey, h7 hnone]

theorem launched_hooks_change (plugins : List Plugin) (nodeProfile : PtpProfile) :
    launched (plugins.map (fun pl => Event.onPTPConfigChange pl.Name nodeProfile)) = [] := by
  induction plugins with
  | nil => rfl
  | cons pl rest ih => simp [launched, ih]

theorem writtenPaths_hooks_change (plugins : List Plugin) (nodeProfile : PtpProfile) :
    writtenPaths (plugins.map (fun pl => Event.onPTPConfigChange pl.Name nodeProfile)) = [] := by
  induction plugins with
  | nil => rfl
  | cons pl rest ih => simp [writtenPaths, ih]

theorem launched_hooks_populate (plugins : List Plugin) :
    launched (plugins.map (fun pl => Event.populateHwConfig pl.Name)) = [] := by
  induction plugins with
  | nil => rfl
  | cons pl rest ih => simp [launched, ih]

theorem writtenPaths_hooks_populate (plugins : List Plugin) :
    writtenPaths (plugins.map (fun pl => Event.populateHwConfig pl.Name)) = [] := by
  induction plugins with
  | nil => rfl
  | cons pl rest ih => simp [writtenPaths, ih]

theorem ptp_processes_nodup : ptp_processes.Nodup := by decide

/-- Effect of `applyNodePtpProfile` on the daemon. -/
theorem applyNodePtpProfile_spec (env : Env) (runID : Nat) (dn : Daemon)
    (nodeProfile : PtpProfile) :
    ∃ ds : List ptpProcess,
      (applyNodePtpProfile env runID dn nodeProfile).1.1.process = dn.process ++ ds ∧
      writtenPaths (applyNodePtpProfile env runID dn nodeProfile).1.1.log
        = writtenPaths dn.log ++ ds.map (fun d => d.ptp4lConfigPath) ∧
      launched (applyNodePtpProfile env runID dn nodeProfile).1.1.log = launched dn.log ∧
      (applyNodePtpProfile env runID dn nodeProfile).1.1.nodeProfiles = dn.nodeProfiles ∧
      (applyNodePtpProfile env runID dn nodeProfile).1.1.plugins = dn.plugins ∧
      ds.map descriptorKey <+: (activeRoles nodeProfile ptp_processes).map (roleKey runID) ∧
      ((applyNodePtpProfile env runID dn nodeProfile).2 = none →
        ds.map descriptorKey = (activeRoles nodeProfile ptp_processes).map (roleKey runID)) := by
  obtain ⟨ds, h1, h2, h3, h4, h5, h6, h7⟩ :=
    applyRoles_spec env runID ptp_processes ptp_processes_nodup
      (OnPTPConfigChange dn nodeProfile) nodeProfile
  have hw : writtenPaths (OnPTPConfigChange dn nodeProfile).log = writtenPaths dn.log := by
    simp [OnPTPConfigChange, writtenPaths_append, writtenPaths_hooks_change]
  have hl : launched (OnPTPConfigChange dn nodeProfile).log = launched dn.log := by
    simp [OnPTPConfigChange, launched_append, launched_hooks_change]
  rw [hw] at h2
  rw [hl] at h3
  refine ⟨ds, ?_⟩
  unfold applyNodePtpProfile
  split
  · rename_i st e heq
    rw [heq] at h1 h2 h3 h4 h5 h7
    exact ⟨h1, h2, h3, h4, h5, h6, fun h => by simp at h⟩
  · rename_i dn1 profile1 heq
    rw [heq] at h1 h2 h3 h4 h5 h7
    refine ⟨h1, ?_, ?_, h4, h5, h6, fun _ => h7 rfl⟩
    · simpa [PopulateHwConfig, writtenPaths_append, writtenPaths_hooks_populate] using h2
    · simpa [PopulateHwConfig, launched_append, launched_hooks_populate] using h3

theorem Role.name_inj (r1 r2 : Role) (h : r1.name = r2.name) : r1 = r2 := by
  cases r1 <;> cases r2 <;> first | rfl | (exact absurd h (by decide))

theorem activeRoles_count (nodeProfile : PtpProfile) (r : Role)
    (h : skipsRole nodeProfile r = false) :
    ((activeRoles nodeProfile ptp_processes).map Role.name).count r.name = 1 := by
  cases h1 : skipsRole nodeProfile Role.ts2phc <;>
  cases h2 : skipsRole nodeProfile Role.ptp4l <;>
  cases h3 : skipsRole nodeProfile Role.phc2sys <;>
  cases r <;>
  simp_all [activeRoles, ptp_processes, List.filter_cons, Role.name, List.count_cons]

theorem skipsRole_iff (nodeProfile : PtpProfile) :
    (skipsRole nodeProfile Role.ts2phc = true ↔
      nodeProfile.Ts2PhcOpts = none ∨ nodeProfile.Ts2PhcOpts = some "") ∧
    (skipsRole nodeProfile Role.phc2sys = true ↔
      nodeProfile.Phc2sysOpts = none ∨ nodeProfile.Phc2sysOpts = some "") ∧
    (skipsRole nodeProfile Role.ptp4l = true ↔ nodeProfile.Ptp4lOpts = some "") := by
  refine ⟨?_, ?_, ?_⟩
  · cases h : nodeProfile.Ts2PhcOpts <;> simp [skipsRole, configOpts, h]
  · cases h : nodeProfile.Phc2sysOpts <;> simp [skipsRole, configOpts, h]
  · cases h : nodeProfile.Ptp4lOpts <;> simp [skipsRole, configOpts, h]

/-- C3 (as amended): the roles ts2phc and phc2sys are skipped when their option string is
absent or empty, the role ptp4l only when its option string is empty (an absent one is
replaced by one blank).  For every call of applyNodePtpProfile the group grows by a list of
descriptors and the written config files are those of these descriptors; a skipped role
has no descriptor and no written file among them; and when the call returns no error, a
role that is not skipped has exactly one descriptor among them. -/
theorem role_skip_or_one_descriptor (env : Env) (runID : Nat) (dn : Daemon)
    (nodeProfile : PtpProfile) :
    ((skipsRole nodeProfile Role.ts2phc = true ↔
        nodeProfile.Ts2PhcOpts = none ∨ nodeProfile.Ts2PhcOpts = some "") ∧
      (skipsRole nodeProfile Role.phc2sys = true ↔
        nodeProfile.Phc2sysOpts = none ∨ nodeProfile.Phc2sysOpts = some "") ∧
      (skipsRole nodeProfile Role.ptp4l = true ↔ nodeProfile.Ptp4lOpts = some "")) ∧
    ∃ added : List ptpProcess,
      (applyNodePtpProfile env runID dn nodeProfile).1.1.process = dn.process ++ added ∧
      writtenPaths (applyNodePtpProfile env runID dn nodeProfile).1.1.log
        = writtenPaths dn.log ++ added.map (fun d => d.ptp4lConfigPath) ∧
      ∀ r : Role,
        (skipsRole nodeProfile r = true →
          (∀ d ∈ added, d.name ≠ r.name) ∧
          configPath r runID ∉ added.map (fun d => d.ptp4lConfigPath)) ∧
        (skipsRole nodeProfile r = false →
          (applyNodePtpProfile env runID dn nodeProfile).2 = none →
          (added.map (fun d => d.name)).count r.name = 1) := by
  refine ⟨skipsRole_iff nodeProfile, ?_⟩
  obtain ⟨ds, h1, h2, _, _, _, h6, h7⟩ := applyNodePtpProfile_spec env runID dn nodeProfile
  refine ⟨ds, h1, h2, fun r => ⟨fun hskip => ?_, fun hrun hnone => ?_⟩⟩
  · have hsrc : ∀ d ∈ ds, ∃ r2 : Role, skipsRole nodeProfile r2 = false ∧
        descriptorKey d = roleKey runID r2 := by
      intro d hd
      have hmem : descriptorKey d ∈ (activeRoles nodeProfile ptp_processes).map (roleKey runID) :=
        h6.subset (List.mem_map_of_mem _ hd)
      obtain ⟨r2, hr2, hk⟩ := List.mem_map.mp hmem
      have hact : skipsRole nodeProfile r2 = false := by
        have := (List.mem_filter.mp hr2).2
        simpa using this
      exact ⟨r2, hact, hk.symm⟩
    constructor
    · intro d hd hname
      obtain ⟨r2, hact, hk⟩ := hsrc d hd
      have hn : d.name = r2.name := congrArg (fun k => k.1) hk
      have : r2 = r := Role.name_inj _ _ (hn ▸ hname)
      rw [this, hskip] at hact
      exact absurd hact (by decide)
    · intro hmem
      obtain ⟨d, hd, hpath⟩ := List.mem_map.mp hmem
      obtain ⟨r2, hact, hk⟩ := hsrc d hd
      have hp : d.ptp4lConfigPath = configPath r2 runID := congrArg (fun k => k.2.2) hk
      have : r2 = r := (configPath_inj r2 r runID runID (hp ▸ hpath)).1
      rw [this, hskip] at hact
      exact absurd hact (by decide)
  · have hnames : ds.map (fun d => d.name)
        = (activeRoles nodeProfile ptp_processes).map Role.name := by
      have := congrArg (List.map (fun k : String × String × String => k.1)) (h7 hnone)
      simpa [List.map_map, Function.comp_def, descriptorKey, roleKey] using this
    rw [hnames]
    exact activeRoles_count nodeProfile r hrun

/-- C3 (counterexample): a profile with no ptp4l option string (and no other option) still
gets a ptp4l descriptor and a written config file; and a profile with non-empty ptp4l
options gets no descriptor when the call ends in an error (here the write of the file). -/
theorem ptp4l_absent_opts_not_skipped :
    (bareProfile "a").Ptp4lOpts = none ∧
    configOpts (bareProfile "a") Role.ptp4l = some " " ∧
    skipsRole (bareProfile "a") Role.ptp4l = false ∧
    (applyNodePtpProfile sampleEnv 0 (idleDaemon []) (bareProfile "a")).2 = none ∧
    (applyNodePtpProfile sampleEnv 0 (idleDaemon []) (bareProfile "a")).1.1.process.map
        (fun d => (d.name, d.configName, d.cmd))
      = [("ptp4l", "ptp4l.0.config",
          some ⟨["/usr/sbin/ptp4l", "-f", "/var/run/ptp4l.0.config", "", "", "", ""], none⟩)] ∧
    (applyNodePtpProfile sampleEnv 0 (idleDaemon []) (bareProfile "a")).1.1.files
      = [("/var/run/ptp4l.0.config",
          "[global]\nmessage_tag [ptp4l.0.config]\nuds_address /var/run/ptp4l.0.socket")] ∧
    optsOnlyProfile.Ptp4lOpts = some "-2" ∧
    (applyNodePtpProfile readOnlyEnv 0 (idleDaemon []) optsOnlyProfile).2
      = some (ApplyError.writeFile "/var/run/ptp4l.0.config") ∧
    (applyNodePtpProfile readOnlyEnv 0 (idleDaemon []) optsOnlyProfile).1.1.process = [] := by
  decide

theorem injectGlobal_no_global (tag sock : String) (sections : List ptp4lConfSection)
    (hno : ∀ s ∈ sections, s.sectionName ≠ "[global]") :
    injectGlobal tag sock sections = sections := by
  unfold injectGlobal
  conv_rhs => rw [← List.map_id sections]
  apply List.map_congr_left
  intro s hs
  simpa using injectSection_other tag sock s (hno s hs)

/-! ## applyNodePTPProfiles (C4) -/

theorem cmdStop_keeps (dn : Daemon) (p : ptpProcess) :
    (cmdStop dn p).1.nodeProfiles = dn.nodeProfiles ∧
    launched (cmdStop dn p).1.log = launched dn.log := by
  unfold cmdStop
  cases p.cmd with
  | none => exact ⟨rfl, rfl⟩
  | some cmd =>
    obtain ⟨args, proc⟩ := cmd
    cases proc <;> by_cases hpath : p.ptp4lConfigPath = "" <;>
      simp [hpath, launched_append, launched]

theorem stopAll_keeps (ps : List ptpProcess) : ∀ dn : Daemon,
    (stopAll ps dn).1.nodeProfiles = dn.nodeProfiles ∧
    launched (stopAll ps dn).1.log = launched dn.log := by
  induction ps with
  | nil => intro dn; exact ⟨rfl, rfl⟩
  | cons p rest ih =>
    intro dn
    obtain ⟨h3, h4⟩ := cmdStop_keeps dn p
    unfold stopAll
    split
    · rename_i dn1 e heq
      rw [heq] at h3 h4
      exact ⟨h3, h4⟩
    · rename_i dn1 heq
      rw [heq] at h3 h4
      obtain ⟨h1, h2⟩ := ih dn1
      exact ⟨h1.trans h3, h2.trans h4⟩

theorem roleKey_pair (runID : Nat) (roles : List Role) :
    (roles.map (roleKey runID)).map (fun k => (k.1, k.2.1))
      = roles.map (fun r => (r.name, r.name ++ "." ++ sprintNat runID ++ ".config")) := by
  simp [List.map_map, Function.comp_def, roleKey, configFile_eq]

/-- Effect of the profile loop from run identifier `runID` on. -/
theorem applyProfilesFrom_spec (env : Env) (profiles : List PtpProfile) :
    ∀ (runID : Nat) (dn : Daemon),
    ∃ ds : List ptpProcess,
      (applyProfilesFrom env runID profiles dn).1.process = dn.process ++ ds ∧
      launched (applyProfilesFrom env runID profiles dn).1.log = launched dn.log ∧
      ((applyProfilesFrom env runID profiles dn).2 = none →
        ds.map (fun d => (d.name, d.configName)) = expectedGroupFrom runID profiles) := by
  induction profiles with
  | nil =>
    intro runID dn
    exact ⟨[], by simp [applyProfilesFrom], rfl, fun _ => rfl⟩
  | cons profile rest ih =>
    intro runID dn
    obtain ⟨ds1, h1, _, h3, _, _, _, h7⟩ := applyNodePtpProfile_spec env runID dn profile
    unfold applyProfilesFrom
    split
    · rename_i dn1 profile1 e heq
      rw [heq] at h1 h3
      exact ⟨ds1, h1, h3, fun h => by simp at h⟩
    · rename_i dn1 profile1 heq
      rw [heq] at h1 h3 h7
      obtain ⟨ds2, g1, g2, g3⟩ := ih (runID + 1) (storeBack dn1 runID profile1)
      refine ⟨ds1 ++ ds2, ?_, ?_, ?_⟩
      · rw [g1]
        show dn1.process ++ ds2 = _
        rw [h1, List.append_assoc]
      · rw [g2]
        exact h3
      · intro hnone
        have hk := h7 rfl
        have hpair : ds1.map (fun d => (d.name, d.configName))
            = (activeRoles profile ptp_processes).map
                (fun r => (r.name, r.name ++ "." ++ sprintNat runID ++ ".config")) := by
          rw [← roleKey_pair, ← hk]
          simp [List.map_map, Function.comp_def, descriptorKey]
        rw [List.map_append, hpair, g3 hnone]
        rfl

/-- C4: when applyNodePTPProfiles returns no error, the new process group lists, profile by
profile in list order, the non-skipped roles in the order ts2phc, ptp4l, phc2sys, the
descriptor of role r of the profile at position i having config name "<r>.<i>.config";
and the run loops are launched for exactly the descriptors of the group, in group order. -/
theorem apply_group_order (env : Env) (dn : Daemon)
    (hok : (applyNodePTPProfiles env dn).2 = none) :
    (applyNodePTPProfiles env dn).1.process.map (fun d => (d.name, d.configName))
      = expectedGroupFrom 0 dn.nodeProfiles ∧
    launched (applyNodePTPProfiles env dn).1.log
      = launched dn.log ++ (applyNodePTPProfiles env dn).1.process := by
  obtain ⟨hprof, hlog⟩ := stopAll_keeps dn.process dn
  unfold applyNodePTPProfiles at hok ⊢
  cases hstop : stopAll dn.process dn with
  | mk stopped err =>
    rw [hstop] at hok hprof hlog
    cases err with
    | some e => simp at hok
    | none =>
      simp only at hok hprof hlog ⊢
      obtain ⟨ds, h1, h2, h3⟩ := applyProfilesFrom_spec env stopped.nodeProfiles 0
        { stopped with process := [], hwconfigs := [] }
      split at hok
      · simp at hok
      · rename_i dn1 heq
        rw [heq] at h1 h2 h3
        simp only [heq]
        simp only [List.nil_append] at h1
        refine ⟨?_, ?_⟩
        · show dn1.process.map _ = _
          rw [h1, h3 rfl, hprof]
        · simp only [startAll, launched_append, launched_goCmdRun]
          rw [h2, hlog]

/-- Witness of C4: two profiles, each with the ptp4l role only. -/
theorem apply_group_order_witness :
    (applyNodePTPProfiles sampleEnv (idleDaemon [ens1Profile, bareProfile "b"])).2 = none ∧
    (applyNodePTPProfiles sampleEnv (idleDaemon [ens1Profile, bareProfile "b"])).1.process.map
        (fun d => (d.name, d.configName))
      = expectedGroupFrom 0 [ens1Profile, bareProfile "b"] ∧
    expectedGroupFrom 0 [ens1Profile, bareProfile "b"]
      = [("ptp4l", "ptp4l.0.config"), ("ptp4l", "ptp4l.1.config")] :=
  ⟨by decide,
    (apply_group_order sampleEnv (idleDaemon [ens1Profile, bareProfile "b"]) (by decide)).1,
    by decide⟩

/-! ## Shape of the event log; hooks and the stop loop (C12, C13, C15) -/

theorem applyRole_log (env : Env) (runID : Nat) (dn : Daemon) (nodeProfile : PtpProfile)
    (p : Role) :
    ∃ evs : List Event,
      (applyRole env runID dn nodeProfile p).1.1.log = dn.log ++ evs ∧
      (∀ ev ∈ evs, isWriteEvent ev = true) ∧
      (applyRole env runID dn nodeProfile p).1.1.plugins = dn.plugins ∧
      (applyRole env runID dn nodeProfile p).1.1.hwconfigs = dn.hwconfigs := by
  obtain ⟨profile1, _, hcase⟩ := applyRole_spec env runID dn nodeProfile p
  rcases hcase with ⟨_, hrun⟩ | ⟨_, e, hrun⟩ | ⟨_, d, content, _, hrun⟩
  · rw [hrun]; exact ⟨[], by simp, by simp, rfl, rfl⟩
  · rw [hrun]; exact ⟨[], by simp, by simp, rfl, rfl⟩
  · rw [hrun]
    exact ⟨[Event.writeFile (configPath p runID) content], rfl, by simp [isWriteEvent], rfl, rfl⟩

theorem applyRoles_log (env : Env) (runID : Nat) (roles : List Role) :
    ∀ (dn : Daemon) (nodeProfile : PtpProfile),
    ∃ evs : List Event,
      (applyRoles env runID roles dn nodeProfile).1.1.log = dn.log ++ evs ∧
      (∀ ev ∈ evs, isWriteEvent ev = true) ∧
      (applyRoles env runID roles dn nodeProfile).1.1.plugins = dn.plugins ∧
      (applyRoles env runID roles dn nodeProfile).1.1.hwconfigs = dn.hwconfigs := by
  induction roles with
  | nil => intro dn nodeProfile; exact ⟨[], by simp [applyRoles], by simp, rfl, rfl⟩
  | cons p rest ih =>
    intro dn nodeProfile
    obtain ⟨evs1, h1, h2, h3, h4⟩ := applyRole_log env runID dn nodeProfile p
    unfold applyRoles
    split
    · rename_i st e heq
      rw [heq] at h1 h3 h4
      exact ⟨evs1, h1, h2, h3, h4⟩
    · rename_i dn1 profile1 heq
      rw [heq] at h1 h3 h4
      obtain ⟨evs2, g1, g2, g3, g4⟩ := ih dn1 profile1
      refine ⟨evs1 ++ evs2, ?_, ?_, g3.trans h3, g4.trans h4⟩
      · rw [g1]
        show dn1.log ++ evs2 = _
        rw [h1, List.append_assoc]
      · intro ev hev
        rcases List.mem_append.mp hev with h | h
        · exact h2 ev h
        · exact g2 ev h

/-- The events of one `applyNodePtpProfile`: the change hooks, the writes of the roles and,
when no error is returned, the populate hooks. -/
theorem applyNodePtpProfile_log (env : Env) (runID : Nat) (dn : Daemon)
    (nodeProfile : PtpProfile) :
    ∃ writes : List Event,
      (∀ ev ∈ writes, isWriteEvent ev = true) ∧
      (applyNodePtpProfile env runID dn nodeProfile).1.1.plugins = dn.plugins ∧
      ((applyNodePtpProfile env runID dn nodeProfile).2 = none →
        (applyNodePtpProfile env runID dn nodeProfile).1.1.log
          = dn.log ++ dn.plugins.map (fun pl => Event.onPTPConfigChange pl.Name nodeProfile)
              ++ writes ++ dn.plugins.map (fun pl => Event.populateHwConfig pl.Name)) ∧
      ((applyNodePtpProfile env runID dn nodeProfile).2 ≠ none →
        (applyNodePtpProfile env runID dn nodeProfile).1.1.log
          = dn.log ++ dn.plugins.map (fun pl => Event.onPTPConfigChange pl.Name nodeProfile)
              ++ writes ∧
        (applyNodePtpProfile env runID dn nodeProfile).1.1.hwconfigs = dn.hwconfigs) := by
  obtain ⟨evs, h1, h2, h3, h4⟩ :=
    applyRoles_log env runID ptp_processes (OnPTPConfigChange dn nodeProfile) nodeProfile
  refine ⟨evs, h2, ?_⟩
  unfold applyNodePtpProfile
  split
  · rename_i st e heq
    rw [heq] at h1 h3 h4
    refine ⟨h3, fun h => by simp at h, fun _ => ⟨?_, h4⟩⟩
    rw [h1]; rfl
  · rename_i dn1 profile1 heq
    rw [heq] at h1 h3 h4
    refine ⟨h3, fun _ => ?_, fun h => absurd rfl h⟩
    show dn1.log ++ dn1.plugins.map _ = _
    rw [h1]
    have hpl : dn1.plugins = dn.plugins := h3
    rw [hpl]; rfl

theorem filterMap_nil_of_forall {α β : Type} (f : α → Option β) (l : List α)
    (h : ∀ a ∈ l, f a = none) : l.filterMap f = [] := by
  induction l with
  | nil => rfl
  | cons a rest ih =>
    rw [List.filterMap_cons, h a (List.mem_cons_self _ _)]
    exact ih (fun b hb => h b (List.mem_cons_of_mem _ hb))

theorem hookTrace_writes (evs : List Event) (h : ∀ ev ∈ evs, isWriteEvent ev = true) :
    hookTrace evs = [] := by
  unfold hookTrace
  rw [List.filter_eq_nil_iff]
  intro ev hev
  have := h ev hev
  cases ev <;> simp_all [isWriteEvent, isHookEvent]

theorem stoppedPaths_not_stop (evs : List Event) (h : ∀ ev ∈ evs, isStopEvent ev = false) :
    stoppedPaths evs = [] ∧ awaitedPaths evs = [] := by
  constructor
  · apply filterMap_nil_of_forall
    intro ev hev
    have := h ev hev
    cases ev <;> simp_all [isStopEvent]
  · apply filterMap_nil_of_forall
    intro ev hev
    have := h ev hev
    cases ev <;> simp_all [isStopEvent]

theorem hookTrace_hooks (plugins : List Plugin) (nodeProfile : PtpProfile) :
    hookTrace (plugins.map (fun pl => Event.onPTPConfigChange pl.Name nodeProfile))
        = plugins.map (fun pl => Event.onPTPConfigChange pl.Name nodeProfile) ∧
    hookTrace (plugins.map (fun pl => Event.populateHwConfig pl.Name))
        = plugins.map (fun pl => Event.populateHwConfig pl.Name) := by
  constructor <;>
  · unfold hookTrace
    rw [List.filter_eq_self]
    intro ev hev
    obtain ⟨pl, _, rfl⟩ := List.mem_map.mp hev
    rfl

theorem populateCalls_append (l1 l2 : List Event) :
    populateCalls (l1 ++ l2) = populateCalls l1 ++ populateCalls l2 := by
  simp [populateCalls, List.filterMap_append]

theorem hookTrace_append (l1 l2 : List Event) :
    hookTrace (l1 ++ l2) = hookTrace l1 ++ hookTrace l2 := by
  simp [hookTrace, List.filter_append]

theorem populateCalls_writes (evs : List Event) (h : ∀ ev ∈ evs, isWriteEvent ev = true) :
    populateCalls evs = [] := by
  apply filterMap_nil_of_forall
  intro ev hev
  have := h ev hev
  cases ev <;> simp_all [isWriteEvent]

theorem populateCalls_hooks (plugins : List Plugin) (nodeProfile : PtpProfile) :
    populateCalls (plugins.map (fun pl => Event.onPTPConfigChange pl.Name nodeProfile)) = [] ∧
    populateCalls (plugins.map (fun pl => Event.populateHwConfig pl.Name))
      = plugins.map (fun pl => pl.Name) := by
  constructor
  · apply filterMap_nil_of_forall
    intro ev hev
    obtain ⟨pl, _, rfl⟩ := List.mem_map.mp hev
    rfl
  · induction plugins with
    | nil => rfl
    | cons pl rest ih => simpa [populateCalls] using ih

/-- The hook calls of the profile loop when it returns no error. -/
theorem applyProfilesFrom_hooks (env : Env) (profiles : List PtpProfile) :
    ∀ (runID : Nat) (dn : Daemon),
      (applyProfilesFrom env runID profiles dn).1.plugins = dn.plugins ∧
      ((applyProfilesFrom env runID profiles dn).2 = none →
        hookTrace (applyProfilesFrom env runID profiles dn).1.log
          = hookTrace dn.log ++ profiles.flatMap (profileHookCalls dn.plugins) ∧
        populateCalls (applyProfilesFrom env runID profiles dn).1.log
          = populateCalls dn.log
              ++ profiles.flatMap (fun _ => dn.plugins.map (fun pl => pl.Name))) := by
  induction profiles with
  | nil =>
    intro runID dn
    exact ⟨rfl, fun _ => by simp [applyProfilesFrom]⟩
  | cons profile rest ih =>
    intro runID dn
    obtain ⟨writes, hw, hpl, hok, herr⟩ := applyNodePtpProfile_log env runID dn profile
    unfold applyProfilesFrom
    split
    · rename_i dn1 profile1 e heq
      rw [heq] at hpl
      exact ⟨hpl, fun h => by simp at h⟩
    · rename_i dn1 profile1 heq
      rw [heq] at hpl hok
      have hlog := hok rfl
      obtain ⟨g1, g2⟩ := ih (runID + 1) (storeBack dn1 runID profile1)
      have hpl1 : (storeBack dn1 runID profile1).plugins = dn.plugins := hpl
      have hlog1 : (storeBack dn1 runID profile1).log
          = dn.log ++ dn.plugins.map (fun pl => Event.onPTPConfigChange pl.Name profile)
              ++ writes ++ dn.plugins.map (fun pl => Event.populateHwConfig pl.Name) := hlog
      refine ⟨g1.trans hpl1, fun hnone => ?_⟩
      obtain ⟨k1, k2⟩ := g2 hnone
      rw [k1, k2, hpl1, hlog1]
      have e1 := (hookTrace_hooks dn.plugins profile).1
      have e2 := (hookTrace_hooks dn.plugins profile).2
      have e3 := (populateCalls_hooks dn.plugins profile).1
      have e4 := (populateCalls_hooks dn.plugins profile).2
      constructor
      · rw [hookTrace_append, hookTrace_append, hookTrace_append, hookTrace_writes writes hw,
          e1, e2]
        simp [profileHookCalls]
      · rw [populateCalls_append, populateCalls_append, populateCalls_append,
          populateCalls_writes writes hw, e3, e4]
        simp

/-- The events and the outcome of the stop loop. -/
theorem stopAll_log (ps : List ptpProcess) : ∀ dn : Daemon,
    ∃ evs : List Event,
      (stopAll ps dn).1.log = dn.log ++ evs ∧
      (∀ ev ∈ evs, isStopEvent ev = true) ∧
      (stopAll ps dn).1.plugins = dn.plugins ∧
      (stopAll ps dn).1.hwconfigs = dn.hwconfigs ∧
      (stopAll ps dn).1.process = dn.process ∧
      (∀ e, (stopAll ps dn).2 = some e → e = ApplyError.nilDereference) ∧
      ((stopAll ps dn).2 = none →
        stoppedPaths evs
          = (ps.filter (fun p => p.cmd.isSome)).map (fun p => p.ptp4lConfigPath) ∧
        awaitedPaths evs
          = (ps.filter (fun p => p.cmd.isSome)).map (fun p => p.ptp4lConfigPath) ∧
        ∀ p ∈ ps, ∀ c, p.cmd = some c → c.Process ≠ none) := by
  induction ps with
  | nil =>
    intro dn
    exact ⟨[], by simp [stopAll], by simp, rfl, rfl, rfl, fun e h => by simp [stopAll] at h,
      fun _ => ⟨rfl, rfl, fun p hp => by cases hp⟩⟩
  | cons p rest ih =>
    intro dn
    have hone : ∃ evs1 : List Event,
        (cmdStop dn p).1.log = dn.log ++ evs1 ∧ (∀ ev ∈ evs1, isStopEvent ev = true) ∧
        (cmdStop dn p).1.plugins = dn.plugins ∧ (cmdStop dn p).1.hwconfigs = dn.hwconfigs ∧
        (cmdStop dn p).1.process = dn.process ∧
        (∀ e, (cmdStop dn p).2 = some e → e = ApplyError.nilDereference) ∧
        ((cmdStop dn p).2 = none →
          stoppedPaths evs1 = ([p].filter (fun p => p.cmd.isSome)).map (fun p => p.ptp4lConfigPath) ∧
          awaitedPaths evs1 = ([p].filter (fun p => p.cmd.isSome)).map (fun p => p.ptp4lConfigPath) ∧
          ∀ c, p.cmd = some c → c.Process ≠ none) := by
      unfold cmdStop
      cases hc : p.cmd with
      | none => exact ⟨[], by simp, by simp, rfl, rfl, rfl, fun e h => by simp at h,
          fun _ => ⟨by simp [stoppedPaths, hc], by simp [awaitedPaths, hc], fun c h => by simp at h⟩⟩
      | some cmd =>
        obtain ⟨args, proc⟩ := cmd
        cases proc with
        | none =>
          by_cases hpath : p.ptp4lConfigPath = ""
          · exact ⟨[Event.setStopped p.ptp4lConfigPath, Event.awaitExit p.ptp4lConfigPath],
              by simp [hpath], by simp [isStopEvent], by simp [hpath], by simp [hpath],
              by simp [hpath], fun e h => by simpa using h.symm, fun h => by simp at h⟩
          · exact ⟨[Event.setStopped p.ptp4lConfigPath, Event.removeFile p.ptp4lConfigPath,
                Event.awaitExit p.ptp4lConfigPath],
              by simp [hpath], by simp [isStopEvent], by simp [hpath], by simp [hpath],
              by simp [hpath], fun e h => by simpa using h.symm, fun h => by simp at h⟩
        | some pid =>
          by_cases hpath : p.ptp4lConfigPath = ""
          · exact ⟨[Event.setStopped p.ptp4lConfigPath, Event.signalTerm pid,
                Event.awaitExit p.ptp4lConfigPath],
              by simp [hpath], by simp [isStopEvent], by simp [hpath], by simp [hpath],
              by simp [hpath], fun e h => by simp at h,
              fun _ => ⟨by simp [stoppedPaths, hc], by simp [awaitedPaths, hc],
                fun c h => by simp at h; subst h; simp⟩⟩
          · exact ⟨[Event.setStopped p.ptp4lConfigPath, Event.signalTerm pid,
                Event.removeFile p.ptp4lConfigPath, Event.awaitExit p.ptp4lConfigPath],
              by simp [hpath], by simp [isStopEvent], by simp [hpath], by simp [hpath],
              by simp [hpath], fun e h => by simp at h,
              fun _ => ⟨by simp [stoppedPaths, hc], by simp [awaitedPaths, hc],
                fun c h => by simp at h; subst h; simp⟩⟩
    obtain ⟨evs1, h1, h2, h3, h4, h5, h6, h7⟩ := hone
    unfold stopAll
    split
    · rename_i dn1 e heq
      rw [heq] at h1 h3 h4 h5 h6
      exact ⟨evs1, h1, h2, h3, h4, h5, fun e2 he2 => h6 e2 he2, fun h => by simp at h⟩
    · rename_i dn1 heq
      rw [heq] at h1 h3 h4 h5 h7
      obtain ⟨evs2, g1, g2, g3, g4, g5, g6, g7⟩ := ih dn1
      refine ⟨evs1 ++ evs2, ?_, ?_, g3.trans h3, g4.trans h4, g5.trans h5, g6, fun hnone => ?_⟩
      · rw [g1]
        show dn1.log ++ evs2 = _
        rw [h1, List.append_assoc]
      · intro ev hev
        rcases List.mem_append.mp hev with h | h
        · exact h2 ev h
        · exact g2 ev h
      · obtain ⟨a1, a2, a3⟩ := h7 rfl
        obtain ⟨b1, b2, b3⟩ := g7 hnone
        refine ⟨?_, ?_, ?_⟩
        · simp only [stoppedPaths, List.filterMap_append] at a1 b1 ⊢
          rw [a1, b1]
          by_cases hc : p.cmd.isSome <;> simp [List.filter_cons, hc]
        · simp only [awaitedPaths, List.filterMap_append] at a2 b2 ⊢
          rw [a2, b2]
          by_cases hc : p.cmd.isSome <;> simp [List.filter_cons, hc]
        · intro q hq c hqc
          rcases List.mem_cons.mp hq with rfl | hq
          · exact a3 c hqc
          · exact b3 q hq c hqc

theorem stopAll_started (ps : List ptpProcess)
    (h : ∀ p ∈ ps, ∀ c, p.cmd = some c → c.Process ≠ none) :
    ∀ dn : Daemon, (stopAll ps dn).2 = none := by
  induction ps with
  | nil => intro dn; rfl
  | cons p rest ih =>
    intro dn
    have hp := h p (List.mem_cons_self _ _)
    have hstop : (cmdStop dn p).2 = none := by
      unfold cmdStop
      cases hc : p.cmd with
      | none => rfl
      | some cmd =>
        obtain ⟨args, proc⟩ := cmd
        cases proc with
        | none => exact absurd rfl (hp _ hc)
        | some pid => rfl
    unfold stopAll
    split
    · rename_i dn1 e heq
      rw [heq] at hstop
      simp at hstop
    · exact ih (fun q hq => h q (List.mem_cons_of_mem _ hq)) _

/-- Every event of the profile loop is a hook call or a write. -/
theorem applyProfilesFrom_events (env : Env) (profiles : List PtpProfile) :
    ∀ (runID : Nat) (dn : Daemon),
    ∃ evs : List Event,
      (applyProfilesFrom env runID profiles dn).1.log = dn.log ++ evs ∧
      ∀ ev ∈ evs, isStopEvent ev = false := by
  induction profiles with
  | nil => intro runID dn; exact ⟨[], by simp [applyProfilesFrom], by simp⟩
  | cons profile rest ih =>
    intro runID dn
    obtain ⟨writes, hw, _, hok, herr⟩ := applyNodePtpProfile_log env runID dn profile
    have hwrite : ∀ ev ∈ writes, isStopEvent ev = false := by
      intro ev hev
      have := hw ev hev
      cases ev <;> simp_all [isWriteEvent, isStopEvent]
    have hchange : ∀ ev ∈ dn.plugins.map (fun pl => Event.onPTPConfigChange pl.Name profile),
        isStopEvent ev = false := by
      intro ev hev
      obtain ⟨pl, _, rfl⟩ := List.mem_map.mp hev
      rfl
    have hpop : ∀ ev ∈ dn.plugins.map (fun pl => Event.populateHwConfig pl.Name),
        isStopEvent ev = false := by
      intro ev hev
      obtain ⟨pl, _, rfl⟩ := List.mem_map.mp hev
      rfl
    unfold applyProfilesFrom
    split
    · rename_i dn1 profile1 e heq
      rw [heq] at herr
      have hlog := (herr (by simp)).1
      refine ⟨dn.plugins.map (fun pl => Event.onPTPConfigChange pl.Name profile) ++ writes, ?_, ?_⟩
      · show dn1.log = _
        rw [show dn1.log = _ from hlog, List.append_assoc]
      · intro ev hev
        rcases List.mem_append.mp hev with h | h
        · exact hchange ev h
        · exact hwrite ev h
    · rename_i dn1 profile1 heq
      rw [heq] at hok
      have hlog := hok rfl
      obtain ⟨evs2, g1, g2⟩ := ih (runID + 1) (storeBack dn1 runID profile1)
      refine ⟨dn.plugins.map (fun pl => Event.onPTPConfigChange pl.Name profile) ++ writes
          ++ dn.plugins.map (fun pl => Event.populateHwConfig pl.Name) ++ evs2, ?_, ?_⟩
      · rw [g1]
        show dn1.log ++ evs2 = _
        rw [show dn1.log = _ from hlog]
        simp only [List.append_assoc]
      · intro ev hev
        simp only [List.mem_append] at hev
        rcases hev with ((h | h) | h) | h
        · exact hchange ev h
        · exact hwrite ev h
        · exact hpop ev h
        · exact g2 ev h

theorem stoppedPaths_append (l1 l2 : List Event) :
    stoppedPaths (l1 ++ l2) = stoppedPaths l1 ++ stoppedPaths l2 ∧
    awaitedPaths (l1 ++ l2) = awaitedPaths l1 ++ awaitedPaths l2 := by
  simp [stoppedPaths, awaitedPaths, List.filterMap_append]

/-- C12: when applyNodePTPProfiles returns a parse or write error, no run loop has been
launched in the call (also not for descriptors built from earlier profiles), and cmdStop
has run to its end for every descriptor of the old group: the flag of each one with a
command handle was set and its exit awaited, in group order. -/
theorem apply_error_fail_safe (env : Env) (dn : Daemon) (e : ApplyError)
    (herr : (applyNodePTPProfiles env dn).2 = some e)
    (hkind : (∃ msg, e = ApplyError.parse msg) ∨ (∃ path, e = ApplyError.writeFile path)) :
    launched (applyNodePTPProfiles env dn).1.log = launched dn.log ∧
    stoppedPaths (applyNodePTPProfiles env dn).1.log
      = stoppedPaths dn.log
          ++ (dn.process.filter (fun p => p.cmd.isSome)).map (fun p => p.ptp4lConfigPath) ∧
    awaitedPaths (applyNodePTPProfiles env dn).1.log
      = awaitedPaths dn.log
          ++ (dn.process.filter (fun p => p.cmd.isSome)).map (fun p => p.ptp4lConfigPath) := by
  obtain ⟨evs, h1, h2, _, _, _, h6, h7⟩ := stopAll_log dn.process dn
  obtain ⟨_, hlaunch⟩ := stopAll_keeps dn.process dn
  unfold applyNodePTPProfiles at herr ⊢
  cases hstop : stopAll dn.process dn with
  | mk stopped err =>
    rw [hstop] at herr h1 h6 h7 hlaunch
    cases err with
    | some e2 =>
      simp only [Option.some.injEq] at herr
      have := h6 e2 rfl
      subst herr
      rcases hkind with ⟨m, hm⟩ | ⟨p, hp⟩
      · rw [this] at hm; cases hm
      · rw [this] at hp; cases hp
    | none =>
      simp only at herr h1 hlaunch ⊢
      obtain ⟨a1, a2, _⟩ := h7 rfl
      obtain ⟨ds, _, k2, _⟩ := applyProfilesFrom_spec env stopped.nodeProfiles 0
        { stopped with process := [], hwconfigs := [] }
      obtain ⟨evs2, g1, g2⟩ := applyProfilesFrom_events env stopped.nodeProfiles 0
        { stopped with process := [], hwconfigs := [] }
      obtain ⟨b1, b2⟩ := stoppedPaths_not_stop evs2 g2
      split at herr
      · rename_i dn1 e2 heq
        rw [heq] at k2 g1
        simp only [heq]
        have hlog : dn1.log = dn.log ++ evs ++ evs2 := by
          rw [show dn1.log = _ from g1]
          show stopped.log ++ evs2 = _
          rw [h1]
        refine ⟨?_, ?_, ?_⟩
        · exact (show launched dn1.log = _ from k2).trans hlaunch
        · show stoppedPaths dn1.log = _
          rw [hlog, (stoppedPaths_append _ _).1, (stoppedPaths_append _ _).1, a1, b1]
          simp
        · show awaitedPaths dn1.log = _
          rw [hlog, (stoppedPaths_append _ _).2, (stoppedPaths_append _ _).2, a2, b2]
          simp
      · simp at herr

/-- Witness of C12: a running old process, a first profile that is applied and a second one
whose config text does not parse. -/
theorem apply_error_fail_safe_witness :
    (applyNodePTPProfiles sampleEnv
        { daemonWithGroup [runningProcess] with
          nodeProfiles := [optsOnlyProfile, brokenPtp4lProfile] }).2
      = some (ApplyError.parse "MalformedConfig") ∧
    launched (applyNodePTPProfiles sampleEnv
        { daemonWithGroup [runningProcess] with
          nodeProfiles := [optsOnlyProfile, brokenPtp4lProfile] }).1.log = launched [] :=
  ⟨by decide,
    (apply_error_fail_safe sampleEnv
      { daemonWithGroup [runningProcess] with
        nodeProfiles := [optsOnlyProfile, brokenPtp4lProfile] }
      (ApplyError.parse "MalformedConfig") (by decide) (Or.inl ⟨_, rfl⟩)).1⟩

/-- C13 (as amended): in a call of applyNodePTPProfiles that returns no error, the hook calls
are, profile by profile in list order, the OnPTPConfigChange hooks of all plugins followed
by their PopulateHwConfig hooks: PopulateHwConfig runs at the end of every
applyNodePtpProfile, so every plugin is populated once per profile, n times for n
profiles and not at all for none. -/
theorem apply_populates_per_profile (env : Env) (dn : Daemon)
    (hok : (applyNodePTPProfiles env dn).2 = none) :
    hookTrace (applyNodePTPProfiles env dn).1.log
      = hookTrace dn.log ++ dn.nodeProfiles.flatMap (profileHookCalls dn.plugins) ∧
    populateCalls (applyNodePTPProfiles env dn).1.log
      = populateCalls dn.log
          ++ dn.nodeProfiles.flatMap (fun _ => dn.plugins.map (fun pl => pl.Name)) ∧
    (populateCalls (applyNodePTPProfiles env dn).1.log).length
      = (populateCalls dn.log).length + dn.nodeProfiles.length * dn.plugins.length := by
  obtain ⟨evs, h1, h2, h3, _, _, _, _⟩ := stopAll_log dn.process dn
  obtain ⟨hprof, _⟩ := stopAll_keeps dn.process dn
  have hmain : hookTrace (applyNodePTPProfiles env dn).1.log
        = hookTrace dn.log ++ dn.nodeProfiles.flatMap (profileHookCalls dn.plugins) ∧
      populateCalls (applyNodePTPProfiles env dn).1.log
        = populateCalls dn.log
            ++ dn.nodeProfiles.flatMap (fun _ => dn.plugins.map (fun pl => pl.Name)) := by
    unfold applyNodePTPProfiles at hok ⊢
    cases hstop : stopAll dn.process dn with
    | mk stopped err =>
      rw [hstop] at hok h1 h3 hprof
      cases err with
      | some e => simp at hok
      | none =>
        simp only at hok h1 h3 hprof ⊢
        obtain ⟨g1, g2⟩ := applyProfilesFrom_hooks env stopped.nodeProfiles 0
          { stopped with process := [], hwconfigs := [] }
        have hstopHooks : hookTrace evs = [] ∧ populateCalls evs = [] := by
          constructor
          · unfold hookTrace
            rw [List.filter_eq_nil_iff]
            intro ev hev
            have := h2 ev hev
            cases ev <;> simp_all [isStopEvent, isHookEvent]
          · apply filterMap_nil_of_forall
            intro ev hev
            have := h2 ev hev
            cases ev <;> simp_all [isStopEvent]
        split at hok
        · simp at hok
        · rename_i dn1 heq
          rw [heq] at g1 g2
          obtain ⟨k1, k2⟩ := g2 rfl
          simp only [heq, startAll]
          have hl : hookTrace (dn1.process.map Event.goCmdRun) = [] ∧
              populateCalls (dn1.process.map Event.goCmdRun) = [] := by
            constructor
            · unfold hookTrace
              rw [List.filter_eq_nil_iff]
              intro ev hev
              obtain ⟨p, _, rfl⟩ := List.mem_map.mp hev
              simp [isHookEvent]
            · apply filterMap_nil_of_forall
              intro ev hev
              obtain ⟨p, _, rfl⟩ := List.mem_map.mp hev
              rfl
          simp only at k1 k2
          rw [hookTrace_append, populateCalls_append, hl.1, hl.2,
            show hookTrace dn1.log = _ from k1, show populateCalls dn1.log = _ from k2,
            h1, hookTrace_append, populateCalls_append, hstopHooks.1, hstopHooks.2, h3, hprof]
          simp
  refine ⟨hmain.1, hmain.2, ?_⟩
  rw [hmain.2, List.length_append]
  congr 1
  induction dn.nodeProfiles with
  | nil => simp
  | cons p rest ih => simp [List.flatMap_cons, ih, Nat.add_mul, Nat.add_comm]

/-- Witness of C13 (as amended): the reference plugin and two profiles. -/
theorem apply_populates_per_profile_witness :
    (applyNodePTPProfiles sampleEnv (referenceDaemon [optsOnlyProfile, bareProfile "b"])).2 = none ∧
    populateCalls
        (applyNodePTPProfiles sampleEnv (referenceDaemon [optsOnlyProfile, bareProfile "b"])).1.log
      = populateCalls (referenceDaemon [optsOnlyProfile, bareProfile "b"]).log
          ++ [optsOnlyProfile, bareProfile "b"].flatMap (fun _ =>
              (referenceDaemon [optsOnlyProfile, bareProfile "b"]).plugins.map (fun pl => pl.Name)) :=
  ⟨by decide,
    (apply_populates_per_profile sampleEnv (referenceDaemon [optsOnlyProfile, bareProfile "b"])
      (by decide)).2.1⟩

/-- C13 (counterexample): with the reference plugin registered, two profiles give two calls
of its PopulateHwConfig hook and an empty profile list gives none. -/
theorem populate_not_once :
    (applyNodePTPProfiles sampleEnv (referenceDaemon [optsOnlyProfile, bareProfile "b"])).2 = none ∧
    populateCalls
        (applyNodePTPProfiles sampleEnv (referenceDaemon [optsOnlyProfile, bareProfile "b"])).1.log
      = ["reference", "reference"] ∧
    (applyNodePTPProfiles sampleEnv (referenceDaemon [])).2 = none ∧
    populateCalls (applyNodePTPProfiles sampleEnv (referenceDaemon [])).1.log = [] := by
  decide

/-- The scenario of an empty profile list when every command of the old group has a process:
no error, every descriptor stopped, hardware-config list and group empty, nothing launched. -/
theorem apply_empty_started (env : Env) (dn : Daemon) (hempty : dn.nodeProfiles = [])
    (hproc : ∀ p ∈ dn.process, ∀ c, p.cmd = some c → c.Process ≠ none) :
    (applyNodePTPProfiles env dn).2 = none ∧
    (applyNodePTPProfiles env dn).1.hwconfigs = [] ∧
    (applyNodePTPProfiles env dn).1.process = [] ∧
    launched (applyNodePTPProfiles env dn).1.log = launched dn.log ∧
    stoppedPaths (applyNodePTPProfiles env dn).1.log
      = stoppedPaths dn.log
          ++ (dn.process.filter (fun p => p.cmd.isSome)).map (fun p => p.ptp4lConfigPath) := by
  obtain ⟨evs, h1, _, _, _, _, _, h7⟩ := stopAll_log dn.process dn
  obtain ⟨hprof, hlaunch⟩ := stopAll_keeps dn.process dn
  have hnone := stopAll_started dn.process hproc dn
  unfold applyNodePTPProfiles
  cases hstop : stopAll dn.process dn with
  | mk stopped err =>
    rw [hstop] at hnone h1 h7 hprof hlaunch
    simp only at hnone h1 hprof hlaunch
    subst hnone
    obtain ⟨a1, _, _⟩ := h7 rfl
    simp only [hprof, hempty, applyProfilesFrom, startAll, List.map_nil, List.append_nil]
    refine ⟨trivial, trivial, trivial, hlaunch, ?_⟩
    rw [h1, (stoppedPaths_append _ _).1, a1]

/-- C15 (the code at the failing input): the old group holds a descriptor whose command was
never started and the profile list is empty; cmdStop ends in the nil dereference of
`p.cmd.Process.Pid`, the hardware-config list is not cleared and the old group is still in
place.  With a started command the same call returns no error and clears both. -/
theorem apply_empty_unstarted_panics :
    (daemonWithGroup [unstartedProcess]).nodeProfiles = [] ∧
    (applyNodePTPProfiles sampleEnv (daemonWithGroup [unstartedProcess])).2
      = some ApplyError.nilDereference ∧
    (applyNodePTPProfiles sampleEnv (daemonWithGroup [unstartedProcess])).1.hwconfigs
      = (daemonWithGroup [unstartedProcess]).hwconfigs ∧
    (applyNodePTPProfiles sampleEnv (daemonWithGroup [unstartedProcess])).1.process
      = [unstartedProcess] ∧
    (applyNodePTPProfiles sampleEnv (daemonWithGroup [runningProcess])).2 = none ∧
    (applyNodePTPProfiles sampleEnv (daemonWithGroup [runningProcess])).1.hwconfigs = [] := by
  decide

/-! ## Files written before an error (C11) -/

/-- When the role loop ends in an error, the descriptors appended and the files written are
those of the active roles that come before the failing one. -/
theorem applyRoles_error (env : Env) (runID : Nat) (roles : List Role) (hnd : roles.Nodup) :
    ∀ (dn : Daemon) (nodeProfile : PtpProfile) (e : ApplyError),
    (applyRoles env runID roles dn nodeProfile).2 = some e →
    ∃ (finished : List Role) (failing : Role) (later : List Role),
      activeRoles nodeProfile roles = finished ++ failing :: later ∧
      writtenPaths (applyRoles env runID roles dn nodeProfile).1.1.log
        = writtenPaths dn.log ++ finished.map (fun r => configPath r runID) ∧
      (applyRoles env runID roles dn nodeProfile).1.1.process.map descriptorKey
        = dn.process.map descriptorKey ++ finished.map (roleKey runID) := by
  induction roles with
  | nil => intro dn nodeProfile e h; simp [applyRoles] at h
  | cons p rest ih =>
    intro dn nodeProfile e herr
    have hp : p ∉ rest := (List.nodup_cons.mp hnd).1
    have hrest : rest.Nodup := (List.nodup_cons.mp hnd).2
    obtain ⟨profile1, hopts, hcase⟩ := applyRole_spec env runID dn nodeProfile p
    rcases hcase with ⟨hskip, hrun⟩ | ⟨hskip, e1, hrun⟩ | ⟨hskip, d, content, hkey, hrun⟩
    · have hact : activeRoles nodeProfile (p :: rest) = activeRoles nodeProfile rest := by
        simp [activeRoles, List.filter_cons, hskip]
      have happ : applyRoles env runID (p :: rest) dn nodeProfile
          = applyRoles env runID rest dn nodeProfile := by
        simp only [applyRoles, hrun]
      rw [happ] at herr ⊢
      rw [hact]
      exact ih hrest dn nodeProfile e herr
    · have happ : applyRoles env runID (p :: rest) dn nodeProfile = ((dn, profile1), some e1) := by
        simp only [applyRoles, hrun]
      rw [happ]
      refine ⟨[], p, activeRoles nodeProfile rest, ?_, by simp, by simp⟩
      simp [activeRoles, List.filter_cons, hskip]
    · have hsame : activeRoles profile1 rest = activeRoles nodeProfile rest :=
        activeRoles_congr _ _ _ (fun r hr => hopts r (fun h => hp (h ▸ hr)))
      have hact : activeRoles nodeProfile (p :: rest) = p :: activeRoles profile1 rest := by
        rw [hsame]
        simp [activeRoles, List.filter_cons, hskip]
      have hpath : d.ptp4lConfigPath = configPath p runID := by
        have := congrArg (fun k => k.2.2) hkey
        simpa [descriptorKey, roleKey] using this
      have happ : applyRoles env runID (p :: rest) dn nodeProfile
          = applyRoles env runID rest
              { dn with
                files := mapSet dn.files (configPath p runID) content
                log := dn.log ++ [Event.writeFile (configPath p runID) content]
                process := dn.process ++ [d] } profile1 := by
        simp only [applyRoles, hrun]
      rw [happ] at herr ⊢
      obtain ⟨finished, failing, later, h1, h2, h3⟩ := ih hrest _ profile1 e herr
      refine ⟨p :: finished, failing, later, ?_, ?_, ?_⟩
      · rw [hact, h1]; rfl
      · rw [h2, writtenPaths_append]; simp [writtenPaths]
      · rw [h3]; simp [hkey]

theorem mapGet_mapSet_isSome (m : List (String × String)) (k v k2 : String)
    (h : (mapGet m k2).isSome = true) : (mapGet (mapSet m k v) k2).isSome = true := by
  by_cases hk : k2 = k
  · subst hk; rw [mapGet_mapSet_same]; rfl
  · rw [mapGet_mapSet_other m k v k2 hk]; exact h

/-- The role loop removes no file: a path that holds a file before holds one after, and
every path written during the loop holds a file when the loop is over. -/
theorem applyRoles_files (env : Env) (runID : Nat) (roles : List Role) :
    ∀ (dn : Daemon) (nodeProfile : PtpProfile),
      (∀ k : String, (mapGet dn.files k).isSome = true →
        (mapGet (applyRoles env runID roles dn nodeProfile).1.1.files k).isSome = true) ∧
      ∃ added : List String,
        writtenPaths (applyRoles env runID roles dn nodeProfile).1.1.log
          = writtenPaths dn.log ++ added ∧
        ∀ k ∈ added,
          (mapGet (applyRoles env runID roles dn nodeProfile).1.1.files k).isSome = true := by
  induction roles with
  | nil =>
    intro dn nodeProfile
    exact ⟨fun _ h => h, [], by simp [applyRoles], fun k hk => by cases hk⟩
  | cons p rest ih =>
    intro dn nodeProfile
    obtain ⟨profile1, _, hcase⟩ := applyRole_spec env runID dn nodeProfile p
    rcases hcase with ⟨_, hrun⟩ | ⟨_, e1, hrun⟩ | ⟨_, d, content, _, hrun⟩
    · have happ : applyRoles env runID (p :: rest) dn nodeProfile
          = applyRoles env runID rest dn nodeProfile := by
        simp only [applyRoles, hrun]
      rw [happ]
      exact ih dn nodeProfile
    · have happ : applyRoles env runID (p :: rest) dn nodeProfile = ((dn, profile1), some e1) := by
        simp only [applyRoles, hrun]
      rw [happ]
      exact ⟨fun _ h => h, [], by simp, fun k hk => by cases hk⟩
    · have happ : applyRoles env runID (p :: rest) dn nodeProfile
          = applyRoles env runID rest
              { dn with
                files := mapSet dn.files (configPath p runID) content
                log := dn.log ++ [Event.writeFile (configPath p runID) content]
                process := dn.process ++ [d] } profile1 := by
        simp only [applyRoles, hrun]
      rw [happ]
      obtain ⟨g1, added, g2, g3⟩ := ih
        { dn with
          files := mapSet dn.files (configPath p runID) content
          log := dn.log ++ [Event.writeFile (configPath p runID) content]
          process := dn.process ++ [d] } profile1
      refine ⟨fun k hk => g1 k (mapGet_mapSet_isSome _ _ _ _ hk),
        configPath p runID :: added, ?_, ?_⟩
      · rw [g2, writtenPaths_append]; simp [writtenPaths]
      · intro k hk
        rcases List.mem_cons.mp hk with h | h
        · rw [h]
          exact g1 _ (by rw [mapGet_mapSet_same]; rfl)
        · exact g3 k h

/-- C11 (as amended): when applyNodePtpProfile returns an error there is a role at which it
failed; nothing is written for that role or for a later one, and the config files written
during the call are exactly those of the non-skipped roles that come before the failing
role in the order ts2phc, ptp4l, phc2sys, whose descriptors are also the ones appended:
files of earlier roles are not taken back, each of them is on disk when the error is
returned, and so is every file that was on disk before the call. -/
theorem writes_before_error (env : Env) (runID : Nat) (dn : Daemon) (nodeProfile : PtpProfile)
    (e : ApplyError) (herr : (applyNodePtpProfile env runID dn nodeProfile).2 = some e) :
    ∃ (finished : List Role) (failing : Role) (later : List Role),
      activeRoles nodeProfile ptp_processes = finished ++ failing :: later ∧
      writtenPaths (applyNodePtpProfile env runID dn nodeProfile).1.1.log
        = writtenPaths dn.log ++ finished.map (fun r => configPath r runID) ∧
      (applyNodePtpProfile env runID dn nodeProfile).1.1.process.map descriptorKey
        = dn.process.map descriptorKey ++ finished.map (roleKey runID) ∧
      configPath failing runID
        ∉ finished.map (fun r => configPath r runID) ∧
      (∀ r ∈ finished,
        (mapGet (applyNodePtpProfile env runID dn nodeProfile).1.1.files
          (configPath r runID)).isSome = true) ∧
      (∀ k : String, (mapGet dn.files k).isSome = true →
        (mapGet (applyNodePtpProfile env runID dn nodeProfile).1.1.files k).isSome = true) := by
  have hw : writtenPaths (OnPTPConfigChange dn nodeProfile).log = writtenPaths dn.log := by
    simp [OnPTPConfigChange, writtenPaths_append, writtenPaths_hooks_change]
  obtain ⟨f1, added, f2, f3⟩ := applyRoles_files env runID ptp_processes
    (OnPTPConfigChange dn nodeProfile) nodeProfile
  unfold applyNodePtpProfile at herr ⊢
  split at herr
  · rename_i st e1 heq
    obtain ⟨finished, failing, later, h1, h2, h3⟩ :=
      applyRoles_error env runID ptp_processes ptp_processes_nodup
        (OnPTPConfigChange dn nodeProfile) nodeProfile e1 (by rw [heq])
    rw [heq] at h2 h3 f1 f2 f3
    simp only [heq]
    rw [hw] at h2 f2
    have hadded : added = finished.map (fun r => configPath r runID) :=
      List.append_cancel_left (f2.symm.trans h2)
    refine ⟨finished, failing, later, h1, h2, h3, ?_, ?_, fun k hk => f1 k hk⟩
    · intro hmem
      obtain ⟨r, hr, hrp⟩ := List.mem_map.mp hmem
      have hrf : r = failing := (configPath_inj r failing runID runID hrp).1
      have hnd : (activeRoles nodeProfile ptp_processes).Nodup :=
        List.Nodup.filter _ ptp_processes_nodup
      rw [h1] at hnd
      have := (List.nodup_append.mp hnd).2.2
      exact this hr (hrf ▸ List.mem_cons_self _ _)
    · intro r hr
      exact f3 _ (hadded ▸ List.mem_map.mpr ⟨r, hr, rfl⟩)
  · simp at herr

/-- Witness of C11 (as amended): ts2phc is written, then the ptp4l config fails to parse. -/
theorem writes_before_error_witness :
    (applyNodePtpProfile sampleEnv 0 (idleDaemon []) brokenPtp4lProfile).2
      = some (ApplyError.parse "MalformedConfig") ∧
    ∃ (finished : List Role) (failing : Role) (later : List Role),
      activeRoles brokenPtp4lProfile ptp_processes = finished ++ failing :: later ∧
      writtenPaths (applyNodePtpProfile sampleEnv 0 (idleDaemon []) brokenPtp4lProfile).1.1.log
        = writtenPaths (idleDaemon []).log ++ finished.map (fun r => configPath r 0) :=
  ⟨by decide,
    (writes_before_error sampleEnv 0 (idleDaemon []) brokenPtp4lProfile
      (ApplyError.parse "MalformedConfig") (by decide)).imp
      (fun _ h => h.imp (fun _ h => h.imp (fun _ h => ⟨h.1, h.2.1⟩)))⟩

/-- C11 (counterexample): the ptp4l config text of the profile does not parse, the call
returns the parse error, and the config file of ts2phc, written before, is on disk. -/
theorem earlier_role_file_stays :
    (applyNodePtpProfile sampleEnv 0 (idleDaemon []) brokenPtp4lProfile).2
      = some (ApplyError.parse "MalformedConfig") ∧
    writtenPaths (applyNodePtpProfile sampleEnv 0 (idleDaemon []) brokenPtp4lProfile).1.1.log
      = ["/var/run/ts2phc.0.config"] ∧
    (idleDaemon []).files = [] ∧
    (applyNodePtpProfile sampleEnv 0 (idleDaemon []) brokenPtp4lProfile).1.1.files
      = [("/var/run/ts2phc.0.config",
          "[global]\nmessage_tag [ts2phc.0.config]\nuds_address /var/run/ptp4l.0.socket")] := by
  decide

/-! ## What an apply does to the stored profiles (C14) -/

theorem configInput_storeConfigInput (q : PtpProfile) (p r : Role) (v : String) :
    configInput (storeConfigInput q p v) r
      = if r = p then (configInput q p).map (fun _ => v) else configInput q r := by
  cases p <;> cases r <;> simp only [storeConfigInput] <;> split <;>
    simp_all [configInput]

theorem rawOpts_storeConfigInput (q : PtpProfile) (p r : Role) (v : String) :
    rawOpts (storeConfigInput q p v) r = rawOpts q r := by
  cases p <;> simp only [storeConfigInput] <;> split <;> cases r <;> rfl

theorem configInput_storeOpts (q : PtpProfile) (p r : Role) (v : String) :
    configInput (storeOpts q p v) r = configInput q r := by
  cases p <;> simp only [storeOpts] <;> split <;> cases r <;> rfl

theorem rawOpts_storeOpts (q : PtpProfile) (p r : Role) (v : String) :
    rawOpts (storeOpts q p v) r
      = if r = p then (rawOpts q p).map (fun _ => v) else rawOpts q r := by
  cases p <;> cases r <;> simp only [storeOpts] <;> split <;>
    simp_all [rawOpts]

theorem strings_interfaceStep (q : PtpProfile) (out : ptp4lConf) (r : Role) :
    configInput (interfaceStep q out).2 r = configInput q r ∧
    rawOpts (interfaceStep q out).2 r = rawOpts q r := by
  unfold interfaceStep
  split
  · split <;> cases r <;> exact ⟨rfl, rfl⟩
  · cases r <;> exact ⟨rfl, rfl⟩

theorem configOpts_of_rawOpts (q : PtpProfile) (p : Role) (o : String)
    (h : rawOpts q p = some o) : configOpts q p = some o := by
  cases p <;> simp_all [rawOpts, configOpts]

theorem configOpts_congr_raw (a b : PtpProfile) (r : Role) (h : rawOpts a r = rawOpts b r) :
    configOpts a r = configOpts b r := by
  cases r <;> simp_all [rawOpts, configOpts]

/-- The profile after one iteration of the role loop: the one before, or the one before with
the strings of role `p` overwritten through its two pointers. -/
theorem applyRole_profile_shape (env : Env) (runID : Nat) (dn : Daemon)
    (nodeProfile : PtpProfile) (p : Role) :
    (applyRole env runID dn nodeProfile p).1.2 = nodeProfile ∨
    ∃ (opts text : String) (out conf : ptp4lConf),
      configOpts nodeProfile p = some opts ∧ opts ≠ "" ∧
      (applyRole env runID dn nodeProfile p).1.2
        = storeConfigInput
            (storeOpts (interfaceStep nodeProfile out).2 p
              (env.ops.addFlagsForMonitor p opts conf).1) p text := by
  unfold applyRole
  split
  · exact Or.inl rfl
  · rename_i opts hopts
    split
    · exact Or.inl rfl
    · rename_i hne
      split
      · exact Or.inl rfl
      · split
        · exact Or.inl rfl
        · simp only
          split
          · exact Or.inr ⟨opts, _, _, _, hopts, hne, rfl⟩
          · split
            · exact Or.inr ⟨opts, _, _, _, hopts, hne, rfl⟩
            · exact Or.inr ⟨opts, _, _, _, hopts, hne, rfl⟩

theorem applyRole_strings (env : Env) (runID : Nat) (dn : Daemon) (nodeProfile : PtpProfile)
    (p : Role) :
    (∀ r : Role, r ≠ p →
      configInput (applyRole env runID dn nodeProfile p).1.2 r = configInput nodeProfile r ∧
      rawOpts (applyRole env runID dn nodeProfile p).1.2 r = rawOpts nodeProfile r) ∧
    (skipsRole nodeProfile p = true →
      (applyRole env runID dn nodeProfile p).1.2 = nodeProfile) ∧
    (∀ r : Role,
      (configInput (applyRole env runID dn nodeProfile p).1.2 r = none
        ↔ configInput nodeProfile r = none) ∧
      (rawOpts (applyRole env runID dn nodeProfile p).1.2 r = none
        ↔ rawOpts nodeProfile r = none)) ∧
    ((∀ (q : Role) (o : String) (c : ptp4lConf), (env.ops.addFlagsForMonitor q o c).1 = o) →
      ∀ r : Role, rawOpts (applyRole env runID dn nodeProfile p).1.2 r = rawOpts nodeProfile r) := by
  rcases applyRole_profile_shape env runID dn nodeProfile p with h | ⟨opts, text, out, conf, hopts, hne, h⟩
  · rw [h]
    exact ⟨fun _ _ => ⟨rfl, rfl⟩, fun _ => rfl, fun _ => ⟨Iff.rfl, Iff.rfl⟩, fun _ _ => rfl⟩
  · rw [h]
    have hci : ∀ r, configInput (storeConfigInput (storeOpts (interfaceStep nodeProfile out).2 p
          (env.ops.addFlagsForMonitor p opts conf).1) p text) r
        = if r = p then (configInput nodeProfile p).map (fun _ => text)
          else configInput nodeProfile r := by
      intro r
      rw [configInput_storeConfigInput, configInput_storeOpts, configInput_storeOpts,
        (strings_interfaceStep _ _ _).1, (strings_interfaceStep _ _ _).1]
    have hro : ∀ r, rawOpts (storeConfigInput (storeOpts (interfaceStep nodeProfile out).2 p
          (env.ops.addFlagsForMonitor p opts conf).1) p text) r
        = if r = p then (rawOpts nodeProfile p).map
            (fun _ => (env.ops.addFlagsForMonitor p opts conf).1)
          else rawOpts nodeProfile r := by
      intro r
      rw [rawOpts_storeConfigInput, rawOpts_storeOpts,
        (strings_interfaceStep _ _ _).2, (strings_interfaceStep _ _ _).2]
    refine ⟨fun r hr => ?_, fun hskip => ?_, fun r => ?_, fun hk r => ?_⟩
    · rw [hci, hro]; simp [hr]
    · simp [skipsRole, hopts, hne] at hskip
    · rw [hci, hro]
      by_cases hr : r = p
      · subst hr; simp
      · simp [hr]
    · rw [hro]
      by_cases hr : r = p
      · subst hr
        cases hraw : rawOpts nodeProfile r with
        | none => simp
        | some o =>
          have := configOpts_of_rawOpts nodeProfile r o hraw
          rw [hopts] at this
          simp only [if_true, Option.map_some']
          rw [hk]
          exact this
      · simp [hr]

theorem applyRoles_strings (env : Env) (runID : Nat) (roles : List Role) (hnd : roles.Nodup) :
    ∀ (dn : Daemon) (nodeProfile : PtpProfile),
      StringsKept env roles nodeProfile (applyRoles env runID roles dn nodeProfile).1.2 := by
  induction roles with
  | nil =>
    intro dn nodeProfile r
    exact ⟨fun _ => ⟨rfl, rfl⟩, Iff.rfl, Iff.rfl, fun _ => rfl⟩
  | cons p rest ih =>
    intro dn nodeProfile
    have hp : p ∉ rest := (List.nodup_cons.mp hnd).1
    have hrest : rest.Nodup := (List.nodup_cons.mp hnd).2
    obtain ⟨h1, h2, h3, h4⟩ := applyRole_strings env runID dn nodeProfile p
    have hstep : StringsKept env (p :: rest) nodeProfile
        (applyRole env runID dn nodeProfile p).1.2 := by
      intro r
      refine ⟨fun hr => ?_, (h3 r).1, (h3 r).2, fun hk => h4 hk r⟩
      by_cases hrp : r = p
      · subst hrp
        rcases hr with hr | hr
        · exact absurd (List.mem_cons_self _ _) hr
        · rw [h2 hr]; exact ⟨rfl, rfl⟩
      · exact h1 r hrp
    unfold applyRoles
    split
    · rename_i st e heq
      rw [heq] at hstep
      exact hstep
    · rename_i dn1 profile1 heq
      rw [heq] at hstep h1 h2
      simp only at hstep h1 h2
      have hnext := ih hrest dn1 profile1
      intro r
      obtain ⟨a1, a2, a3, a4⟩ := hstep r
      obtain ⟨b1, b2, b3, b4⟩ := hnext r
      refine ⟨fun hr => ?_, b2.trans a2, b3.trans a3, fun hk => (b4 hk).trans (a4 hk)⟩
      have hfirst := a1 hr
      have hsecond : r ∉ rest ∨ skipsRole profile1 r = true := by
        rcases hr with hr | hr
        · exact Or.inl (fun h => hr (List.mem_cons_of_mem _ h))
        · by_cases hrp : r = p
          · exact Or.inl (hrp ▸ hp)
          · right
            rw [skipsRole_congr profile1 nodeProfile r
              (configOpts_congr_raw _ _ _ (h1 r hrp).2)]
            exact hr
      obtain ⟨c1, c2⟩ := b1 hsecond
      exact ⟨c1.trans hfirst.1, c2.trans hfirst.2⟩

theorem applyNodePtpProfile_strings (env : Env) (runID : Nat) (dn : Daemon)
    (nodeProfile : PtpProfile) :
    StringsKept env ptp_processes nodeProfile
      (applyNodePtpProfile env runID dn nodeProfile).1.2 := by
  have h := applyRoles_strings env runID ptp_processes ptp_processes_nodup
    (OnPTPConfigChange dn nodeProfile) nodeProfile
  unfold applyNodePtpProfile
  split
  · rename_i st e heq
    rw [heq] at h; exact h
  · rename_i dn1 profile1 heq
    rw [heq] at h; exact h

theorem modify_at_length {α : Type} (f : α → α) (pre : List α) (a : α) (rest : List α) :
    List.modify f pre.length (pre ++ a :: rest) = pre ++ f a :: rest := by
  induction pre with
  | nil => simp [List.modify]
  | cons b pre ih => simpa [List.modify] using ih

theorem profileKept_refl (env : Env) (p : PtpProfile) : ProfileKept env p p :=
  ⟨rfl, fun _ => ⟨fun _ => ⟨rfl, rfl⟩, Iff.rfl, Iff.rfl, fun _ => rfl⟩⟩

theorem profileKept_sharedWith (env : Env) (old loopCopy : PtpProfile)
    (h : StringsKept env ptp_processes old loopCopy) :
    ProfileKept env old (sharedWith old loopCopy) := by
  have hc : ∀ r, configInput (sharedWith old loopCopy) r = configInput loopCopy r := by
    intro r; cases r <;> rfl
  have ho : ∀ r, rawOpts (sharedWith old loopCopy) r = rawOpts loopCopy r := by
    intro r; cases r <;> rfl
  refine ⟨rfl, fun r => ?_⟩
  obtain ⟨a1, a2, a3, a4⟩ := h r
  rw [hc, ho]
  exact ⟨fun hs => a1 (Or.inr hs), a2, a3, a4⟩

theorem forall2_profileKept_refl (env : Env) (l : List PtpProfile) :
    List.Forall₂ (ProfileKept env) l l := by
  induction l with
  | nil => exact List.Forall₂.nil
  | cons a rest ih => exact List.Forall₂.cons (profileKept_refl env a) ih

theorem interfaceStep_congr (a b : PtpProfile) (out : ptp4lConf)
    (h : a.Interface.getD "" = b.Interface.getD "") :
    (interfaceStep a out).1 = (interfaceStep b out).1 := by
  unfold interfaceStep
  cases ha : a.Interface <;> cases hb : b.Interface <;> simp_all <;> split <;> simp_all

theorem renderInput_congr (ops : ConfigOps) (p : Role) (runID : Nat) (a b : PtpProfile)
    (name opts : String) (parsed : ptp4lConf)
    (h : a.Interface.getD "" = b.Interface.getD "") :
    renderInput ops p runID a name opts parsed = renderInput ops p runID b name opts parsed := by
  unfold renderInput injectedConf
  simp only
  rw [interfaceStep_congr a b _ h]

theorem interfaceStep_base (q : PtpProfile) (out : ptp4lConf) :
    (interfaceStep q out).2.Name = q.Name ∧
    (interfaceStep q out).2.Interface.getD "" = q.Interface.getD "" := by
  unfold interfaceStep
  cases h : q.Interface with
  | none => simp
  | some i =>
    simp only
    split
    · simp [h]
    · rename_i hi
      simp only [ne_eq, not_not] at hi
      simp [hi]

theorem storeOpts_base (q : PtpProfile) (p : Role) (v : String) :
    (storeOpts q p v).Name = q.Name ∧ (storeOpts q p v).Interface = q.Interface := by
  cases p <;> simp only [storeOpts] <;> split <;> exact ⟨rfl, rfl⟩

theorem storeConfigInput_base (q : PtpProfile) (p : Role) (v : String) :
    (storeConfigInput q p v).Name = q.Name ∧
    (storeConfigInput q p v).Interface = q.Interface := by
  cases p <;> simp only [storeConfigInput] <;> split <;> exact ⟨rfl, rfl⟩

/-- One iteration of the role loop: the profile is the one before, or the role has been
rendered; the latter when the role is not skipped and the iteration returns no error. -/
theorem applyRole_rendered (env : Env) (runID : Nat) (dn : Daemon) (q : PtpProfile)
    (p : Role) :
    ((applyRole env runID dn q p).1.2 = q ∨
      (RoleRendered env runID q (applyRole env runID dn q p).1.2 p ∧
        (applyRole env runID dn q p).1.2.Name = q.Name ∧
        (applyRole env runID dn q p).1.2.Interface.getD "" = q.Interface.getD "")) ∧
    ((applyRole env runID dn q p).2 = none → skipsRole q p = false →
      RoleRendered env runID q (applyRole env runID dn q p).1.2 p) := by
  have key : ∀ (opts name : String) (parsed : ptp4lConf),
      configOpts q p = some opts → opts ≠ "" → q.Name = some name →
      env.ops.populatePtp4lConf (configInput q p) = Except.ok parsed →
      RoleRendered env runID q
        (storeConfigInput
          (storeOpts (interfaceStep q { parsed with profile_name := name }).2 p
            (renderInput env.ops p runID q name opts parsed).2) p
          (env.ops.renderPtp4lConf (renderInput env.ops p runID q name opts parsed).1).1) p ∧
      (storeConfigInput
          (storeOpts (interfaceStep q { parsed with profile_name := name }).2 p
            (renderInput env.ops p runID q name opts parsed).2) p
          (env.ops.renderPtp4lConf (renderInput env.ops p runID q name opts parsed).1).1).Name
        = q.Name ∧
      (storeConfigInput
          (storeOpts (interfaceStep q { parsed with profile_name := name }).2 p
            (renderInput env.ops p runID q name opts parsed).2) p
          (env.ops.renderPtp4lConf
            (renderInput env.ops p runID q name opts parsed).1).1).Interface.getD ""
        = q.Interface.getD "" := by
    intro opts name parsed hopts hne hname hparse
    refine ⟨⟨opts, name, parsed, hopts, hne, hname, hparse, ?_, ?_⟩, ?_, ?_⟩
    · rw [configInput_storeConfigInput, configInput_storeOpts, (strings_interfaceStep _ _ _).1]
      simp
    · rw [rawOpts_storeConfigInput, rawOpts_storeOpts, (strings_interfaceStep _ _ _).2]
      simp
    · rw [(storeConfigInput_base _ _ _).1, (storeOpts_base _ _ _).1, (interfaceStep_base _ _).1]
    · rw [(storeConfigInput_base _ _ _).2, (storeOpts_base _ _ _).2, (interfaceStep_base _ _).2]
  unfold applyRole skipsRole
  split
  · exact ⟨Or.inl rfl, fun _ h => by simp at h⟩
  · rename_i opts hopts
    split
    · rename_i he
      exact ⟨Or.inl rfl, fun _ h => by simp [he] at h⟩
    · rename_i hne
      split
      · exact ⟨Or.inl rfl, fun h _ => by simp at h⟩
      · rename_i parsed hparse
        split
        · exact ⟨Or.inl rfl, fun h _ => by simp at h⟩
        · rename_i name hname
          have hk := key opts name parsed hopts hne hname hparse
          simp only
          split
          · exact ⟨Or.inr hk, fun _ _ => hk.1⟩
          · split
            · exact ⟨Or.inr hk, fun _ _ => hk.1⟩
            · exact ⟨Or.inr hk, fun _ _ => hk.1⟩

theorem roleRendered_congr_old (env : Env) (runID : Nat) (a b new : PtpProfile) (r : Role)
    (hname : a.Name = b.Name) (hif : a.Interface.getD "" = b.Interface.getD "")
    (hci : configInput a r = configInput b r) (hro : rawOpts a r = rawOpts b r)
    (h : RoleRendered env runID a new r) : RoleRendered env runID b new r := by
  obtain ⟨opts, name, parsed, h1, h2, h3, h4, h5, h6⟩ := h
  refine ⟨opts, name, parsed, ?_, h2, ?_, ?_, ?_, ?_⟩
  · rw [← configOpts_congr_raw a b r hro]; exact h1
  · rw [← hname]; exact h3
  · rw [← hci]; exact h4
  · rw [h5, hci, renderInput_congr env.ops r runID a b name opts parsed hif]
  · rw [h6, hro, renderInput_congr env.ops r runID a b name opts parsed hif]

theorem roleRendered_congr_new (env : Env) (runID : Nat) (old a b : PtpProfile) (r : Role)
    (hci : configInput b r = configInput a r) (hro : rawOpts b r = rawOpts a r)
    (h : RoleRendered env runID old a r) : RoleRendered env runID old b r := by
  obtain ⟨opts, name, parsed, h1, h2, h3, h4, h5, h6⟩ := h
  exact ⟨opts, name, parsed, h1, h2, h3, h4, by rw [hci, h5], by rw [hro, h6]⟩

/-- The role loop: name and interface name of the profile are kept, every role has its two
strings kept or has been rendered, and when the loop returns no error every role of the
list that is not skipped has been rendered. -/
theorem applyRoles_rendered (env : Env) (runID : Nat) (roles : List Role) (hnd : roles.Nodup) :
    ∀ (dn : Daemon) (q : PtpProfile),
      (applyRoles env runID roles dn q).1.2.Name = q.Name ∧
      (applyRoles env runID roles dn q).1.2.Interface.getD "" = q.Interface.getD "" ∧
      (∀ r : Role, RoleKept q (applyRoles env runID roles dn q).1.2 r ∨
        RoleRendered env runID q (applyRoles env runID roles dn q).1.2 r) ∧
      ((applyRoles env runID roles dn q).2 = none →
        ∀ r ∈ roles, skipsRole q r = false →
          RoleRendered env runID q (applyRoles env runID roles dn q).1.2 r) := by
  induction roles with
  | nil =>
    intro dn q
    exact ⟨rfl, rfl, fun r => Or.inl ⟨rfl, rfl⟩, fun _ r hr => by cases hr⟩
  | cons p rest ih =>
    intro dn q
    have hp : p ∉ rest := (List.nodup_cons.mp hnd).1
    have hrest : rest.Nodup := (List.nodup_cons.mp hnd).2
    obtain ⟨hshape, hdone⟩ := applyRole_rendered env runID dn q p
    obtain ⟨h1, _, _, _⟩ := applyRole_strings env runID dn q p
    have hbase : (applyRole env runID dn q p).1.2.Name = q.Name ∧
        (applyRole env runID dn q p).1.2.Interface.getD "" = q.Interface.getD "" := by
      rcases hshape with h | ⟨_, h2, h3⟩
      · rw [h]; exact ⟨rfl, rfl⟩
      · exact ⟨h2, h3⟩
    have hstep : ∀ r : Role, RoleKept q (applyRole env runID dn q p).1.2 r ∨
        RoleRendered env runID q (applyRole env runID dn q p).1.2 r := by
      intro r
      by_cases hrp : r = p
      · subst hrp
        rcases hshape with h | ⟨h, _, _⟩
        · rw [h]; exact Or.inl ⟨rfl, rfl⟩
        · exact Or.inr h
      · exact Or.inl (h1 r hrp)
    unfold applyRoles
    split
    · rename_i st e heq
      rw [heq] at hbase hstep
      exact ⟨hbase.1, hbase.2, hstep, fun h => by simp at h⟩
    · rename_i dn1 profile1 heq
      rw [heq] at hbase hstep hdone h1
      simp only at hbase hstep hdone h1
      obtain ⟨i1, i2, i3, i4⟩ := ih hrest dn1 profile1
      have hkeep := applyRoles_strings env runID rest hrest dn1 profile1
      refine ⟨i1.trans hbase.1, i2.trans hbase.2, fun r => ?_, fun hnone r hr hskip => ?_⟩
      · by_cases hrp : r = p
        · subst hrp
          obtain ⟨c1, c2⟩ := (hkeep r).1 (Or.inl hp)
          rcases hstep r with ⟨k1, k2⟩ | hrend
          · exact Or.inl ⟨c1.trans k1, c2.trans k2⟩
          · exact Or.inr (roleRendered_congr_new env runID q profile1 _ r c1 c2 hrend)
        · obtain ⟨k1, k2⟩ := h1 r hrp
          rcases i3 r with ⟨c1, c2⟩ | hrend
          · exact Or.inl ⟨c1.trans k1, c2.trans k2⟩
          · exact Or.inr (roleRendered_congr_old env runID profile1 q _ r hbase.1 hbase.2
              k1 k2 hrend)
      · by_cases hrp : r = p
        · subst hrp
          obtain ⟨c1, c2⟩ := (hkeep r).1 (Or.inl hp)
          exact roleRendered_congr_new env runID q profile1 _ r c1 c2 (hdone trivial hskip)
        · obtain ⟨k1, k2⟩ := h1 r hrp
          have hmem : r ∈ rest := by
            rcases List.mem_cons.mp hr with h | h
            · exact absurd h hrp
            · exact h
          have hskip1 : skipsRole profile1 r = false := by
            rw [skipsRole_congr profile1 q r (configOpts_congr_raw _ _ _ k2)]
            exact hskip
          exact roleRendered_congr_old env runID profile1 q _ r hbase.1 hbase.2 k1 k2
            (i4 hnone r hmem hskip1)

theorem applyNodePtpProfile_rendered (env : Env) (runID : Nat) (dn : Daemon)
    (q : PtpProfile) :
    (∀ r : Role, RoleKept q (applyNodePtpProfile env runID dn q).1.2 r ∨
      RoleRendered env runID q (applyNodePtpProfile env runID dn q).1.2 r) ∧
    ((applyNodePtpProfile env runID dn q).2 = none →
      ∀ r : Role, skipsRole q r = false →
        RoleRendered env runID q (applyNodePtpProfile env runID dn q).1.2 r) := by
  obtain ⟨_, _, h3, h4⟩ := applyRoles_rendered env runID ptp_processes ptp_processes_nodup
    (OnPTPConfigChange dn q) q
  have hmem : ∀ r : Role, r ∈ ptp_processes := by intro r; cases r <;> simp [ptp_processes]
  unfold applyNodePtpProfile
  split
  · rename_i st e heq
    rw [heq] at h3
    exact ⟨h3, fun h => by simp at h⟩
  · rename_i dn1 profile1 heq
    rw [heq] at h3 h4
    exact ⟨h3, fun _ r hs => h4 rfl r (hmem r) hs⟩

theorem strings_sharedWith (old loopCopy : PtpProfile) (r : Role) :
    configInput (sharedWith old loopCopy) r = configInput loopCopy r ∧
    rawOpts (sharedWith old loopCopy) r = rawOpts loopCopy r := by
  cases r <;> exact ⟨rfl, rfl⟩

/-- The stored profiles after the profile loop, when the loop starts at the position
`runID` of the stored list: what is kept, and what the rendering has left in the strings. -/
theorem applyProfilesFrom_stored (env : Env) (profiles : List PtpProfile) :
    ∀ (runID : Nat) (dn : Daemon) (pre : List PtpProfile),
    dn.nodeProfiles = pre ++ profiles → pre.length = runID →
    ∃ results : List PtpProfile,
      (applyProfilesFrom env runID profiles dn).1.nodeProfiles = pre ++ results ∧
      List.Forall₂ (ProfileKept env) profiles results ∧
      (∀ (j : Nat) (old new : PtpProfile), profiles[j]? = some old → results[j]? = some new →
        ∀ r : Role, RoleKept old new r ∨ RoleRendered env (runID + j) old new r) ∧
      ((applyProfilesFrom env runID profiles dn).2 = none →
        ∀ (j : Nat) (old new : PtpProfile), profiles[j]? = some old → results[j]? = some new →
          ∀ r : Role, skipsRole old r = false → RoleRendered env (runID + j) old new r) := by
  induction profiles with
  | nil =>
    intro runID dn pre hdn _
    exact ⟨[], by simpa [applyProfilesFrom] using hdn, List.Forall₂.nil,
      fun j old new h => by simp at h, fun _ j old new h => by simp at h⟩
  | cons profile rest ih =>
    intro runID dn pre hdn hlen
    obtain ⟨_, _, _, _, hprof, _, _, _⟩ := applyNodePtpProfile_spec env runID dn profile
    have hkept := applyNodePtpProfile_strings env runID dn profile
    obtain ⟨hany, hdone⟩ := applyNodePtpProfile_rendered env runID dn profile
    have hhead : ∀ (loopCopy : PtpProfile) (r : Role),
        (RoleKept profile loopCopy r ∨ RoleRendered env runID profile loopCopy r) →
        (RoleKept profile (sharedWith profile loopCopy) r ∨
          RoleRendered env runID profile (sharedWith profile loopCopy) r) := by
      intro loopCopy r h
      obtain ⟨s1, s2⟩ := strings_sharedWith profile loopCopy r
      rcases h with ⟨k1, k2⟩ | h
      · exact Or.inl ⟨s1.trans k1, s2.trans k2⟩
      · exact Or.inr (roleRendered_congr_new env runID profile loopCopy _ r s1 s2 h)
    unfold applyProfilesFrom
    split
    · rename_i dn1 profile1 e heq
      rw [heq] at hprof hkept hany
      simp only at hany
      refine ⟨sharedWith profile profile1 :: rest, ?_,
        List.Forall₂.cons (profileKept_sharedWith env _ _ hkept) (forall2_profileKept_refl env rest),
        ?_, fun h => by simp at h⟩
      · show List.modify _ runID dn1.nodeProfiles = _
        rw [show dn1.nodeProfiles = _ from hprof, hdn, ← hlen, modify_at_length]
      · intro j old new hold hnew r
        cases j with
        | zero =>
          simp only [List.getElem?_cons_zero, Option.some.injEq] at hold hnew
          subst hold hnew
          exact hhead profile1 r (hany r)
        | succ j =>
          simp only [List.getElem?_cons_succ] at hold hnew
          rw [hold] at hnew
          simp only [Option.some.injEq] at hnew
          subst hnew
          exact Or.inl ⟨rfl, rfl⟩
    · rename_i dn1 profile1 heq
      rw [heq] at hprof hkept hany hdone
      simp only at hany hdone
      have hstore : (storeBack dn1 runID profile1).nodeProfiles
          = (pre ++ [sharedWith profile profile1]) ++ rest := by
        show List.modify _ runID dn1.nodeProfiles = _
        rw [show dn1.nodeProfiles = _ from hprof, hdn, ← hlen, modify_at_length]
        simp
      obtain ⟨results, g1, g2, g3, g4⟩ := ih (runID + 1) (storeBack dn1 runID profile1)
        (pre ++ [sharedWith profile profile1]) hstore (by simp [hlen])
      refine ⟨sharedWith profile profile1 :: results, ?_,
        List.Forall₂.cons (profileKept_sharedWith env _ _ hkept) g2, ?_, ?_⟩
      · rw [g1]; simp
      · intro j old new hold hnew r
        cases j with
        | zero =>
          simp only [List.getElem?_cons_zero, Option.some.injEq] at hold hnew
          subst hold hnew
          exact hhead profile1 r (hany r)
        | succ j =>
          simp only [List.getElem?_cons_succ] at hold hnew
          have := g3 j old new hold hnew r
          rw [show runID + (j + 1) = runID + 1 + j by omega]
          exact this
      · intro hnone j old new hold hnew r hskip
        cases j with
        | zero =>
          simp only [List.getElem?_cons_zero, Option.some.injEq] at hold hnew
          subst hold hnew
          obtain ⟨s1, s2⟩ := strings_sharedWith profile profile1 r
          exact roleRendered_congr_new env runID profile profile1 _ r s1 s2
            (hdone trivial r hskip)
        | succ j =>
          simp only [List.getElem?_cons_succ] at hold hnew
          have := g4 hnone j old new hold hnew r hskip
          rw [show runID + (j + 1) = runID + 1 + j by omega]
          exact this

/-- C14 (as amended): after applyNodePTPProfiles every stored profile has the name, interface,
scheduling fields and settings it had; for a skipped role its option string and config
text are the ones it had; no string pointer changes between nil and non-nil; and the
option strings are the ones it had when the monitoring hook returns the option string it
is given.  For every role of the stored profile at position `i`, the two strings are the
ones it had or the role has been rendered: the parser succeeded on the text it had, its
config text (when not nil) is now the text rendered in run `i` and its option string (when
not nil) the one the monitoring hook left; and when the call returns no error, every role
that is not skipped has been rendered. -/
theorem stored_profiles_after_apply (env : Env) (dn : Daemon) :
    List.Forall₂ (ProfileKept env) dn.nodeProfiles
      (applyNodePTPProfiles env dn).1.nodeProfiles ∧
    (∀ (i : Nat) (old new : PtpProfile), dn.nodeProfiles[i]? = some old →
      (applyNodePTPProfiles env dn).1.nodeProfiles[i]? = some new →
      ∀ r : Role, RoleKept old new r ∨ RoleRendered env i old new r) ∧
    ((applyNodePTPProfiles env dn).2 = none →
      ∀ (i : Nat) (old new : PtpProfile), dn.nodeProfiles[i]? = some old →
        (applyNodePTPProfiles env dn).1.nodeProfiles[i]? = some new →
        ∀ r : Role, skipsRole old r = false → RoleRendered env i old new r) := by
  obtain ⟨hprof, _⟩ := stopAll_keeps dn.process dn
  unfold applyNodePTPProfiles
  cases hstop : stopAll dn.process dn with
  | mk stopped err =>
    rw [hstop] at hprof
    simp only at hprof
    cases err with
    | some e =>
      simp only
      rw [hprof]
      refine ⟨forall2_profileKept_refl env _, ?_, fun h => by simp at h⟩
      intro i old new hold hnew r
      rw [hold] at hnew
      simp only [Option.some.injEq] at hnew
      subst hnew
      exact Or.inl ⟨rfl, rfl⟩
    | none =>
      simp only
      obtain ⟨results, g1, g2, g3, g4⟩ := applyProfilesFrom_stored env stopped.nodeProfiles 0
        { stopped with process := [], hwconfigs := [] } [] rfl rfl
      rw [hprof] at g1 g2 g3 g4
      simp only [Nat.zero_add] at g3 g4
      split
      · rename_i dn1 e heq
        rw [hprof] at heq
        rw [heq] at g1
        simp only [List.nil_append] at g1
        rw [show dn1.nodeProfiles = _ from g1]
        exact ⟨g2, g3, fun h => by simp at h⟩
      · rename_i dn1 heq
        rw [hprof] at heq
        rw [heq] at g1 g4
        simp only [List.nil_append] at g1
        have hs : (startAll dn1).nodeProfiles = results := g1
        rw [hs]
        exact ⟨g2, g3, fun _ => g4 rfl⟩

/-- Witness of C14: one apply of the profile for `ens1` returns no error and its ptp4l role,
which is not skipped, has been rendered in run 0. -/
theorem stored_profiles_after_apply_witness :
    (applyNodePTPProfiles sampleEnv (idleDaemon [ens1Profile])).2 = none ∧
    (idleDaemon [ens1Profile]).nodeProfiles[0]? = some ens1Profile ∧
    (applyNodePTPProfiles sampleEnv (idleDaemon [ens1Profile])).1.nodeProfiles[0]?
      = some { ens1Profile with
          Ptp4lConf := some "[ens1]\n[global]\ntx_timestamp_timeout 50\nmessage_tag [ptp4l.0.config]\nuds_address /var/run/ptp4l.0.socket" } ∧
    skipsRole ens1Profile Role.ptp4l = false ∧
    RoleRendered sampleEnv 0 ens1Profile
      { ens1Profile with
        Ptp4lConf := some "[ens1]\n[global]\ntx_timestamp_timeout 50\nmessage_tag [ptp4l.0.config]\nuds_address /var/run/ptp4l.0.socket" }
      Role.ptp4l :=
  ⟨by decide, rfl, by decide, by decide,
    (stored_profiles_after_apply sampleEnv (idleDaemon [ens1Profile])).2.2 (by decide) 0 _ _
      rfl (by decide) Role.ptp4l (by decide)⟩

/-- C14 (counterexample): after one apply the stored ptp4l config text of the profile is the
rendered text, not the text it held before. -/
theorem config_text_overwritten :
    (idleDaemon [ens1Profile]).nodeProfiles.map (fun p => p.Ptp4lConf)
      = [some "[global]\ntx_timestamp_timeout 50"] ∧
    (applyNodePTPProfiles sampleEnv (idleDaemon [ens1Profile])).2 = none ∧
    (applyNodePTPProfiles sampleEnv (idleDaemon [ens1Profile])).1.nodeProfiles.map
        (fun p => p.Ptp4lConf)
      = [some "[ens1]\n[global]\ntx_timestamp_timeout 50\nmessage_tag [ptp4l.0.config]\nuds_address /var/run/ptp4l.0.socket"] := by
  decide

/-! ## Plugin registry -/

theorem lookupKey_setKey_same {α : Type} (m : List (String × α)) (k : String) (v : α) :
    lookupKey (setKey m k v) k = some v := by
  induction m with
  | nil => simp [setKey, lookupKey]
  | cons e rest ih =>
    obtain ⟨k1, v1⟩ := e
    by_cases hk : k1 = k
    · simp [setKey, lookupKey, hk]
    · simp [setKey, lookupKey, hk, ih]

theorem lookupKey_setKey_other {α : Type} (m : List (String × α)) (k k2 : String) (v : α)
    (h : k2 ≠ k) : lookupKey (setKey m k v) k2 = lookupKey m k2 := by
  induction m with
  | nil => simp [setKey, lookupKey, Ne.symm h]
  | cons e rest ih =>
    obtain ⟨k1, v1⟩ := e
    by_cases hk : k1 = k
    · subst hk
      simp [setKey, lookupKey, Ne.symm h]
    · by_cases hk2 : k1 = k2
      · subst hk2
        simp [setKey, lookupKey, hk]
      · simp [setKey, lookupKey, hk, hk2, ih]

theorem keys_setKey {α : Type} (m : List (String × α)) (k : String) (v : α) :
    (setKey m k v).map Prod.fst
      = if k ∈ m.map Prod.fst then m.map Prod.fst else m.map Prod.fst ++ [k] := by
  induction m with
  | nil => simp [setKey]
  | cons e rest ih =>
    obtain ⟨k1, v1⟩ := e
    by_cases hk : k1 = k
    · subst hk
      simp [setKey]
    · have hk2 : ¬ k = k1 := fun h => hk h.symm
      simp only [setKey, hk, if_false, List.map_cons, ih, List.mem_cons, hk2, false_or]
      split <;> simp

theorem keys_setKey_nodup {α : Type} (m : List (String × α)) (k : String) (v : α)
    (h : (m.map Prod.fst).Nodup) : ((setKey m k v).map Prod.fst).Nodup := by
  rw [keys_setKey]
  split
  · exact h
  · rename_i hk
    rw [List.nodup_append]
    refine ⟨h, by simp, ?_⟩
    intro a ha hb
    simp only [List.mem_singleton] at hb
    exact hk (hb ▸ ha)

theorem registerPlugin_eq (pluginMapping : List (String × (String → Option Plugin)))
    (name : String) :
    registerPlugin pluginMapping name = (lookupKey pluginMapping name).bind (fun c => c name) := by
  induction pluginMapping with
  | nil => rfl
  | cons e rest ih =>
    obtain ⟨k1, c1⟩ := e
    by_cases hk : k1 = name
    · simp [registerPlugin, lookupKey, hk]
    · simp [registerPlugin, lookupKey, hk, ih]

/-- The registry after the loop of `registerPlugins`, started from any registry. -/
theorem registerLoop_spec (pluginMapping : List (String × (String → Option Plugin)))
    (names : List String) :
    ∀ (manager : List (String × Plugin)) (k : String),
      lookupKey
          (names.foldl
            (fun manager name =>
              match registerPlugin pluginMapping name with
              | some currentPlugin => setKey manager name currentPlugin
              | none => manager)
            manager) k
        = (if k ∈ names ∧ (registerPlugin pluginMapping k).isSome
            then registerPlugin pluginMapping k else lookupKey manager k) ∧
      ((manager.map Prod.fst).Nodup →
        ((names.foldl
            (fun manager name =>
              match registerPlugin pluginMapping name with
              | some currentPlugin => setKey manager name currentPlugin
              | none => manager)
            manager).map Prod.fst).Nodup) := by
  induction names with
  | nil => intro manager k; simp
  | cons n rest ih =>
    intro manager k
    simp only [List.foldl_cons]
    cases hn : registerPlugin pluginMapping n with
    | none =>
      obtain ⟨h1, h2⟩ := ih manager k
      refine ⟨?_, h2⟩
      simp only at h1 ⊢
      rw [h1]
      by_cases hkn : k = n
      · subst hkn
        simp [hn]
      · simp [hkn]
    | some pl =>
      obtain ⟨h1, h2⟩ := ih (setKey manager n pl) k
      refine ⟨?_, fun hnd => h2 (keys_setKey_nodup manager n pl hnd)⟩
      simp only at h1 ⊢
      rw [h1]
      by_cases hkn : k = n
      · subst hkn
        simp [hn, lookupKey_setKey_same]
      · simp [hkn, lookupKey_setKey_other _ _ _ _ hkn]

/-- C16: for every list of requested names and every name-to-constructor mapping, the
registry built by `registerPlugins` has an entry for `k` exactly when `k` is requested, is a
key of the mapping and its constructor returns a plugin for `k` (the entry is that plugin);
an unknown name changes nothing, the keys of the registry are distinct, and when no
requested name is known the registry is empty and the hooks `OnPTPConfigChange` and
`PopulateHwConfig` of a daemon holding it invoke no plugin hook. -/
theorem registerPlugins_registry (pluginMapping : List (String × (String → Option Plugin)))
    (names : List String) (k : String) :
    ((lookupKey (registerPlugins pluginMapping names) k).isSome ↔
      k ∈ names ∧ ∃ (c : String → Option Plugin) (pl : Plugin),
        lookupKey pluginMapping k = some c ∧ c k = some pl) ∧
    (k ∈ names → lookupKey (registerPlugins pluginMapping names) k
      = (lookupKey pluginMapping k).bind (fun c => c k)) ∧
    ((registerPlugins pluginMapping names).map Prod.fst).Nodup ∧
    ((∀ n ∈ names, lookupKey pluginMapping n = none) →
      registerPlugins pluginMapping names = [] ∧
      ∀ (dn : Daemon) (nodeProfile : PtpProfile),
        dn.plugins = (registerPlugins pluginMapping names).map Prod.snd →
        (OnPTPConfigChange dn nodeProfile).log = dn.log ∧
        (PopulateHwConfig dn).log = dn.log ∧
        (PopulateHwConfig dn).hwconfigs = dn.hwconfigs) := by
  obtain ⟨h1, h2⟩ := registerLoop_spec pluginMapping names [] k
  have hl : lookupKey (registerPlugins pluginMapping names) k
      = if k ∈ names ∧ (registerPlugin pluginMapping k).isSome
          then registerPlugin pluginMapping k else none := h1
  refine ⟨?_, ?_, h2 (by simp), ?_⟩
  · rw [hl, registerPlugin_eq]
    by_cases hk : k ∈ names
    · cases hc : lookupKey pluginMapping k with
      | none => simp [hk]
      | some c =>
        cases hp : c k with
        | none => simp [hk, hp]
        | some pl => simp [hk, hp]
    · simp [hk]
  · intro hk
    rw [hl, ← registerPlugin_eq]
    cases hr : registerPlugin pluginMapping k <;> simp [hk]
  · intro hunknown
    have hnone : ∀ n ∈ names, registerPlugin pluginMapping n = none := by
      intro n hn
      rw [registerPlugin_eq, hunknown n hn]
      rfl
    have hempty : registerPlugins pluginMapping names = [] := by
      unfold registerPlugins
      suffices hgen : ∀ (l : List String), (∀ n ∈ l, registerPlugin pluginMapping n = none) →
          ∀ manager : List (String × Plugin),
          l.foldl
            (fun manager name =>
              match registerPlugin pluginMapping name with
              | some currentPlugin => setKey manager name currentPlugin
              | none => manager)
            manager = manager from hgen names hnone []
      intro l
      induction l with
      | nil => intro _ manager; rfl
      | cons n rest ih =>
        intro hl manager
        simp only [List.foldl_cons, hl n (List.mem_cons_self _ _)]
        exact ih (fun m hm => hl m (List.mem_cons_of_mem _ hm)) manager
    refine ⟨hempty, fun dn nodeProfile hdn => ?_⟩
    rw [hempty] at hdn
    simp [OnPTPConfigChange, PopulateHwConfig, hdn]

/-! ## The run loop -/

theorem hasStart_append (l1 l2 : List RunEvent) :
    hasStart (l1 ++ l2) = (hasStart l1 || hasStart l2) := by
  induction l1 with
  | nil => simp [hasStart]
  | cons e rest ih => cases e <;> simp [hasStart, ih]

theorem startArgs_append (l1 l2 : List RunEvent) :
    startArgs (l1 ++ l2) = startArgs l1 ++ startArgs l2 := by
  simp [startArgs, List.filterMap_append]

/-- A pass that gets past its waits and finds the stop flag set after the exit ends the loop:
its events are those of the pass, with no new command and nothing from later observations,
and the last of them is the read of the flag. -/
theorem runLoop_stop (p : ptpProcess) (o : RunObs) (rest : List RunObs) (cmd : Cmd)
    (hpipe : o.pipeError = false) (hpass : passBlocks o = false)
    (hstop : o.stoppedAfterExit = true) :
    runLoop p (o :: rest) cmd = (passEvents p o cmd, RunEnd.exited) ∧
    hasNewCommand (passEvents p o cmd) = false ∧
    (passEvents p o cmd).getLast? = some (RunEvent.readStopped true) := by
  obtain ⟨pe, sb, pid, oc, sa⟩ := o
  simp only at hpipe hstop
  subst hpipe hstop
  cases sb <;> cases oc <;> cases pid <;>
    simp_all [runLoop, passEvents, passBlocks, hasNewCommand, processStatus]

/-- A pass that reads the stop flag as true before the start calls no `cmd.Start`, builds
no command and waits for ever at `<-done`: the run ends there, with the loop not left. -/
theorem runLoop_blocks (p : ptpProcess) (o : RunObs) (rest : List RunObs) (cmd : Cmd)
    (hpipe : o.pipeError = false) (hstop : o.stoppedBeforeStart = true) :
    runLoop p (o :: rest) cmd
      = ([processStatus p.name p.messageTag ProcessStatus.PtpProcessUp,
          RunEvent.readStopped true], RunEnd.blocked) := by
  obtain ⟨pe, sb, pid, oc, sa⟩ := o
  simp only at hpipe hstop
  subst hpipe hstop
  simp [runLoop, passEvents, passBlocks]

theorem guardedFrom_exit (l : List RunEvent) : ∀ b : Bool,
    guardedFrom b (l ++ [RunEvent.exitSignal]) = guardedFrom b l := by
  induction l with
  | nil => intro b; rfl
  | cons e rest ih => intro b; cases e <;> simp [guardedFrom, ih]

theorem noStartAfterStop_exit (l : List RunEvent) :
    noStartAfterStop (l ++ [RunEvent.exitSignal]) = noStartAfterStop l := by
  induction l with
  | nil => rfl
  | cons e rest ih =>
    cases e with
    | readStopped value =>
      cases value <;> simp [noStartAfterStop, ih, hasStart_append, hasStart]
    | _ => simp [noStartAfterStop, ih]

theorem runLoop_guarded (p : ptpProcess) (obs : List RunObs) :
    ∀ cmd : Cmd, startsGuarded (runLoop p obs cmd).1 = true := by
  induction obs with
  | nil => intro cmd; rfl
  | cons o rest ih =>
    intro cmd
    obtain ⟨pe, sb, pid, oc, sa⟩ := o
    cases hargs : cmd.Args with
    | nil => cases pe <;> cases sb <;> cases oc <;> cases sa <;> cases pid <;>
        simp [runLoop, passEvents, passBlocks, startsGuarded, guardedFrom, processStatus, hargs]
    | cons arg0 args =>
      have := ih (execCommand arg0 args)
      simp only [startsGuarded] at this
      cases pe <;> cases sb <;> cases oc <;> cases sa <;> cases pid <;>
        simp [runLoop, passEvents, passBlocks, startsGuarded, guardedFrom, processStatus, hargs,
          this]

theorem runLoop_no_start_after_stop (p : ptpProcess) (obs : List RunObs) :
    ∀ cmd : Cmd, noStartAfterStop (runLoop p obs cmd).1 = true := by
  induction obs with
  | nil => intro cmd; rfl
  | cons o rest ih =>
    intro cmd
    obtain ⟨pe, sb, pid, oc, sa⟩ := o
    cases hargs : cmd.Args with
    | nil =>
      cases pe <;> cases sb <;> cases oc <;> cases sa <;> cases pid <;>
        simp [runLoop, passEvents, passBlocks, noStartAfterStop, hasStart, processStatus, hargs]
    | cons arg0 args =>
      have := ih (execCommand arg0 args)
      cases pe <;> cases sb <;> cases oc <;> cases sa <;> cases pid <;>
        simp [runLoop, passEvents, passBlocks, noStartAfterStop, hasStart, processStatus, hargs,
          this]

/-- C17: in `cmdRun`, a pass that reads the stop flag as true after the process exit and the
backoff delay leaves the loop with the events of that pass only, the read being the last:
no new command is built and nothing is started afterwards.  In every run, each call of
`cmd.Start` comes right after a read of the stop flag that gave false, and once the flag
has been read as true no call of `cmd.Start` follows.  (A pass that reads the flag as true
before the start calls no `cmd.Start` either; it waits at `<-done` and does not leave the
loop.) -/
theorem run_loop_stops (p : ptpProcess) (cmd : Cmd) (obs : List RunObs)
    (hcmd : p.cmd = some cmd) :
    (∀ (o : RunObs) (rest : List RunObs) (current : Cmd),
      o.pipeError = false → passBlocks o = false → o.stoppedAfterExit = true →
      runLoop p (o :: rest) current = (passEvents p o current, RunEnd.exited) ∧
      hasNewCommand (passEvents p o current) = false ∧
      (passEvents p o current).getLast? = some (RunEvent.readStopped true)) ∧
    (∀ (o : RunObs) (rest : List RunObs) (current : Cmd),
      o.pipeError = false → o.stoppedBeforeStart = true →
      runLoop p (o :: rest) current
        = ([processStatus p.name p.messageTag ProcessStatus.PtpProcessUp,
            RunEvent.readStopped true], RunEnd.blocked)) ∧
    startsGuarded (cmdRun p obs).1 = true ∧
    noStartAfterStop (cmdRun p obs).1 = true := by
  refine ⟨fun o rest current hp hb hs => runLoop_stop p o rest current hp hb hs,
    fun o rest current hp hs => runLoop_blocks p o rest current hp hs, ?_, ?_⟩
  · have hg := runLoop_guarded p obs cmd
    unfold cmdRun
    rw [hcmd]
    simp only
    split
    · exact hg
    · exact hg
    · simp only [startsGuarded] at hg ⊢
      rw [guardedFrom_exit]
      exact hg
  · have hn := runLoop_no_start_after_stop p obs cmd
    unfold cmdRun
    rw [hcmd]
    simp only
    split
    · exact hn
    · exact hn
    · rw [noStartAfterStop_exit]
      exact hn

/-- Witness of C17: a started ptp4l descriptor over three passes, stopped after the third
exit; and a run in which the flag is set just before the second pass reads it. -/
theorem run_loop_stops_witness :
    runningProcess.cmd
      = some { Args := ["/usr/sbin/ptp4l", "-f", "/var/run/ptp4l.0.config", "", "-2", ""],
               Process := some 4711 } ∧
    noStartAfterStop (cmdRun runningProcess threePasses).1 = true ∧
    (cmdRun runningProcess threePasses).2 = RunEnd.exited ∧
    (cmdRun runningProcess threePasses).1.getLast? = some RunEvent.exitSignal ∧
    (cmdRun runningProcess stoppedEarly).2 = RunEnd.blocked ∧
    startArgs (cmdRun runningProcess stoppedEarly).1
      = [["/usr/sbin/ptp4l", "-f", "/var/run/ptp4l.0.config", "", "-2", ""]] :=
  ⟨rfl,
    (run_loop_stops runningProcess _ threePasses rfl).2.2.2,
    by decide, by decide, by decide, by decide⟩

theorem startArgs_passEvents (p : ptpProcess) (o : RunObs) (cmd : Cmd) :
    ∀ a ∈ startArgs (passEvents p o cmd), a = cmd.Args := by
  obtain ⟨pe, sb, pid, oc, sa⟩ := o
  cases sb <;> cases oc <;> cases pid <;>
    simp [passEvents, passBlocks, startArgs, processStatus]

theorem runLoop_argv (p : ptpProcess) (obs : List RunObs) :
    ∀ cmd : Cmd, cmd.Args ≠ [] →
      (runLoop p obs cmd).2 ≠ RunEnd.panicked ∧
      ∀ a ∈ startArgs (runLoop p obs cmd).1, a = cmd.Args := by
  induction obs with
  | nil => intro cmd _; exact ⟨by simp [runLoop], by simp [runLoop, startArgs]⟩
  | cons o rest ih =>
    intro cmd hne
    have hpass := startArgs_passEvents p o cmd
    cases hargs : cmd.Args with
    | nil => exact absurd hargs hne
    | cons arg0 args =>
      obtain ⟨h1, h2⟩ := ih (execCommand arg0 args) (by simp [execCommand])
      rw [hargs] at hpass
      unfold runLoop
      split
      · exact ⟨by simp, by simp [startArgs]⟩
      · split
        · exact ⟨by simp, hpass⟩
        · split
          · exact ⟨by simp, hpass⟩
          · simp only [hargs]
            refine ⟨h1, ?_⟩
            intro a ha
            rw [startArgs_append] at ha
            rcases List.mem_append.mp ha with h | h
            · exact hpass a h
            · have hnext : a ∈ startArgs (runLoop p rest (execCommand arg0 args)).1 := by
                simpa [startArgs] using h
              exact h2 a hnext

/-- The command of a descriptor appended by one iteration of the role loop has a non-empty
argument vector and no process yet. -/
theorem applyRole_cmd (env : Env) (runID : Nat) (dn : Daemon) (nodeProfile : PtpProfile)
    (p : Role) :
    ∃ ds : List ptpProcess,
      (applyRole env runID dn nodeProfile p).1.1.process = dn.process ++ ds ∧
      ∀ d ∈ ds, ∃ c : Cmd, d.cmd = some c ∧ c.Args ≠ [] ∧ c.Process = none := by
  unfold applyRole
  split
  · exact ⟨[], by simp, by simp⟩
  · split
    · exact ⟨[], by simp, by simp⟩
    · split
      · exact ⟨[], by simp, by simp⟩
      · split
        · exact ⟨[], by simp, by simp⟩
        · simp only
          split
          · exact ⟨[], by simp, by simp⟩
          · split
            · exact ⟨[], by simp, by simp⟩
            · refine ⟨[_], rfl, ?_⟩
              intro d hd
              rw [List.mem_singleton] at hd
              subst hd
              exact ⟨_, rfl, by simp [execCommand], rfl⟩

theorem applyRoles_cmd (env : Env) (runID : Nat) (roles : List Role) :
    ∀ (dn : Daemon) (nodeProfile : PtpProfile),
    ∃ ds : List ptpProcess,
      (applyRoles env runID roles dn nodeProfile).1.1.process = dn.process ++ ds ∧
      ∀ d ∈ ds, ∃ c : Cmd, d.cmd = some c ∧ c.Args ≠ [] ∧ c.Process = none := by
  induction roles with
  | nil => intro dn nodeProfile; exact ⟨[], by simp [applyRoles], by simp⟩
  | cons p rest ih =>
    intro dn nodeProfile
    obtain ⟨ds1, h1, h2⟩ := applyRole_cmd env runID dn nodeProfile p
    unfold applyRoles
    split
    · rename_i st e heq
      rw [heq] at h1
      exact ⟨ds1, h1, h2⟩
    · rename_i dn1 profile1 heq
      rw [heq] at h1
      obtain ⟨ds2, g1, g2⟩ := ih dn1 profile1
      refine ⟨ds1 ++ ds2, ?_, ?_⟩
      · rw [g1]
        show dn1.process ++ ds2 = _
        rw [h1, List.append_assoc]
      · intro d hd
        rcases List.mem_append.mp hd with h | h
        · exact h2 d h
        · exact g2 d h

theorem cmdRun_argv (d : ptpProcess) (c : Cmd) (hc : d.cmd = some c) (hargs : c.Args ≠ [])
    (obs : List RunObs) :
    (cmdRun d obs).2 ≠ RunEnd.panicked ∧ ∀ a ∈ startArgs (cmdRun d obs).1, a = c.Args := by
  obtain ⟨h1, h2⟩ := runLoop_argv d obs c hargs
  unfold cmdRun
  rw [hc]
  simp only
  split
  · exact ⟨by simp, h2⟩
  · exact ⟨by simp, h2⟩
  · refine ⟨h1, ?_⟩
    intro a ha
    rw [startArgs_append] at ha
    simp only [startArgs, List.filterMap_cons, List.filterMap_nil, List.append_nil] at ha
    exact h2 a ha

/-- C18: for every descriptor appended by `applyNodePtpProfile` and every run of `cmdRun` on
it, however many restarts it performs, the indexing `Args[0]` / `Args[1:]` never panics and
every call of `cmd.Start` is made on a command whose argument vector is the one built at
construction. -/
theorem restart_keeps_argv (env : Env) (runID : Nat) (dn : Daemon) (nodeProfile : PtpProfile) :
    ∃ added : List ptpProcess,
      (applyNodePtpProfile env runID dn nodeProfile).1.1.process = dn.process ++ added ∧
      ∀ d ∈ added, ∃ c : Cmd, d.cmd = some c ∧ c.Args ≠ [] ∧
        ∀ obs : List RunObs,
          (cmdRun d obs).2 ≠ RunEnd.panicked ∧
          ∀ a ∈ startArgs (cmdRun d obs).1, a = c.Args := by
  obtain ⟨ds, h1, h2⟩ := applyRoles_cmd env runID ptp_processes
    (OnPTPConfigChange dn nodeProfile) nodeProfile
  refine ⟨ds, ?_, ?_⟩
  · unfold applyNodePtpProfile
    split
    · rename_i st e heq
      rw [heq] at h1; exact h1
    · rename_i dn1 profile1 heq
      rw [heq] at h1; exact h1
  · intro d hd
    obtain ⟨c, hc, hargs, _⟩ := h2 d hd
    exact ⟨c, hc, hargs, fun obs => cmdRun_argv d c hc hargs obs⟩

/-- Example for C18: three starts of a ptp4l descriptor, each with the argument vector built
at construction. -/
theorem restart_argv_example :
    startArgs (cmdRun runningProcess threePasses).1
      = [["/usr/sbin/ptp4l", "-f", "/var/run/ptp4l.0.config", "", "-2", ""],
         ["/usr/sbin/ptp4l", "-f", "/var/run/ptp4l.0.config", "", "-2", ""],
         ["/usr/sbin/ptp4l", "-f", "/var/run/ptp4l.0.config", "", "-2", ""]] := by
  decide

/-! ## Profile recommendation -/

theorem mem_setInsert (names : List String) (name n : String) :
    n ∈ setInsert names name ↔ n ∈ names ∨ n = name := by
  unfold setInsert
  split
  · constructor
    · intro h; exact Or.inl h
    · rintro (h | h)
      · exact h
      · subst h; assumption
  · simp

theorem selectRecommend_skip (node : Node) (st : NameSelection) (r : PtpRecommend)
    (h : eligible node r = false) : selectRecommend node st r = some st := by
  unfold selectRecommend
  unfold eligible at h
  cases hp : r.Profile with
  | none => rfl
  | some profile =>
    simp only [hp, Option.isSome_some, Bool.true_and, Bool.and_eq_false_iff,
      decide_eq_false_iff_not, ne_eq, not_not] at h
    rcases h with h | h
    · simp [h]
    · simp [h]

theorem eligible_spec (node : Node) (r : PtpRecommend) (h : eligible node r = true) :
    ∃ profile, r.Profile = some profile ∧ r.Match.length ≠ 0 ∧ nodeMatches node r.Match = true := by
  unfold eligible at h
  simp only [Bool.and_eq_true, decide_eq_true_eq] at h
  obtain ⟨⟨h1, h2⟩, h3⟩ := h
  obtain ⟨profile, hp⟩ := Option.isSome_iff_exists.mp h1
  exact ⟨profile, hp, h2, h3⟩

theorem selectRecommend_first (node : Node) (st : NameSelection) (r : PtpRecommend)
    (profile : String) (pr : Int) (h : eligible node r = true) (hp : r.Profile = some profile)
    (hpr : r.Priority = some pr) (hf : st.foundPolicy = false) :
    selectRecommend node st r =
      some { profilesNames := setInsert st.profilesNames profile, foundPolicy := true,
             priority := pr } := by
  obtain ⟨profile2, hp2, hm, hn⟩ := eligible_spec node r h
  unfold selectRecommend
  simp [hp, hm, hn, hf, hpr]

theorem selectRecommend_later (node : Node) (st : NameSelection) (r : PtpRecommend)
    (profile : String) (pr : Int) (h : eligible node r = true) (hp : r.Profile = some profile)
    (hpr : r.Priority = some pr) (hf : st.foundPolicy = true) :
    selectRecommend node st r =
      if pr = st.priority then
        some { st with profilesNames := setInsert st.profilesNames profile }
      else some st := by
  obtain ⟨profile2, hp2, hm, hn⟩ := eligible_spec node r h
  unfold selectRecommend
  simp [hp, hm, hn, hf, hpr]

/-- Once a policy is found, the loop adds exactly the eligible entries of the found
priority. -/
theorem selectLoop_found (node : Node) :
    ∀ (l : List PtpRecommend) (st : NameSelection), st.foundPolicy = true →
      (∀ r ∈ l, r.Priority ≠ none) →
      ∃ st2, selectLoop node l st = some st2 ∧
        ∀ n, n ∈ st2.profilesNames ↔
          n ∈ st.profilesNames ∨
            ∃ r ∈ l, eligible node r = true ∧ r.Profile = some n ∧
              r.Priority = some st.priority := by
  intro l
  induction l with
  | nil =>
    intro st _ _
    exact ⟨st, rfl, by simp⟩
  | cons r rest ih =>
    intro st hf hpri
    have hrest : ∀ r ∈ rest, r.Priority ≠ none := fun x hx => hpri x (List.mem_cons_of_mem _ hx)
    cases he : eligible node r with
    | false =>
      obtain ⟨st2, h1, h2⟩ := ih st hf hrest
      refine ⟨st2, ?_, ?_⟩
      · simp only [selectLoop, selectRecommend_skip node st r he]; exact h1
      · intro n
        rw [h2 n]
        constructor
        · rintro (h | ⟨x, hx, hx2⟩)
          · exact Or.inl h
          · exact Or.inr ⟨x, List.mem_cons_of_mem _ hx, hx2⟩
        · rintro (h | ⟨x, hx, hx2⟩)
          · exact Or.inl h
          · rcases List.mem_cons.mp hx with hx | hx
            · subst hx; rw [he] at hx2; exact absurd hx2.1 (by simp)
            · exact Or.inr ⟨x, hx, hx2⟩
    | true =>
      obtain ⟨profile, hp, _, _⟩ := eligible_spec node r he
      obtain ⟨pr, hpr⟩ := Option.ne_none_iff_exists'.mp (hpri r (List.mem_cons_self _ _))
      have hstep := selectRecommend_later node st r profile pr he hp hpr hf
      by_cases heq : pr = st.priority
      · rw [if_pos heq] at hstep
        obtain ⟨st2, h1, h2⟩ :=
          ih { st with profilesNames := setInsert st.profilesNames profile } hf hrest
        refine ⟨st2, ?_, ?_⟩
        · simp only [selectLoop, hstep]; exact h1
        · intro n
          rw [h2 n, mem_setInsert]
          constructor
          · rintro ((h | h) | ⟨x, hx, hx2⟩)
            · exact Or.inl h
            · subst h
              exact Or.inr ⟨r, List.mem_cons_self _ _, he, hp, by rw [hpr, heq]⟩
            · exact Or.inr ⟨x, List.mem_cons_of_mem _ hx, hx2⟩
          · rintro (h | ⟨x, hx, hx2⟩)
            · exact Or.inl (Or.inl h)
            · rcases List.mem_cons.mp hx with hx | hx
              · subst hx
                have : some n = some profile := by rw [← hx2.2.1, hp]
                exact Or.inl (Or.inr (Option.some.inj this))
              · exact Or.inr ⟨x, hx, hx2⟩
      · rw [if_neg heq] at hstep
        obtain ⟨st2, h1, h2⟩ := ih st hf hrest
        refine ⟨st2, ?_, ?_⟩
        · simp only [selectLoop, hstep]; exact h1
        · intro n
          rw [h2 n]
          constructor
          · rintro (h | ⟨x, hx, hx2⟩)
            · exact Or.inl h
            · exact Or.inr ⟨x, List.mem_cons_of_mem _ hx, hx2⟩
          · rintro (h | ⟨x, hx, hx2⟩)
            · exact Or.inl h
            · rcases List.mem_cons.mp hx with hx | hx
              · subst hx
                have : some pr = some st.priority := by rw [← hpr, hx2.2.2]
                exact absurd (Option.some.inj this) heq
              · exact Or.inr ⟨x, hx, hx2⟩

/-- Before a policy is found the loop skips the entries that are not eligible; the first
eligible entry fixes the priority. -/
theorem selectLoop_start (node : Node) :
    ∀ (l : List PtpRecommend) (st : NameSelection), st.foundPolicy = false →
      st.profilesNames = [] → (∀ r ∈ l, r.Priority ≠ none) →
      ∃ st2, selectLoop node l st = some st2 ∧
        (((∀ r ∈ l, eligible node r = false) ∧ st2.profilesNames = []) ∨
          ∃ pre r0 post, l = pre ++ r0 :: post ∧ (∀ r ∈ pre, eligible node r = false) ∧
            eligible node r0 = true ∧
            ∀ n, n ∈ st2.profilesNames ↔
              ∃ r ∈ r0 :: post, eligible node r = true ∧ r.Profile = some n ∧
                r.Priority = r0.Priority) := by
  intro l
  induction l with
  | nil =>
    intro st _ hn _
    exact ⟨st, rfl, Or.inl ⟨by simp, hn⟩⟩
  | cons r rest ih =>
    intro st hf hn hpri
    have hrest : ∀ r ∈ rest, r.Priority ≠ none := fun x hx => hpri x (List.mem_cons_of_mem _ hx)
    cases he : eligible node r with
    | false =>
      obtain ⟨st2, h1, h2⟩ := ih st hf hn hrest
      refine ⟨st2, ?_, ?_⟩
      · simp only [selectLoop, selectRecommend_skip node st r he]; exact h1
      · rcases h2 with ⟨h2, h3⟩ | ⟨pre, r0, post, h2, h3, h4, h5⟩
        · left
          refine ⟨?_, h3⟩
          intro x hx
          rcases List.mem_cons.mp hx with hx | hx
          · subst hx; exact he
          · exact h2 x hx
        · right
          refine ⟨r :: pre, r0, post, by rw [h2]; rfl, ?_, h4, h5⟩
          intro x hx
          rcases List.mem_cons.mp hx with hx | hx
          · subst hx; exact he
          · exact h3 x hx
    | true =>
      obtain ⟨profile, hp, _, _⟩ := eligible_spec node r he
      obtain ⟨pr, hpr⟩ := Option.ne_none_iff_exists'.mp (hpri r (List.mem_cons_self _ _))
      have hstep := selectRecommend_first node st r profile pr he hp hpr hf
      obtain ⟨st2, h1, h2⟩ := selectLoop_found node rest
        { profilesNames := setInsert st.profilesNames profile, foundPolicy := true,
          priority := pr } rfl hrest
      refine ⟨st2, ?_, Or.inr ⟨[], r, rest, rfl, by simp, he, ?_⟩⟩
      · simp only [selectLoop, hstep]; exact h1
      · intro n
        rw [h2 n, mem_setInsert, hn]
        constructor
        · rintro ((h | h) | ⟨x, hx, hx2⟩)
          · simp at h
          · subst h
            exact ⟨r, List.mem_cons_self _ _, he, hp, rfl⟩
          · exact ⟨x, List.mem_cons_of_mem _ hx, hx2.1, hx2.2.1, by rw [hx2.2.2, hpr]⟩
        · rintro ⟨x, hx, hx2⟩
          rcases List.mem_cons.mp hx with hx | hx
          · subst hx
            have : some n = some profile := by rw [← hx2.2.1, hp]
            exact Or.inl (Or.inr (Option.some.inj this))
          · exact Or.inr ⟨x, hx, hx2.1, hx2.2.1, by rw [hx2.2.2, hpr]⟩

/-- On any order of the entries that the comparison accepts as sorted, the loop returns the
names of the eligible entries of smallest priority. -/
theorem selectNames_sorted (node : Node) (sorted : List PtpRecommend)
    (hpri : ∀ r ∈ sorted, r.Priority ≠ none)
    (hsorted : sorted.Pairwise (fun a b => recommendLess b a = false)) :
    ∃ names, selectNames node sorted = some names ∧ BestPriorityNames node sorted names ∧
      ((∀ r ∈ sorted, eligible node r = false) → names = []) := by
  obtain ⟨st2, h1, h2⟩ := selectLoop_start node sorted
    { profilesNames := [], foundPolicy := false, priority := -1 } rfl rfl hpri
  refine ⟨st2.profilesNames, by simp only [selectNames, h1, Option.map_some'], ?_, ?_⟩
  · rcases h2 with ⟨h2, h3⟩ | ⟨pre, r0, post, h2, h3, h4, h5⟩
    · intro n
      rw [h3]
      constructor
      · intro h; simp at h
      · rintro ⟨r, hr, he, _⟩
        rw [h2 r hr] at he
        simp at he
    · have hmem0 : r0 ∈ sorted := by rw [h2]; simp
      obtain ⟨p0, hp0⟩ := Option.ne_none_iff_exists'.mp (hpri r0 hmem0)
      have htail : ∀ r ∈ sorted, eligible node r = true → r ∈ r0 :: post := by
        intro r hr he
        rw [h2] at hr
        rcases List.mem_append.mp hr with hr | hr
        · rw [h3 r hr] at he; simp at he
        · exact hr
      have hmin : ∀ r ∈ r0 :: post, ∀ p, r.Priority = some p → p0 ≤ p := by
        intro r hr p hp
        rcases List.mem_cons.mp hr with hr | hr
        · subst hr
          have : some p = some p0 := by rw [← hp, hp0]
          exact le_of_eq (Option.some.inj this).symm
        · rw [h2] at hsorted
          have hpw := (List.pairwise_append.mp hsorted).2.1
          have hrel := (List.pairwise_cons.mp hpw).1 r hr
          unfold recommendLess at hrel
          rw [hp, hp0] at hrel
          simp only [decide_eq_false_iff_not, not_lt] at hrel
          exact hrel
      intro n
      rw [h5 n]
      constructor
      · rintro ⟨r, hr, he, hprof, hprio⟩
        have hrs : r ∈ sorted := by
          rw [h2]; exact List.mem_append_right _ hr
        refine ⟨r, hrs, he, hprof, ?_⟩
        intro r2 hr2 he2 p p2 hp hp2
        have h0 : some p = some p0 := by rw [← hp, hprio, hp0]
        rw [Option.some.inj h0]
        exact hmin r2 (htail r2 hr2 he2) p2 hp2
      · rintro ⟨r, hr, he, hprof, hbest⟩
        refine ⟨r, htail r hr he, he, hprof, ?_⟩
        obtain ⟨p, hp⟩ := Option.ne_none_iff_exists'.mp (hpri r hr)
        have hle1 : p ≤ p0 := hbest r0 hmem0 h4 p p0 hp hp0
        have hle2 : p0 ≤ p := hmin r (htail r hr he) p hp
        rw [hp, hp0, le_antisymm hle1 hle2]
  · intro hnone
    rcases h2 with ⟨_, h3⟩ | ⟨pre, r0, post, h2, _, h4, _⟩
    · exact h3
    · have hmem0 : r0 ∈ sorted := by rw [h2]; simp
      rw [hnone r0 hmem0] at h4
      simp at h4

theorem bestPriorityNames_perm (node : Node) (l1 l2 : List PtpRecommend) (names : List String)
    (hperm : l1.Perm l2) (h : BestPriorityNames node l1 names) :
    BestPriorityNames node l2 names := by
  intro n
  rw [h n]
  constructor
  · rintro ⟨r, hr, he, hp, hb⟩
    exact ⟨r, hperm.mem_iff.mp hr, he, hp, fun r2 hr2 => hb r2 (hperm.mem_iff.mpr hr2)⟩
  · rintro ⟨r, hr, he, hp, hb⟩
    exact ⟨r, hperm.mem_iff.mpr hr, he, hp, fun r2 hr2 => hb r2 (hperm.mem_iff.mp hr2)⟩

theorem recommendLess_total (l : List PtpRecommend) (hpri : ∀ r ∈ l, r.Priority ≠ none) :
    ∀ a ∈ l, ∀ b ∈ l, recommendLess b a = false ∨ recommendLess a b = false := by
  intro a ha b hb
  obtain ⟨pa, hpa⟩ := Option.ne_none_iff_exists'.mp (hpri a ha)
  obtain ⟨pb, hpb⟩ := Option.ne_none_iff_exists'.mp (hpri b hb)
  unfold recommendLess
  rw [hpa, hpb]
  simp only [decide_eq_false_iff_not, not_lt]
  exact le_total pa pb

/-- The insertion sort orders the entries as the comparison asks (on every list of entries,
with or without priorities). -/
theorem insertionSort_recommend_sorted (l : List PtpRecommend) :
    (l.insertionSort (fun a b => recommendLess b a = false)).Pairwise
      (fun a b => recommendLess b a = false) := by
  have htotal : IsTotal PtpRecommend (fun a b => recommendLess b a = false) := by
    constructor
    intro a b
    unfold recommendLess
    cases a.Priority <;> cases b.Priority <;> simp
    exact le_total _ _
  have htrans : IsTrans PtpRecommend (fun a b => recommendLess b a = false) := by
    constructor
    intro a b c
    unfold recommendLess
    cases a.Priority <;> cases b.Priority <;> cases c.Priority <;> simp
    exact fun h1 h2 => le_trans h1 h2
  exact @List.sorted_insertionSort _ (fun a b => recommendLess b a = false) _ htotal htrans l

theorem setInsert_nodup (names : List String) (name : String) (h : names.Nodup) :
    (setInsert names name).Nodup := by
  unfold setInsert
  split
  · exact h
  · rename_i hn
    exact List.Nodup.append h (List.nodup_singleton _) (by simpa using hn)

theorem selectRecommend_nodup (node : Node) (st st2 : NameSelection) (r : PtpRecommend)
    (h : selectRecommend node st r = some st2) (hn : st.profilesNames.Nodup) :
    st2.profilesNames.Nodup := by
  unfold selectRecommend at h
  split at h
  · cases h; exact hn
  · split at h
    · cases h; exact hn
    · split at h
      · cases h; exact hn
      · split at h
        · split at h
          · cases h
          · cases h; exact setInsert_nodup _ _ hn
        · split at h
          · cases h
          · split at h
            · cases h; exact setInsert_nodup _ _ hn
            · cases h; exact hn

theorem selectLoop_nodup (node : Node) :
    ∀ (l : List PtpRecommend) (st st2 : NameSelection), selectLoop node l st = some st2 →
      st.profilesNames.Nodup → st2.profilesNames.Nodup := by
  intro l
  induction l with
  | nil =>
    intro st st2 h hn
    simp only [selectLoop, Option.some.injEq] at h
    rw [← h]; exact hn
  | cons r rest ih =>
    intro st st2 h hn
    simp only [selectLoop] at h
    cases hs : selectRecommend node st r with
    | none => rw [hs] at h; cases h
    | some st1 =>
      rw [hs] at h
      exact ih st1 st2 h (selectRecommend_nodup node st st1 r hs hn)

theorem selectNames_nodup (node : Node) (l : List PtpRecommend) (names : List String)
    (h : selectNames node l = some names) : names.Nodup := by
  unfold selectNames at h
  cases hs : selectLoop node l { profilesNames := [], foundPolicy := false, priority := -1 } with
  | none => rw [hs] at h; cases h
  | some st2 =>
    rw [hs] at h
    simp only [Option.map_some', Option.some.injEq] at h
    rw [← h]
    exact selectLoop_nodup node l _ st2 hs List.nodup_nil

theorem allRecommend_priority (ptpConfigList : List PtpConfig)
    (hpri : ∀ cfg ∈ ptpConfigList, ∀ r ∈ cfg.Spec.Recommend, r.Priority ≠ none) :
    ∀ r ∈ allRecommend ptpConfigList, r.Priority ≠ none := by
  intro r hr
  unfold allRecommend at hr
  obtain ⟨cfg, hcfg, hr2⟩ := List.mem_flatMap.mp hr
  exact hpri cfg hcfg r hr2

/-- C20: for every PtpConfig list and node in which every recommend entry has a priority,
`getRecommendProfilesNames` returns (without a nil dereference) a set of names in which a name
occurs exactly when it is the profile of a recommend entry that has a profile, a non-empty
match list and matches the node, and whose priority is the smallest among all such entries;
the set is empty when no entry matches.  The same holds for every order in which
`sort.Slice` may leave the entries. -/
theorem getRecommendProfilesNames_best (ptpConfigList : List PtpConfig) (node : Node)
    (hpri : ∀ cfg ∈ ptpConfigList, ∀ r ∈ cfg.Spec.Recommend, r.Priority ≠ none) :
    (∃ names, getRecommendProfilesNames ptpConfigList node = some names ∧
      BestPriorityNames node (allRecommend ptpConfigList) names ∧
      names.Nodup ∧
      ((∀ r ∈ allRecommend ptpConfigList, eligible node r = false) → names = [])) ∧
    (∀ sorted : List PtpRecommend, sorted.Perm (allRecommend ptpConfigList) →
      sorted.Pairwise (fun a b => recommendLess b a = false) →
      ∃ names, selectNames node sorted = some names ∧
        BestPriorityNames node (allRecommend ptpConfigList) names ∧
        names.Nodup ∧
        ((∀ r ∈ allRecommend ptpConfigList, eligible node r = false) → names = [])) := by
  have hall := allRecommend_priority ptpConfigList hpri
  have key : ∀ sorted : List PtpRecommend, sorted.Perm (allRecommend ptpConfigList) →
      sorted.Pairwise (fun a b => recommendLess b a = false) →
      ∃ names, selectNames node sorted = some names ∧
        BestPriorityNames node (allRecommend ptpConfigList) names ∧
        names.Nodup ∧
        ((∀ r ∈ allRecommend ptpConfigList, eligible node r = false) → names = []) := by
    intro sorted hperm hsorted
    obtain ⟨names, h1, h2, h3⟩ := selectNames_sorted node sorted
      (fun r hr => hall r (hperm.mem_iff.mp hr)) hsorted
    exact ⟨names, h1, bestPriorityNames_perm node sorted _ names hperm h2,
      selectNames_nodup node sorted names h1,
      fun hnone => h3 (fun r hr => hnone r (hperm.mem_iff.mp hr))⟩
  exact ⟨key _ (List.perm_insertionSort _ _) (insertionSort_recommend_sorted _), key⟩

/-- Witness of C20: two custom resources whose entries all have a priority; on the worker
node the two profiles tied at priority 5 are returned. -/
theorem getRecommendProfilesNames_best_witness :
    (∀ cfg ∈ sampleConfigs, ∀ r ∈ cfg.Spec.Recommend, r.Priority ≠ none) ∧
    getRecommendProfilesNames sampleConfigs workerNode = some ["slave", "grandmaster"] ∧
    ((∃ names, getRecommendProfilesNames sampleConfigs workerNode = some names ∧
      BestPriorityNames workerNode (allRecommend sampleConfigs) names ∧
      names.Nodup ∧
      ((∀ r ∈ allRecommend sampleConfigs, eligible workerNode r = false) → names = [])) ∧
    (∀ sorted : List PtpRecommend, sorted.Perm (allRecommend sampleConfigs) →
      sorted.Pairwise (fun a b => recommendLess b a = false) →
      ∃ names, selectNames workerNode sorted = some names ∧
        BestPriorityNames workerNode (allRecommend sampleConfigs) names ∧
        names.Nodup ∧
        ((∀ r ∈ allRecommend sampleConfigs, eligible workerNode r = false) → names = []))) :=
  ⟨by decide, by decide, getRecommendProfilesNames_best sampleConfigs workerNode (by decide)⟩

/-! ## Matching a node -/

/-- What `nodeMatches` decides for one rule: its node name is set and is the name of the node,
or its node label is set and is a key of the node's labels. -/
theorem nodeMatches_cons (node : Node) (m : MatchRule) (rest : List MatchRule) :
    nodeMatches node (m :: rest) = true ↔
      (m.NodeName = some node.Name ∨ ∃ kv ∈ node.Labels, m.NodeLabel = some kv.1) ∨
        nodeMatches node rest = true := by
  have hdef : nodeMatches node (m :: rest)
      = (if m.NodeName = some node.Name then true
         else if node.Labels.any (fun kv => decide (m.NodeLabel = some kv.1)) then true
         else nodeMatches node rest) := rfl
  rw [hdef]
  by_cases h1 : m.NodeName = some node.Name
  · simp [h1]
  · by_cases h2 : node.Labels.any (fun kv => decide (m.NodeLabel = some kv.1)) = true
    · have h3 : ∃ kv ∈ node.Labels, m.NodeLabel = some kv.1 := by
        simpa [List.any_eq_true] using h2
      simp only [h1, h2, if_true, if_false, true_iff]
      exact Or.inl (Or.inr h3)
    · have h3 : ¬ ∃ kv ∈ node.Labels, m.NodeLabel = some kv.1 := by
        simpa [List.any_eq_true] using h2
      simp only [h1, h2, if_false, false_or, h3]
      simp

/-- C21: `nodeMatches` returns true exactly when some rule of the match list has a non-nil
NodeName equal to the node's name or a non-nil NodeLabel equal to a key of the node's labels;
it returns false for the empty rule list and for rules whose NodeName and NodeLabel are both
nil. -/
theorem nodeMatches_iff (node : Node) (matchRuleList : List MatchRule) :
    (nodeMatches node matchRuleList = true ↔
      ∃ m ∈ matchRuleList,
        m.NodeName = some node.Name ∨ ∃ kv ∈ node.Labels, m.NodeLabel = some kv.1) ∧
    nodeMatches node [] = false ∧
    ((∀ m ∈ matchRuleList, m.NodeName = none ∧ m.NodeLabel = none) →
      nodeMatches node matchRuleList = false) := by
  have hiff : ∀ l : List MatchRule, nodeMatches node l = true ↔
      ∃ m ∈ l, m.NodeName = some node.Name ∨ ∃ kv ∈ node.Labels, m.NodeLabel = some kv.1 := by
    intro l
    induction l with
    | nil => simp [nodeMatches]
    | cons m rest ih =>
      rw [nodeMatches_cons, ih]
      simp only [List.mem_cons, exists_eq_or_imp]
  refine ⟨hiff matchRuleList, rfl, ?_⟩
  intro hnil
  cases hres : nodeMatches node matchRuleList with
  | false => rfl
  | true =>
    obtain ⟨m, hm, hcase⟩ := (hiff matchRuleList).mp hres
    obtain ⟨hn, hl⟩ := hnil m hm
    rcases hcase with h | ⟨kv, _, h⟩
    · rw [hn] at h; cases h
    · rw [hl] at h; cases h

/-- Example for C21: a rule by label matches the worker node, a rule for another node name
does not, and a rule with neither field matches nothing. -/
theorem nodeMatches_examples :
    nodeMatches workerNode
      [{ NodeLabel := some "node-role.kubernetes.io/worker", NodeName := none }] = true ∧
    nodeMatches workerNode [{ NodeLabel := none, NodeName := some "worker-1" }] = false ∧
    nodeMatches workerNode [{ NodeLabel := none, NodeName := none }] = false ∧
    nodeMatches { Name := "worker-0", Labels := [] }
      [{ NodeLabel := some "node-role.kubernetes.io/worker", NodeName := none },
       { NodeLabel := none, NodeName := some "worker-0" }] = true := by
  decide

/-! ## Characters of a decimal rendering; splitting a command line -/

theorem toDigitsCore_chars (P : Char → Prop) (hP : ∀ d : Nat, d < 10 → P (Nat.digitChar d))
    (fuel : Nat) : ∀ (n : Nat) (acc : List Char), (∀ c ∈ acc, P c) →
      ∀ c ∈ Nat.toDigitsCore 10 fuel n acc, P c := by
  induction fuel with
  | zero => intro n acc hacc; simpa [Nat.toDigitsCore] using hacc
  | succ fuel ih =>
    intro n acc hacc
    have hcons : ∀ c ∈ Nat.digitChar (n % 10) :: acc, P c := by
      intro c hc
      rcases List.mem_cons.mp hc with h | h
      · rw [h]; exact hP _ (Nat.mod_lt n (by decide))
      · exact hacc c h
    simp only [Nat.toDigitsCore]
    split
    · exact hcons
    · exact ih (n / 10) _ hcons

/-- Every character of the `%d` rendering of a natural number is a decimal digit, so a
property of the ten digits holds for all of them. -/
theorem sprintNat_chars (P : Char → Prop) (hP : ∀ d : Nat, d < 10 → P (Nat.digitChar d))
    (n : Nat) : ∀ c ∈ (sprintNat n).data, P c := by
  have h := toDigitsCore_chars P hP (n + 1) n [] (by simp)
  simpa [sprintNat, Nat.repr, Nat.toDigits, List.asString] using h

theorem sprintNat_no_blank (n : Nat) : ' ' ∉ (sprintNat n).data := by
  intro h
  exact sprintNat_chars (fun c => c ≠ ' ') (by intro d hd; interval_cases d <;> decide) n _ h rfl

theorem sprintNat_no_bracket (n : Nat) :
    '[' ∉ (sprintNat n).data ∧ ']' ∉ (sprintNat n).data := by
  constructor
  · intro h
    exact sprintNat_chars (fun c => c ≠ '[') (by intro d hd; interval_cases d <;> decide) n _ h rfl
  · intro h
    exact sprintNat_chars (fun c => c ≠ ']') (by intro d hd; interval_cases d <;> decide) n _ h rfl

theorem splitList_no_sep (sep : Char) : ∀ l : List Char, sep ∉ l → splitList sep l = [l] := by
  intro l
  induction l with
  | nil => intro _; rfl
  | cons c rest ih =>
    intro h
    have hc : c ≠ sep := fun e => h (by rw [e]; exact List.mem_cons_self _ _)
    have hrest : sep ∉ rest := fun e => h (List.mem_cons_of_mem _ e)
    simp [splitList, hc, ih hrest]

/-- Splitting distributes over a separator: the pieces of `a ++ sep :: b` are the pieces of
`a` followed by the pieces of `b`. -/
theorem splitList_append_sep (sep : Char) (b : List Char) : ∀ a : List Char,
    splitList sep (a ++ sep :: b) = splitList sep a ++ splitList sep b := by
  intro a
  induction a with
  | nil => simp [splitList]
  | cons c rest ih =>
    by_cases hc : c = sep
    · simp [splitList, hc, ih]
    · have hl : splitList sep (c :: (rest ++ sep :: b))
          = (match splitList sep (rest ++ sep :: b) with
            | [] => [[c]]
            | h :: t => (c :: h) :: t) := by
        simp only [splitList, hc, if_false]
      have hr : splitList sep (c :: rest)
          = (match splitList sep rest with
            | [] => [[c]]
            | h :: t => (c :: h) :: t) := by
        simp only [splitList, hc, if_false]
      rw [List.cons_append, hl, hr, ih]
      cases hsplit : splitList sep rest with
      | nil => exact absurd hsplit (splitList_ne_nil sep rest)
      | cons h t => rfl

theorem stringsSplit_append_sep (a b : String) (sep : Char) :
    stringsSplit (a ++ String.singleton sep ++ b) sep = stringsSplit a sep ++ stringsSplit b sep := by
  unfold stringsSplit
  have hd : (a ++ String.singleton sep ++ b).data = a.data ++ sep :: b.data := by
    simp [String.data_append, String.singleton]
  rw [hd, splitList_append_sep, List.map_append]

theorem stringsSplit_no_sep (s : String) (sep : Char) (h : sep ∉ s.data) :
    stringsSplit s sep = [s] := by
  unfold stringsSplit
  rw [splitList_no_sep sep s.data h]
  rfl

theorem configPath_no_blank (p : Role) (n : Nat) : ' ' ∉ (configPath p n).data := by
  have hn := sprintNat_no_blank n
  cases p <;>
    simp only [configPath, configFile, String.data_append, List.mem_append, not_or] <;>
    exact ⟨by decide, ⟨by decide, hn⟩, by decide⟩

/-- The pieces of the command line of daemon.go 318 at single blanks. -/
theorem baseCmdLine_split (p : Role) (n : Nat) (o : String) :
    stringsSplit (baseCmdLine p (configPath p n) o) ' '
      = ["/usr/sbin/" ++ p.name, "-f", configPath p n, ""] ++ stringsSplit o ' ' ++ [""] := by
  have hshape : baseCmdLine p (configPath p n) o
      = ("/usr/sbin/" ++ p.name) ++ String.singleton ' '
          ++ ("-f" ++ String.singleton ' '
            ++ (configPath p n ++ String.singleton ' '
              ++ ("" ++ String.singleton ' ' ++ (o ++ String.singleton ' ' ++ "")))) := by
    apply String.ext
    simp [baseCmdLine, String.data_append, String.singleton]
  have h1 : ' ' ∉ ("/usr/sbin/" ++ p.name).data := by cases p <;> decide
  rw [hshape, stringsSplit_append_sep, stringsSplit_append_sep, stringsSplit_append_sep,
    stringsSplit_append_sep, stringsSplit_append_sep,
    stringsSplit_no_sep _ _ h1, stringsSplit_no_sep "-f" ' ' (by decide),
    stringsSplit_no_sep _ _ (configPath_no_blank p n),
    stringsSplit_no_sep "" ' ' (by decide)]
  simp

theorem sprintInt_no_blank (q : Int) (h : 0 ≤ q) : ' ' ∉ (sprintInt q).data := by
  obtain ⟨m, rfl⟩ : ∃ m : Nat, q = Int.ofNat m := ⟨q.toNat, by simp; omega⟩
  exact sprintNat_no_blank m

/-- The pieces of a command line under the scheduling wrapper. -/
theorem chrt_split (q : Int) (h : 0 ≤ q) (c : String) :
    stringsSplit ("/bin/chrt -f " ++ sprintInt q ++ " " ++ c) ' '
      = ["/bin/chrt", "-f", sprintInt q] ++ stringsSplit c ' ' := by
  have hshape : "/bin/chrt -f " ++ sprintInt q ++ " " ++ c
      = "/bin/chrt" ++ String.singleton ' '
          ++ ("-f" ++ String.singleton ' ' ++ (sprintInt q ++ String.singleton ' ' ++ c)) := by
    apply String.ext
    simp [String.data_append, String.singleton]
  rw [hshape, stringsSplit_append_sep, stringsSplit_append_sep, stringsSplit_append_sep,
    stringsSplit_no_sep "/bin/chrt" ' ' (by decide), stringsSplit_no_sep "-f" ' ' (by decide),
    stringsSplit_no_sep _ _ (sprintInt_no_blank q h)]
  simp

/-! ## The descriptors an apply builds: tag, label and argument vector -/

theorem addScheduling_congr (a b : PtpProfile) (c : String)
    (hpol : a.PtpSchedulingPolicy = b.PtpSchedulingPolicy)
    (hprio : a.PtpSchedulingPriority = b.PtpSchedulingPriority) :
    addScheduling a c = addScheduling b c := by
  unfold addScheduling
  rw [hpol, hprio]

theorem scheduling_interfaceStep (q : PtpProfile) (out : ptp4lConf) :
    (interfaceStep q out).2.PtpSchedulingPolicy = q.PtpSchedulingPolicy ∧
    (interfaceStep q out).2.PtpSchedulingPriority = q.PtpSchedulingPriority := by
  unfold interfaceStep
  split
  · split <;> exact ⟨rfl, rfl⟩
  · exact ⟨rfl, rfl⟩

theorem scheduling_storeOpts (q : PtpProfile) (p : Role) (v : String) :
    (storeOpts q p v).PtpSchedulingPolicy = q.PtpSchedulingPolicy ∧
    (storeOpts q p v).PtpSchedulingPriority = q.PtpSchedulingPriority := by
  cases p <;> simp only [storeOpts] <;> split <;> exact ⟨rfl, rfl⟩

theorem scheduling_storeConfigInput (q : PtpProfile) (p : Role) (v : String) :
    (storeConfigInput q p v).PtpSchedulingPolicy = q.PtpSchedulingPolicy ∧
    (storeConfigInput q p v).PtpSchedulingPriority = q.PtpSchedulingPriority := by
  cases p <;> simp only [storeConfigInput] <;> split <;> exact ⟨rfl, rfl⟩

theorem addScheduling_stores (q : PtpProfile) (out : ptp4lConf) (p : Role) (v text c : String) :
    addScheduling (storeConfigInput (storeOpts (interfaceStep q out).2 p v) p text) c
      = addScheduling q c := by
  apply addScheduling_congr
  · rw [(scheduling_storeConfigInput _ _ _).1, (scheduling_storeOpts _ _ _).1,
      (scheduling_interfaceStep _ _).1]
  · rw [(scheduling_storeConfigInput _ _ _).2, (scheduling_storeOpts _ _ _).2,
      (scheduling_interfaceStep _ _).2]

/-- The scheduling fields of the profile are the same after an iteration of the role loop. -/
theorem applyRole_scheduling (env : Env) (runID : Nat) (dn : Daemon) (nodeProfile : PtpProfile)
    (p : Role) :
    (applyRole env runID dn nodeProfile p).1.2.PtpSchedulingPolicy
      = nodeProfile.PtpSchedulingPolicy ∧
    (applyRole env runID dn nodeProfile p).1.2.PtpSchedulingPriority
      = nodeProfile.PtpSchedulingPriority := by
  rcases applyRole_profile_shape env runID dn nodeProfile p with h | ⟨opts, text, out, conf, _, _, h⟩
  · rw [h]; exact ⟨rfl, rfl⟩
  · rw [h]
    obtain ⟨a1, a2⟩ := scheduling_storeConfigInput
      (storeOpts (interfaceStep nodeProfile out).2 p (env.ops.addFlagsForMonitor p opts conf).1) p text
    obtain ⟨b1, b2⟩ := scheduling_storeOpts (interfaceStep nodeProfile out).2 p
      (env.ops.addFlagsForMonitor p opts conf).1
    obtain ⟨c1, c2⟩ := scheduling_interfaceStep nodeProfile out
    exact ⟨by rw [a1, b1, c1], by rw [a2, b2, c2]⟩

theorem applyRole_descriptor (env : Env) (runID : Nat) (dn : Daemon) (nodeProfile : PtpProfile)
    (p : Role) :
    ∃ ds : List ptpProcess,
      (applyRole env runID dn nodeProfile p).1.1.process = dn.process ++ ds ∧
      ∀ d ∈ ds, BuiltFor nodeProfile runID p d := by
  unfold applyRole
  split
  · exact ⟨[], by simp, by simp⟩
  · split
    · exact ⟨[], by simp, by simp⟩
    · split
      · exact ⟨[], by simp, by simp⟩
      · split
        · exact ⟨[], by simp, by simp⟩
        · simp only
          split
          · exact ⟨[], by simp, by simp⟩
          · rename_i arg0 args hsplit
            split
            · exact ⟨[], by simp, by simp⟩
            · refine ⟨[_], rfl, ?_⟩
              intro d hd
              rw [List.mem_singleton] at hd
              subst hd
              refine ⟨rfl, rfl, rfl, ?_⟩
              simp only [execCommand, ← hsplit, addScheduling_stores]
              exact ⟨_, rfl⟩

theorem builtFor_congr (a b : PtpProfile) (runID : Nat) (p : Role) (d : ptpProcess)
    (hpol : a.PtpSchedulingPolicy = b.PtpSchedulingPolicy)
    (hprio : a.PtpSchedulingPriority = b.PtpSchedulingPriority)
    (h : BuiltFor a runID p d) : BuiltFor b runID p d := by
  obtain ⟨h1, h2, h3, o, h4⟩ := h
  refine ⟨h1, h2, h3, o, ?_⟩
  rw [h4, addScheduling_congr a b _ hpol hprio]

theorem applyRoles_descriptor (env : Env) (runID : Nat) (roles : List Role) :
    ∀ (dn : Daemon) (nodeProfile : PtpProfile),
    ∃ ds : List ptpProcess,
      (applyRoles env runID roles dn nodeProfile).1.1.process = dn.process ++ ds ∧
      ∀ d ∈ ds, ∃ p ∈ roles, BuiltFor nodeProfile runID p d := by
  induction roles with
  | nil => intro dn nodeProfile; exact ⟨[], by simp [applyRoles], by simp⟩
  | cons p rest ih =>
    intro dn nodeProfile
    obtain ⟨ds1, h1, h2⟩ := applyRole_descriptor env runID dn nodeProfile p
    obtain ⟨s1, s2⟩ := applyRole_scheduling env runID dn nodeProfile p
    unfold applyRoles
    split
    · rename_i st e heq
      rw [heq] at h1
      exact ⟨ds1, h1, fun d hd => ⟨p, List.mem_cons_self _ _, h2 d hd⟩⟩
    · rename_i dn1 profile1 heq
      rw [heq] at h1 s1 s2
      obtain ⟨ds2, g1, g2⟩ := ih dn1 profile1
      refine ⟨ds1 ++ ds2, ?_, ?_⟩
      · rw [g1]
        show dn1.process ++ ds2 = _
        rw [h1, List.append_assoc]
      · intro d hd
        rcases List.mem_append.mp hd with h | h
        · exact ⟨p, List.mem_cons_self _ _, h2 d h⟩
        · obtain ⟨r, hr, hb⟩ := g2 d h
          exact ⟨r, List.mem_cons_of_mem _ hr, builtFor_congr profile1 nodeProfile runID r d s1 s2 hb⟩

/-- Every descriptor appended by `applyNodePtpProfile` is built for one of the three roles. -/
theorem applyNodePtpProfile_descriptor (env : Env) (runID : Nat) (dn : Daemon)
    (nodeProfile : PtpProfile) :
    ∃ added : List ptpProcess,
      (applyNodePtpProfile env runID dn nodeProfile).1.1.process = dn.process ++ added ∧
      ∀ d ∈ added, ∃ p : Role, BuiltFor nodeProfile runID p d := by
  obtain ⟨ds, h1, h2⟩ := applyRoles_descriptor env runID ptp_processes
    (OnPTPConfigChange dn nodeProfile) nodeProfile
  refine ⟨ds, ?_, fun d hd => (h2 d hd).imp (fun _ h => h.2)⟩
  unfold applyNodePtpProfile
  split
  · rename_i st e heq
    rw [heq] at h1; exact h1
  · rename_i dn1 profile1 heq
    rw [heq] at h1; exact h1

theorem removeFirst_absent (c : Char) : ∀ l : List Char, c ∉ l → removeFirst c l = l := by
  intro l
  induction l with
  | nil => intro _; rfl
  | cons x xs ih =>
    intro h
    have hx : x ≠ c := fun e => h (by rw [e]; exact List.mem_cons_self _ _)
    simp [removeFirst, hx, ih (fun e => h (List.mem_cons_of_mem _ e))]

theorem removeFirst_last (c : Char) : ∀ l : List Char, c ∉ l → removeFirst c (l ++ [c]) = l := by
  intro l
  induction l with
  | nil => intro _; simp [removeFirst]
  | cons x xs ih =>
    intro h
    have hx : x ≠ c := fun e => h (by rw [e]; exact List.mem_cons_self _ _)
    simp [removeFirst, hx, ih (fun e => h (List.mem_cons_of_mem _ e))]

/-- The config label `processStatus` derives from a tag "[s]" is `s`, when `s` holds no
closing bracket. -/
theorem processStatus_bracketed (processName s : String) (status : ProcessStatus)
    (h2 : ']' ∉ s.data) :
    processStatus processName ("[" ++ s ++ "]") status
      = RunEvent.processStatus processName s status := by
  have hd : ("[" ++ s ++ "]").data = '[' :: (s.data ++ [']']) := by
    simp [String.data_append]
  have hr : removeFirst ']' ('[' :: (s.data ++ [']'])) = '[' :: s.data := by
    simp [removeFirst, removeFirst_last _ _ h2]
  unfold processStatus
  simp only [hd, hr]
  simp [removeFirst]

theorem label_no_bracket (r : String) (n : Nat) (h2 : ']' ∉ r.data) :
    ']' ∉ (r ++ "." ++ sprintNat n ++ ".config").data := by
  obtain ⟨_, g2⟩ := sprintNat_no_bracket n
  simp only [String.data_append, List.mem_append, not_or]
  exact ⟨⟨⟨h2, by decide⟩, g2⟩, by decide⟩

theorem messageTag_eq (n : Nat) :
    messageTag Role.ptp4l n = "[" ++ ("ptp4l" ++ "." ++ sprintNat n ++ ".config") ++ "]" ∧
    messageTag Role.phc2sys n = "[" ++ ("ptp4l" ++ "." ++ sprintNat n ++ ".config") ++ "]" ∧
    messageTag Role.ts2phc n = "[" ++ ("ts2phc" ++ "." ++ sprintNat n ++ ".config") ++ "]" := by
  refine ⟨?_, ?_, ?_⟩ <;>
    exact String.ext (by simp [messageTag, String.data_append])

/-- C29: for every run id n the descriptors of ptp4l and phc2sys both get the message tag
"[ptp4l.<n>.config]" and ts2phc gets "[ts2phc.<n>.config]"; the config label that
`processStatus` reports (the tag without its first "]" and first "[") is the descriptor's own
config file name for ptp4l and ts2phc, and is "ptp4l.<n>.config", not "phc2sys.<n>.config",
for phc2sys.  Every descriptor appended by `applyNodePtpProfile` carries the tag of its
role. -/
theorem message_tag_label (n : Nat) :
    messageTag Role.ptp4l n = "[ptp4l." ++ sprintNat n ++ ".config]" ∧
    messageTag Role.phc2sys n = "[ptp4l." ++ sprintNat n ++ ".config]" ∧
    messageTag Role.ts2phc n = "[ts2phc." ++ sprintNat n ++ ".config]" ∧
    (∀ (processName : String) (status : ProcessStatus),
      processStatus processName (messageTag Role.ptp4l n) status
        = RunEvent.processStatus processName (configFile Role.ptp4l n) status ∧
      processStatus processName (messageTag Role.ts2phc n) status
        = RunEvent.processStatus processName (configFile Role.ts2phc n) status ∧
      processStatus processName (messageTag Role.phc2sys n) status
        = RunEvent.processStatus processName ("ptp4l." ++ sprintNat n ++ ".config") status) ∧
    configFile Role.phc2sys n ≠ "ptp4l." ++ sprintNat n ++ ".config" ∧
    (∀ (env : Env) (dn : Daemon) (nodeProfile : PtpProfile),
      ∃ added : List ptpProcess,
        (applyNodePtpProfile env n dn nodeProfile).1.1.process = dn.process ++ added ∧
        ∀ d ∈ added, ∃ p : Role,
          d.name = p.name ∧ d.configName = configFile p n ∧ d.messageTag = messageTag p n) := by
  obtain ⟨t1, t2, t3⟩ := messageTag_eq n
  have a2 := label_no_bracket "ptp4l" n (by decide)
  have b2 := label_no_bracket "ts2phc" n (by decide)
  have e1 : "ptp4l" ++ "." ++ sprintNat n ++ ".config" = configFile Role.ptp4l n :=
    (configFile_eq Role.ptp4l n).symm
  have e2 : "ts2phc" ++ "." ++ sprintNat n ++ ".config" = configFile Role.ts2phc n :=
    (configFile_eq Role.ts2phc n).symm
  refine ⟨rfl, rfl, rfl, ?_, ?_, ?_⟩
  · intro processName status
    refine ⟨?_, ?_, ?_⟩
    · rw [t1, processStatus_bracketed _ _ _ a2, e1]
    · rw [t3, processStatus_bracketed _ _ _ b2, e2]
    · rw [t2, processStatus_bracketed _ _ _ a2, e1]
      rfl
  · intro h
    have hd := congrArg String.data h
    simp [configFile, String.data_append] at hd
  · intro env dn nodeProfile
    obtain ⟨added, h1, h2⟩ := applyNodePtpProfile_descriptor env n dn nodeProfile
    refine ⟨added, h1, fun d hd => ?_⟩
    obtain ⟨p, g1, g2, g3, _⟩ := h2 d hd
    exact ⟨p, g1, g3, g2⟩

/-- Example for C29: the labels of run 0. -/
theorem run0_labels :
    processStatus "phc2sys" (messageTag Role.phc2sys 0) ProcessStatus.PtpProcessUp
      = RunEvent.processStatus "phc2sys" "ptp4l.0.config" ProcessStatus.PtpProcessUp ∧
    configFile Role.phc2sys 0 = "phc2sys.0.config" ∧
    processStatus "ts2phc" (messageTag Role.ts2phc 0) ProcessStatus.PtpProcessUp
      = RunEvent.processStatus "ts2phc" "ts2phc.0.config" ProcessStatus.PtpProcessUp := by
  decide

theorem addScheduling_plain (nodeProfile : PtpProfile) (c : String)
    (h : nodeProfile.PtpSchedulingPolicy ≠ some "SCHED_FIFO" ∨
      nodeProfile.PtpSchedulingPriority = none ∨
      ∃ q : Int, nodeProfile.PtpSchedulingPriority = some q ∧ (q < 1 ∨ 65 < q)) :
    addScheduling nodeProfile c = c := by
  unfold addScheduling
  split
  · rcases h with h | h | ⟨q, hq, hr⟩
    · contradiction
    · rw [h]
    · rw [hq]
      simp only
      rw [if_pos (by omega)]
  · rfl

theorem addScheduling_wrapped (nodeProfile : PtpProfile) (c : String) (q : Int)
    (hpol : nodeProfile.PtpSchedulingPolicy = some "SCHED_FIFO")
    (hprio : nodeProfile.PtpSchedulingPriority = some q) (h1 : 1 ≤ q) (h65 : q ≤ 65) :
    addScheduling nodeProfile c = "/bin/chrt -f " ++ sprintInt q ++ " " ++ c := by
  unfold addScheduling
  rw [if_pos hpol, hprio]
  simp only
  rw [if_neg (by omega)]

/-- The two outcomes of `addScheduling`: the command line as it is, or the wrapper for a
priority from 1 to 65. -/
theorem addScheduling_cases (nodeProfile : PtpProfile) (c : String) :
    addScheduling nodeProfile c = c ∨
    ∃ q : Int, 1 ≤ q ∧ q ≤ 65 ∧
      addScheduling nodeProfile c = "/bin/chrt -f " ++ sprintInt q ++ " " ++ c := by
  by_cases hpol : nodeProfile.PtpSchedulingPolicy = some "SCHED_FIFO"
  · cases hprio : nodeProfile.PtpSchedulingPriority with
    | none => exact Or.inl (addScheduling_plain _ _ (Or.inr (Or.inl hprio)))
    | some q =>
      by_cases hr : q < 1 ∨ 65 < q
      · exact Or.inl (addScheduling_plain _ _ (Or.inr (Or.inr ⟨q, hprio, hr⟩)))
      · exact Or.inr ⟨q, by omega, by omega,
          addScheduling_wrapped _ _ q hpol hprio (by omega) (by omega)⟩
  · exact Or.inl (addScheduling_plain _ _ (Or.inl hpol))

theorem getLast_blank (pre l : List String) : (pre ++ l ++ [""]).getLast? = some "" :=
  List.getLast?_concat _


/-- C30: for every role p, run id n and option string o, the split of the command line of
daemon.go 318 is ["/usr/sbin/<p>", "-f", "/var/run/<p>.<n>.config", ""] followed by the
pieces of o at single blanks and a final ""; that is the argument vector when addScheduling
adds no wrapper, and with policy SCHED_FIFO and a priority q from 1 to 65 the vector is the
same one preceded by ["/bin/chrt", "-f", "<q>"].  It is never empty and holds the empty
string after the config path and at the end.  Every descriptor appended by
`applyNodePtpProfile` has such a vector, for the option string the monitoring hook leaves. -/
theorem argv_shape (p : Role) (n : Nat) (o : String) (nodeProfile : PtpProfile) :
    ((nodeProfile.PtpSchedulingPolicy ≠ some "SCHED_FIFO" ∨
        nodeProfile.PtpSchedulingPriority = none ∨
        ∃ q : Int, nodeProfile.PtpSchedulingPriority = some q ∧ (q < 1 ∨ 65 < q)) →
      stringsSplit (addScheduling nodeProfile (baseCmdLine p (configPath p n) o)) ' '
        = ["/usr/sbin/" ++ p.name, "-f", "/var/run/" ++ p.name ++ "." ++ sprintNat n ++ ".config",
            ""] ++ stringsSplit o ' ' ++ [""]) ∧
    (∀ q : Int, nodeProfile.PtpSchedulingPolicy = some "SCHED_FIFO" →
      nodeProfile.PtpSchedulingPriority = some q → 1 ≤ q → q ≤ 65 →
      stringsSplit (addScheduling nodeProfile (baseCmdLine p (configPath p n) o)) ' '
        = ["/bin/chrt", "-f", sprintInt q]
          ++ (["/usr/sbin/" ++ p.name, "-f",
                "/var/run/" ++ p.name ++ "." ++ sprintNat n ++ ".config", ""]
              ++ stringsSplit o ' ' ++ [""])) ∧
    stringsSplit (addScheduling nodeProfile (baseCmdLine p (configPath p n) o)) ' ' ≠ [] ∧
    "" ∈ stringsSplit (addScheduling nodeProfile (baseCmdLine p (configPath p n) o)) ' ' ∧
    (stringsSplit (addScheduling nodeProfile (baseCmdLine p (configPath p n) o)) ' ').getLast?
      = some "" ∧
    (∀ (env : Env) (dn : Daemon),
      ∃ added : List ptpProcess,
        (applyNodePtpProfile env n dn nodeProfile).1.1.process = dn.process ++ added ∧
        ∀ d ∈ added, ∃ (r : Role) (opts : String),
          d.name = r.name ∧
          d.cmd = some { Args := stringsSplit
                           (addScheduling nodeProfile (baseCmdLine r (configPath r n) opts)) ' ',
                         Process := none }) := by
  have hpath : configPath p n = "/var/run/" ++ p.name ++ "." ++ sprintNat n ++ ".config" := by
    cases p <;> exact String.ext (by simp [configPath, configFile, Role.name, String.data_append])
  have hbase := baseCmdLine_split p n o
  rw [hpath] at hbase
  rw [hpath]
  have hcases := addScheduling_cases nodeProfile
    (baseCmdLine p ("/var/run/" ++ p.name ++ "." ++ sprintNat n ++ ".config") o)
  refine ⟨?_, ?_, ?_, ?_, ?_, ?_⟩
  · intro h
    rw [addScheduling_plain nodeProfile _ h]
    exact hbase
  · intro q hpol hprio h1 h65
    rw [addScheduling_wrapped nodeProfile _ q hpol hprio h1 h65, chrt_split q (by omega), hbase]
  · exact stringsSplit_ne_nil _ _
  · rcases hcases with h | ⟨q, h1, _, h⟩
    · rw [h, hbase]; simp
    · rw [h, chrt_split q (by omega), hbase]; simp
  · rcases hcases with h | ⟨q, h1, _, h⟩
    · rw [h, hbase]; exact getLast_blank _ _
    · rw [h, chrt_split q (by omega), hbase, ← List.append_assoc, ← List.append_assoc]
      exact List.getLast?_concat _
  · intro env dn
    obtain ⟨added, h1, h2⟩ := applyNodePtpProfile_descriptor env n dn nodeProfile
    refine ⟨added, h1, fun d hd => ?_⟩
    obtain ⟨r, g1, _, _, opts, g4⟩ := h2 d hd
    exact ⟨r, opts, g1, g4⟩

/-- Example for C30: the argument vector of ptp4l in run 0 with options "-2 -s", without and
with the wrapper of priority 10. -/
theorem argv_example :
    stringsSplit (addScheduling (bareProfile "a")
        (baseCmdLine Role.ptp4l (configPath Role.ptp4l 0) "-2 -s")) ' '
      = ["/usr/sbin/ptp4l", "-f", "/var/run/ptp4l.0.config", "", "-2", "-s", ""] ∧
    stringsSplit (addScheduling (fifoProfile 10)
        (baseCmdLine Role.ptp4l (configPath Role.ptp4l 0) "-2 -s")) ' '
      = ["/bin/chrt", "-f", "10", "/usr/sbin/ptp4l", "-f", "/var/run/ptp4l.0.config", "",
          "-2", "-s", ""] := by
  decide

/-! ## Cipher suites -/

theorem cipherLoop_spec (names : List String) : ∀ suites : List Nat,
    names.foldl
      (fun suites name =>
        if isTLS13 name then suites
        else
          match lookupKey opensslToGoCipher name with
          | some id => suites ++ [id]
          | none => suites)
      suites
    = suites ++ (names.filter supportedCipher).filterMap (lookupKey opensslToGoCipher) := by
  induction names with
  | nil => intro suites; simp
  | cons name rest ih =>
    intro suites
    rw [List.foldl_cons, ih]
    cases h13 : isTLS13 name with
    | true => simp [supportedCipher, h13]
    | false =>
      cases hl : lookupKey opensslToGoCipher name with
      | none => simp [supportedCipher, h13, hl]
      | some id => simp [supportedCipher, h13, hl]

theorem lookupKey_mem {α : Type} (m : List (String × α)) (k : String) (v : α)
    (h : lookupKey m k = some v) : (k, v) ∈ m := by
  induction m with
  | nil => simp [lookupKey] at h
  | cons e rest ih =>
    obtain ⟨k1, v1⟩ := e
    by_cases hk : k1 = k
    · simp only [lookupKey, hk, if_true, Option.some.injEq] at h
      rw [hk, h]; exact List.mem_cons_self _ _
    · simp only [lookupKey, hk, if_false] at h
      exact List.mem_cons_of_mem _ (ih h)

/-- C26: for every list of OpenSSL cipher names, `CipherSuites` returns the Go identifiers of
exactly the input names that are keys of `opensslToGoCipher` and not TLS 1.3 names, in input
order with duplicates kept; a TLS 1.3 name or a name without Go identifier (every name that
starts with "DHE-" is one) contributes nothing, the result is never longer than the input
and it is empty for a list of unsupported names only. -/
theorem CipherSuites_spec (opensslCiphers : List String) :
    CipherSuites opensslCiphers
      = (opensslCiphers.filter supportedCipher).filterMap (lookupKey opensslToGoCipher) ∧
    (CipherSuites opensslCiphers).length = (opensslCiphers.filter supportedCipher).length ∧
    (CipherSuites opensslCiphers).length ≤ opensslCiphers.length ∧
    (∀ (before after : List String) (name : String),
      (isTLS13 name = true ∨ lookupKey opensslToGoCipher name = none) →
      CipherSuites (before ++ name :: after) = CipherSuites (before ++ after)) ∧
    (∀ name : String, "DHE-".data <+: name.data → lookupKey opensslToGoCipher name = none) ∧
    (∀ name : String, isTLS13 name = true → lookupKey opensslToGoCipher name = none) ∧
    ((∀ name ∈ opensslCiphers, isTLS13 name = true ∨ lookupKey opensslToGoCipher name = none) →
      CipherSuites opensslCiphers = []) := by
  have hspec : ∀ l : List String,
      CipherSuites l = (l.filter supportedCipher).filterMap (lookupKey opensslToGoCipher) := by
    intro l
    unfold CipherSuites
    rw [cipherLoop_spec]
    rfl
  have hlen : ∀ l : List String,
      ((l.filter supportedCipher).filterMap (lookupKey opensslToGoCipher)).length
        = (l.filter supportedCipher).length := by
    intro l
    induction l with
    | nil => rfl
    | cons name rest ih =>
      by_cases hs : supportedCipher name = true
      · have hsome : (lookupKey opensslToGoCipher name).isSome = true := by
          unfold supportedCipher at hs
          simp only [Bool.and_eq_true] at hs
          exact hs.1
        obtain ⟨id, hid⟩ := Option.isSome_iff_exists.mp hsome
        simp [List.filter_cons, hs, List.filterMap_cons, hid, ih]
      · simp [List.filter_cons, hs, ih]
  have hunsupported : ∀ name : String,
      (isTLS13 name = true ∨ lookupKey opensslToGoCipher name = none) →
      supportedCipher name = false := by
    intro name h
    unfold supportedCipher
    rcases h with h | h
    · simp [h]
    · simp [h]
  refine ⟨hspec _, ?_, ?_, ?_, ?_, ?_, ?_⟩
  · rw [hspec, hlen]
  · rw [hspec, hlen]
    exact List.length_filter_le _ _
  · intro before after name h
    rw [hspec, hspec]
    simp [List.filter_append, List.filter_cons, hunsupported name h]
  · intro name hpre
    cases hl : lookupKey opensslToGoCipher name with
    | none => rfl
    | some id =>
      exfalso
      have hmem := lookupKey_mem _ _ _ hl
      have hkeys : ∀ kv ∈ opensslToGoCipher, ¬ ("DHE-".data <+: kv.1.data) := by decide
      exact hkeys _ hmem hpre
  · intro name h13
    cases hl : lookupKey opensslToGoCipher name with
    | none => rfl
    | some id =>
      exfalso
      have hmem := lookupKey_mem _ _ _ hl
      have hkeys : ∀ kv ∈ opensslToGoCipher, isTLS13 kv.1 = false := by decide
      have := hkeys _ hmem
      simp only at this
      rw [h13] at this
      cases this
  · intro hall
    rw [hspec]
    have : opensslCiphers.filter supportedCipher = [] := by
      rw [List.filter_eq_nil_iff]
      intro name hname
      rw [hunsupported name (hall name hname)]
      simp
    rw [this]
    rfl

/-- Example for C26: a list with a TLS 1.3 name, two supported names (one of them twice) and
a DHE name. -/
theorem CipherSuites_example :
    CipherSuites ["TLS_AES_128_GCM_SHA256", "ECDHE-RSA-AES128-GCM-SHA256",
        "DHE-RSA-AES128-GCM-SHA256", "AES256-SHA", "ECDHE-RSA-AES128-GCM-SHA256"]
      = [0xc02f, 0x0035, 0xc02f] ∧
    CipherSuites ["DHE-RSA-AES256-GCM-SHA384", "TLS_CHACHA20_POLY1305_SHA256"] = [] := by
  decide

/-! ## Status conditions -/

/-- The loop of the upsert: it finds no entry exactly when no entry has the key, and an
updated list is the stored one with the first entry of that key overwritten. -/
theorem upsertLoop_spec {β : Type} (cond : PtpCondition β) :
    ∀ conds : List (PtpCondition β),
      (upsertLoop cond conds = none → ∀ c ∈ conds, sameKey c cond = false) ∧
      (∀ updated, upsertLoop cond conds = some updated →
        ∃ (pre : List (PtpCondition β)) (c : PtpCondition β) (post : List (PtpCondition β)),
          conds = pre ++ c :: post ∧ (∀ x ∈ pre, sameKey x cond = false) ∧
          sameKey c cond = true ∧ updated = pre ++ cond :: post) := by
  intro conds
  induction conds with
  | nil => exact ⟨fun _ => by simp, fun updated h => by simp [upsertLoop] at h⟩
  | cons c rest ih =>
    obtain ⟨ih1, ih2⟩ := ih
    cases hk : sameKey c cond with
    | true =>
      refine ⟨fun h => by simp [upsertLoop, hk] at h, fun updated h => ?_⟩
      simp only [upsertLoop, hk, if_true, Option.some.injEq] at h
      exact ⟨[], c, rest, rfl, by simp, hk, h.symm⟩
    | false =>
      cases hrest : upsertLoop cond rest with
      | none =>
        refine ⟨fun _ x hx => ?_, fun updated h => by simp [upsertLoop, hk, hrest] at h⟩
        rcases List.mem_cons.mp hx with hx | hx
        · rw [hx]; exact hk
        · exact ih1 hrest x hx
      | some updated0 =>
        refine ⟨fun h => by simp [upsertLoop, hk, hrest] at h, fun updated h => ?_⟩
        simp only [upsertLoop, hk, hrest, Bool.false_eq_true, if_false,
          Option.some.injEq] at h
        obtain ⟨pre, c0, post, g1, g2, g3, g4⟩ := ih2 updated0 hrest
        refine ⟨c :: pre, c0, post, by rw [g1]; rfl, ?_, g3, by rw [← h, g4]; rfl⟩
        intro x hx
        rcases List.mem_cons.mp hx with hx | hx
        · rw [hx]; exact hk
        · exact g2 x hx

theorem upsertLoop_none_of_absent {β : Type} (cond : PtpCondition β) :
    ∀ conds : List (PtpCondition β), (∀ c ∈ conds, sameKey c cond = false) →
      upsertLoop cond conds = none := by
  intro conds
  induction conds with
  | nil => intro _; rfl
  | cons c rest ih =>
    intro h
    simp [upsertLoop, h c (List.mem_cons_self _ _),
      ih (fun x hx => h x (List.mem_cons_of_mem _ hx))]

/-- The upserted list: the stored one with the first entry of the key overwritten, of the
same length, or the stored one followed by the condition. -/
theorem upsertCondition_spec {β : Type} (conds : List (PtpCondition β)) (cond : PtpCondition β) :
    ((∃ c ∈ conds, sameKey c cond = true) →
      ∃ (pre : List (PtpCondition β)) (c : PtpCondition β) (post : List (PtpCondition β)),
        conds = pre ++ c :: post ∧ (∀ x ∈ pre, sameKey x cond = false) ∧
        sameKey c cond = true ∧ upsertCondition conds cond = pre ++ cond :: post) ∧
    ((∀ c ∈ conds, sameKey c cond = false) → upsertCondition conds cond = conds ++ [cond]) := by
  obtain ⟨h1, h2⟩ := upsertLoop_spec cond conds
  constructor
  · rintro ⟨c, hc, hk⟩
    cases hloop : upsertLoop cond conds with
    | none => rw [h1 hloop c hc] at hk; cases hk
    | some updated =>
      obtain ⟨pre, c0, post, g1, g2, g3, g4⟩ := h2 updated hloop
      exact ⟨pre, c0, post, g1, g2, g3, by simp only [upsertCondition, hloop]; exact g4⟩
  · intro h
    simp only [upsertCondition, upsertLoop_none_of_absent cond conds h]

theorem sameKey_iff {β : Type} (c cond : PtpCondition β) :
    sameKey c cond = true ↔
      c.CondType = cond.CondType ∧ c.Profile = cond.Profile ∧ c.Filename = cond.Filename ∧
        c.Process = cond.Process := by
  simp [sameKey, and_assoc]

/-- C24: `UpsertPtpCondition` upserts by the key (Type, Profile, Filename, Process): when the
list after the upsert has at most 100 entries, the list written is that list; if some stored
entry has the key of cond, the first such entry is replaced by cond and the length, the
other entries and their order are as before; otherwise cond is appended as the last entry
and the entries before it are as stored. -/
theorem upsert_by_key {β : Type} (conds : List (PtpCondition β)) (cond : PtpCondition β)
    (hlen : (upsertCondition conds cond).length ≤ maxConditions) :
    writtenConditions conds cond = upsertCondition conds cond ∧
    (∀ c : PtpCondition β, sameKey c cond = true ↔
      c.CondType = cond.CondType ∧ c.Profile = cond.Profile ∧ c.Filename = cond.Filename ∧
        c.Process = cond.Process) ∧
    ((∃ c ∈ conds, sameKey c cond = true) →
      ∃ (pre : List (PtpCondition β)) (c : PtpCondition β) (post : List (PtpCondition β)),
        conds = pre ++ c :: post ∧ (∀ x ∈ pre, sameKey x cond = false) ∧
        sameKey c cond = true ∧ writtenConditions conds cond = pre ++ cond :: post ∧
        (writtenConditions conds cond).length = conds.length) ∧
    ((∀ c ∈ conds, sameKey c cond = false) →
      writtenConditions conds cond = conds ++ [cond]) := by
  have hw : writtenConditions conds cond = upsertCondition conds cond := by
    unfold writtenConditions enforceMaxHistory
    rw [if_neg (by omega)]
  obtain ⟨h1, h2⟩ := upsertCondition_spec conds cond
  refine ⟨hw, fun c => sameKey_iff c cond, ?_, ?_⟩
  · intro hex
    obtain ⟨pre, c, post, g1, g2, g3, g4⟩ := h1 hex
    refine ⟨pre, c, post, g1, g2, g3, by rw [hw, g4], ?_⟩
    rw [hw, g4, g1]
    simp
  · intro hno
    rw [hw, h2 hno]

/-- Witness of C24: the stored list has conditions of ptp4l and phc2sys; the condition of
phc2sys is replaced in place. -/
theorem upsert_by_key_witness :
    (upsertCondition [sampleCondition "ptp4l" "up", sampleCondition "phc2sys" "up"]
      (sampleCondition "phc2sys" "down")).length ≤ maxConditions ∧
    writtenConditions [sampleCondition "ptp4l" "up", sampleCondition "phc2sys" "up"]
        (sampleCondition "phc2sys" "down")
      = [sampleCondition "ptp4l" "up", sampleCondition "phc2sys" "down"] ∧
    writtenConditions [sampleCondition "ptp4l" "up", sampleCondition "phc2sys" "up"]
        (sampleCondition "phc2sys" "down")
      = upsertCondition [sampleCondition "ptp4l" "up", sampleCondition "phc2sys" "up"]
          (sampleCondition "phc2sys" "down") :=
  ⟨by decide, by decide,
    (upsert_by_key [sampleCondition "ptp4l" "up", sampleCondition "phc2sys" "up"]
      (sampleCondition "phc2sys" "down") (by decide)).1⟩

theorem enforceMaxHistory_length {β : Type} (conds : List (PtpCondition β)) :
    (enforceMaxHistory conds).length ≤ maxConditions := by
  unfold enforceMaxHistory
  split
  · rw [List.length_drop]
    have : 0 < maxConditions := by decide
    omega
  · omega

theorem mem_enforce_append {β : Type} (conds : List (PtpCondition β)) (cond : PtpCondition β) :
    cond ∈ enforceMaxHistory (conds ++ [cond]) := by
  unfold enforceMaxHistory
  split
  · rename_i hgt
    have hk : (conds ++ [cond]).length - maxConditions ≤ conds.length := by
      have : 0 < maxConditions := by decide
      simp only [List.length_append, List.length_singleton]
      omega
    rw [List.drop_append_of_le_length hk]
    simp
  · simp

/-- The lists handed to `UpdateStatus` by the attempts are each the cut upsert of what the
attempt fetched. -/
theorem upsertAttempts_written {β : Type} (obs : Nat → AttemptObs β) (cond : PtpCondition β) :
    ∀ (steps i : Nat), ∀ l ∈ (upsertAttempts obs cond steps i).1,
      ∃ (j : Nat) (fetched : List (PtpCondition β)),
        (obs j).fetched = some fetched ∧ l = writtenConditions fetched cond := by
  intro steps
  induction steps with
  | zero => intro i l hl; simp [upsertAttempts] at hl
  | succ steps ih =>
    intro i l hl
    unfold upsertAttempts at hl
    cases hf : (obs i).fetched with
    | none => simp [hf] at hl
    | some conds =>
      simp only [hf] at hl
      split at hl
      · rcases List.mem_cons.mp hl with h | h
        · exact ⟨i, conds, hf, h⟩
        · exact ih (i + 1) l h
      · rw [List.mem_singleton] at hl
        exact ⟨i, conds, hf, hl⟩

/-- C25 (as amended): for every stored condition list, of any length, and every cond, the
list written back has at most 100 entries and is the last 100 entries of the upserted list
when that list is longer than 100 (the upserted list itself otherwise); the upserted list
contains cond, and the written list contains cond when the stored list has at most 100
entries or cond was appended.  The same holds for every list an attempt of
`UpsertPtpCondition` hands to `UpdateStatus`. -/
theorem max_history {β : Type} (conds : List (PtpCondition β)) (cond : PtpCondition β) :
    (writtenConditions conds cond).length ≤ maxConditions ∧
    (maxConditions < (upsertCondition conds cond).length →
      writtenConditions conds cond
        = (upsertCondition conds cond).drop ((upsertCondition conds cond).length - maxConditions)) ∧
    ((upsertCondition conds cond).length ≤ maxConditions →
      writtenConditions conds cond = upsertCondition conds cond) ∧
    cond ∈ upsertCondition conds cond ∧
    (conds.length ≤ maxConditions → cond ∈ writtenConditions conds cond) ∧
    ((∀ c ∈ conds, sameKey c cond = false) → cond ∈ writtenConditions conds cond) ∧
    (∀ (obs : Nat → AttemptObs β), ∀ l ∈ (UpsertPtpCondition obs cond).1,
      l.length ≤ maxConditions ∧
      ∃ (j : Nat) (fetched : List (PtpCondition β)),
        (obs j).fetched = some fetched ∧ l = writtenConditions fetched cond) := by
  obtain ⟨h1, h2⟩ := upsertCondition_spec conds cond
  have hcases : (∃ c ∈ conds, sameKey c cond = true) ∨ ∀ c ∈ conds, sameKey c cond = false := by
    by_cases h : ∃ c ∈ conds, sameKey c cond = true
    · exact Or.inl h
    · right
      intro c hc
      cases hk : sameKey c cond with
      | false => rfl
      | true => exact absurd ⟨c, hc, hk⟩ h
  have happ : (∀ c ∈ conds, sameKey c cond = false) → cond ∈ writtenConditions conds cond := by
    intro hno
    unfold writtenConditions
    rw [h2 hno]
    exact mem_enforce_append conds cond
  refine ⟨enforceMaxHistory_length _, ?_, ?_, ?_, ?_, happ, ?_⟩
  · intro hgt
    unfold writtenConditions enforceMaxHistory
    rw [if_pos hgt]
  · intro hle
    unfold writtenConditions enforceMaxHistory
    rw [if_neg (by omega)]
  · rcases hcases with hex | hno
    · obtain ⟨pre, c, post, _, _, _, g4⟩ := h1 hex
      rw [g4]; simp
    · rw [h2 hno]; simp
  · intro hlen
    rcases hcases with hex | hno
    · obtain ⟨pre, c, post, g1, _, _, g4⟩ := h1 hex
      have hl : (upsertCondition conds cond).length ≤ maxConditions := by
        rw [g4]
        rw [g1] at hlen
        simpa using hlen
      unfold writtenConditions enforceMaxHistory
      rw [if_neg (by omega), g4]
      simp
    · exact happ hno
  · intro obs l hl
    obtain ⟨j, fetched, g1, g2⟩ := upsertAttempts_written obs cond 6 0 l hl
    refine ⟨?_, j, fetched, g1, g2⟩
    rw [g2]
    exact enforceMaxHistory_length _

/-- C25 (counterexample): the stored list has 101 entries and its first entry has the key of
cond; cond replaces that entry, the cut to the last 100 entries drops it, and the list
written back has 100 entries none of which is cond. -/
theorem updated_condition_cut :
    longHistory.length = 101 ∧
    (upsertCondition longHistory (sampleCondition "ptp4l" "new")).head?
      = some (sampleCondition "ptp4l" "new") ∧
    (writtenConditions longHistory (sampleCondition "ptp4l" "new")).length = 100 ∧
    sampleCondition "ptp4l" "new"
      ∉ writtenConditions longHistory (sampleCondition "ptp4l" "new") ∧
    (UpsertPtpCondition
        (fun _ => { fetched := some longHistory, updateFails := false })
        (sampleCondition "ptp4l" "new")).1
      = [List.replicate 100 (sampleCondition "phc2sys" "old")] := by
  decide

/-! ## Resolving a profile reference -/

theorem splitFirst_some (sep : Char) : ∀ (l before after : List Char),
    splitFirst sep l = some (before, after) ↔ l = before ++ sep :: after ∧ sep ∉ before := by
  intro l
  induction l with
  | nil =>
    intro before after
    simp [splitFirst]
  | cons c cs ih =>
    intro before after
    by_cases hc : c = sep
    · subst hc
      simp only [splitFirst, if_true, Option.some.injEq, Prod.mk.injEq]
      constructor
      · rintro ⟨h1, h2⟩
        subst h1 h2
        exact ⟨rfl, by simp⟩
      · rintro ⟨h1, h2⟩
        cases before with
        | nil => simp at h1; exact ⟨rfl, h1⟩
        | cons b bs =>
          simp only [List.cons_append, List.cons.injEq] at h1
          exact absurd (by rw [h1.1]; exact List.mem_cons_self _ _) h2
    · simp only [splitFirst, hc, if_false]
      cases hrest : splitFirst sep cs with
      | none =>
        simp only [false_iff, not_and, reduceCtorEq]
        intro h1 h2
        cases before with
        | nil =>
          simp only [List.nil_append, List.cons.injEq] at h1
          exact hc h1.1
        | cons b bs =>
          simp only [List.cons_append, List.cons.injEq] at h1
          have := (ih bs after).mpr ⟨h1.2, fun h => h2 (List.mem_cons_of_mem _ h)⟩
          rw [hrest] at this
          cases this
      | some pair =>
        obtain ⟨b0, a0⟩ := pair
        obtain ⟨g1, g2⟩ := (ih b0 a0).mp hrest
        simp only [Option.some.injEq, Prod.mk.injEq]
        constructor
        · rintro ⟨h1, h2⟩
          subst h1 h2
          refine ⟨by rw [g1]; rfl, ?_⟩
          intro hmem
          rcases List.mem_cons.mp hmem with h | h
          · exact hc h.symm
          · exact g2 h
        · rintro ⟨h1, h2⟩
          cases before with
          | nil =>
            simp only [List.nil_append, List.cons.injEq] at h1
            exact absurd h1.1 hc
          | cons b bs =>
            simp only [List.cons_append, List.cons.injEq] at h1
            have := (ih bs after).mpr ⟨h1.2, fun h => h2 (List.mem_cons_of_mem _ h)⟩
            rw [hrest] at this
            simp only [Option.some.injEq, Prod.mk.injEq] at this
            exact ⟨by rw [h1.1, this.1], this.2⟩

/-- The first element of a list at which a test succeeds is determined. -/
theorem first_true_unique {α : Type} (test : α → Bool) :
    ∀ (pre pre2 : List α) (c c2 : α) (post post2 : List α),
      pre ++ c :: post = pre2 ++ c2 :: post2 →
      (∀ x ∈ pre, test x = false) → test c = true →
      (∀ x ∈ pre2, test x = false) → test c2 = true → pre = pre2 ∧ c = c2 := by
  intro pre
  induction pre with
  | nil =>
    intro pre2 c c2 post post2 heq _ hc hpre2 _
    cases pre2 with
    | nil => simp at heq; exact ⟨rfl, heq.1⟩
    | cons x xs =>
      simp only [List.nil_append, List.cons_append, List.cons.injEq] at heq
      have := hpre2 x (List.mem_cons_self _ _)
      rw [← heq.1, hc] at this
      cases this
  | cons y ys ih =>
    intro pre2 c c2 post post2 heq hpre hc hpre2 hc2
    cases pre2 with
    | nil =>
      simp only [List.nil_append, List.cons_append, List.cons.injEq] at heq
      have := hpre y (List.mem_cons_self _ _)
      rw [heq.1, hc2] at this
      cases this
    | cons x xs =>
      simp only [List.cons_append, List.cons.injEq] at heq
      obtain ⟨e1, e2⟩ := ih xs c c2 post post2 heq.2
        (fun z hz => hpre z (List.mem_cons_of_mem _ hz)) hc
        (fun z hz => hpre2 z (List.mem_cons_of_mem _ hz)) hc2
      exact ⟨by rw [heq.1, e1], e2⟩

theorem hasProfileNamed_iff (cfg : PtpConfig) (profileName : String) :
    hasProfileNamed cfg profileName = true ↔
      ∃ p ∈ cfg.Spec.Profile, p.Name = some profileName := by
  simp [hasProfileNamed, List.any_eq_true]

theorem profileExistsInCR_iff (crName profileName : String) (ptpConfigList : List PtpConfig) :
    profileExistsInCR crName profileName ptpConfigList = true ↔
      ∃ cfg ∈ ptpConfigList, cfg.Name = crName ∧ hasProfileNamed cfg profileName = true := by
  induction ptpConfigList with
  | nil => simp [profileExistsInCR]
  | cons cfg rest ih =>
    unfold profileExistsInCR
    by_cases hn : cfg.Name = crName
    · by_cases hp : hasProfileNamed cfg profileName = true
      · simp [hn, hp]
      · simp [hn, hp, ih]
    · simp [hn, ih]

/-- The prefix test succeeds exactly when the value is "<cr>_<rest>", split at its first
underscore, and a CR named <cr> has a profile named <rest>. -/
theorem validPrefix_iff (value : String) (ptpConfigList : List PtpConfig) :
    validPrefix value ptpConfigList = true ↔
      ∃ cr rest : String, value = cr ++ "_" ++ rest ∧ '_' ∉ cr.data ∧
        ∃ cfg ∈ ptpConfigList, cfg.Name = cr ∧ ∃ p ∈ cfg.Spec.Profile, p.Name = some rest := by
  unfold validPrefix stringsSplitN2
  cases hs : splitFirst '_' value.data with
  | none =>
    simp only [false_iff, not_exists, not_and, reduceCtorEq]
    intro cr rest hv hcr
    have := (splitFirst_some '_' value.data cr.data rest.data).mpr
      ⟨by rw [hv]; simp [String.data_append], hcr⟩
    rw [hs] at this
    cases this
  | some pair =>
    obtain ⟨before, after⟩ := pair
    obtain ⟨g1, g2⟩ := (splitFirst_some '_' value.data before after).mp hs
    simp only
    rw [profileExistsInCR_iff]
    constructor
    · rintro ⟨cfg, hcfg, hname, hprof⟩
      refine ⟨String.mk before, String.mk after, ?_, g2, cfg, hcfg, hname,
        (hasProfileNamed_iff _ _).mp hprof⟩
      exact String.ext (by rw [g1]; simp [String.data_append])
    · rintro ⟨cr, rest, hv, hcr, cfg, hcfg, hname, hprof⟩
      have := (splitFirst_some '_' value.data cr.data rest.data).mpr
        ⟨by rw [hv]; simp [String.data_append], hcr⟩
      rw [hs] at this
      simp only [Option.some.injEq, Prod.mk.injEq] at this
      refine ⟨cfg, hcfg, ?_, ?_⟩
      · rw [hname]; exact String.ext this.1.symm
      · rw [hasProfileNamed_iff]
        obtain ⟨p, hp, hpn⟩ := hprof
        exact ⟨p, hp, by rw [hpn]; exact congrArg some (String.ext this.2.symm)⟩

/-- The search loop: it finds nothing exactly when no CR has a profile of the name, and what
it finds is the qualified name from the first CR that has one. -/
theorem searchProfile_spec (value : String) : ∀ ptpConfigList : List PtpConfig,
    (searchProfile value ptpConfigList = none ↔
      ∀ cfg ∈ ptpConfigList, hasProfileNamed cfg value = false) ∧
    (∀ qualified, searchProfile value ptpConfigList = some qualified →
      ∃ (pre : List PtpConfig) (cfg : PtpConfig) (post : List PtpConfig),
        ptpConfigList = pre ++ cfg :: post ∧ (∀ c ∈ pre, hasProfileNamed c value = false) ∧
        hasProfileNamed cfg value = true ∧ qualified = qualifyProfileName cfg.Name value) := by
  intro ptpConfigList
  induction ptpConfigList with
  | nil => simp [searchProfile]
  | cons cfg rest ih =>
    obtain ⟨ih1, ih2⟩ := ih
    cases hp : hasProfileNamed cfg value with
    | true =>
      refine ⟨by simp [searchProfile, hp], fun qualified h => ?_⟩
      simp only [searchProfile, hp, if_true, Option.some.injEq] at h
      exact ⟨[], cfg, rest, rfl, by simp, hp, h.symm⟩
    | false =>
      refine ⟨by simp [searchProfile, hp, ih1], fun qualified h => ?_⟩
      simp only [searchProfile, hp, Bool.false_eq_true, if_false] at h
      obtain ⟨pre, c, post, g1, g2, g3, g4⟩ := ih2 qualified h
      refine ⟨cfg :: pre, c, post, by rw [g1]; rfl, ?_, g3, g4⟩
      intro x hx
      rcases List.mem_cons.mp hx with hx | hx
      · rw [hx]; exact hp
      · exact g2 x hx

/-- C27: for every reference value, if the value is "<cr>_<rest>", split at its first
underscore, and a CR named <cr> of the list has a profile named <rest>, `resolveProfileReference`
returns the value unchanged; otherwise, if some CR has a profile whose name is the value, the
result is "<name of the first such CR in list order>_<value>"; otherwise the value is returned
unchanged (and the unresolved-reference condition is set). -/
theorem resolveProfileReference_spec (value : String) (ptpConfigList : List PtpConfig) :
    ((∃ cr rest : String, value = cr ++ "_" ++ rest ∧ '_' ∉ cr.data ∧
        ∃ cfg ∈ ptpConfigList, cfg.Name = cr ∧ ∃ p ∈ cfg.Spec.Profile, p.Name = some rest) →
      resolveProfileReference value ptpConfigList = (value, false)) ∧
    ((¬ ∃ cr rest : String, value = cr ++ "_" ++ rest ∧ '_' ∉ cr.data ∧
        ∃ cfg ∈ ptpConfigList, cfg.Name = cr ∧ ∃ p ∈ cfg.Spec.Profile, p.Name = some rest) →
      (∀ (pre : List PtpConfig) (cfg : PtpConfig) (post : List PtpConfig),
        ptpConfigList = pre ++ cfg :: post →
        (∀ c ∈ pre, ∀ p ∈ c.Spec.Profile, p.Name ≠ some value) →
        (∃ p ∈ cfg.Spec.Profile, p.Name = some value) →
        resolveProfileReference value ptpConfigList = (cfg.Name ++ "_" ++ value, false)) ∧
      ((∀ c ∈ ptpConfigList, ∀ p ∈ c.Spec.Profile, p.Name ≠ some value) →
        resolveProfileReference value ptpConfigList = (value, true))) := by
  have hnot : ∀ c : PtpConfig, hasProfileNamed c value = false ↔
      ∀ p ∈ c.Spec.Profile, p.Name ≠ some value := by
    intro c
    rw [← Bool.not_eq_true, hasProfileNamed_iff]
    simp
  obtain ⟨s1, s2⟩ := searchProfile_spec value ptpConfigList
  constructor
  · intro h
    unfold resolveProfileReference
    rw [if_pos ((validPrefix_iff value ptpConfigList).mpr h)]
  · intro h
    have hv : validPrefix value ptpConfigList = false := by
      rw [← Bool.not_eq_true, validPrefix_iff]
      exact h
    constructor
    · intro pre cfg post hlist hpre hcfg
      unfold resolveProfileReference
      rw [hv]
      cases hs : searchProfile value ptpConfigList with
      | none =>
        exfalso
        have := s1.mp hs cfg (by rw [hlist]; simp)
        rw [hnot] at this
        obtain ⟨p, hp, hpn⟩ := hcfg
        exact this p hp hpn
      | some qualified =>
        obtain ⟨pre2, cfg2, post2, g1, g2, g3, g4⟩ := s2 qualified hs
        have hpre1 : ∀ c ∈ pre, hasProfileNamed c value = false :=
          fun c hc => (hnot c).mpr (hpre c hc)
        have hcfg1 : hasProfileNamed cfg value = true := (hasProfileNamed_iff _ _).mpr hcfg
        have heq : pre = pre2 ∧ cfg = cfg2 :=
          first_true_unique (fun c => hasProfileNamed c value) pre pre2 cfg cfg2 post post2
            (by rw [← hlist, g1]) hpre1 hcfg1 g2 g3
        simp only [if_false, Bool.false_eq_true]
        rw [g4, ← heq.2]
        rfl
    · intro hnone
      unfold resolveProfileReference
      rw [hv]
      have := s1.mpr (fun c hc => (hnot c).mpr (hnone c hc))
      simp [this]

/-- C28: when no CR name of the list contains an underscore, resolving a reference twice
gives what resolving it once gives: a reference that was qualified is not given a second
prefix. -/
theorem resolveProfileReference_idempotent (ptpConfigList : List PtpConfig) (value : String)
    (hnames : ∀ cfg ∈ ptpConfigList, '_' ∉ cfg.Name.data) :
    (resolveProfileReference (resolveProfileReference value ptpConfigList).1 ptpConfigList).1
      = (resolveProfileReference value ptpConfigList).1 := by
  cases hv : validPrefix value ptpConfigList with
  | true =>
    have h1 : resolveProfileReference value ptpConfigList = (value, false) := by
      unfold resolveProfileReference; rw [hv]; rfl
    rw [h1]
    simp only
    rw [h1]
  | false =>
    cases hs : searchProfile value ptpConfigList with
    | none =>
      have h1 : resolveProfileReference value ptpConfigList = (value, true) := by
        unfold resolveProfileReference; rw [hv, hs]; rfl
      rw [h1]
      simp only
      rw [h1]
    | some qualified =>
      have h1 : resolveProfileReference value ptpConfigList = (qualified, false) := by
        unfold resolveProfileReference; rw [hv, hs]; rfl
      rw [h1]
      simp only
      obtain ⟨pre, cfg, post, g1, _, g3, g4⟩ := (searchProfile_spec value ptpConfigList).2 _ hs
      have hcfg : cfg ∈ ptpConfigList := by rw [g1]; simp
      have hq : validPrefix qualified ptpConfigList = true := by
        rw [validPrefix_iff]
        exact ⟨cfg.Name, value, g4, hnames cfg hcfg, cfg, hcfg, rfl,
          (hasProfileNamed_iff _ _).mp g3⟩
      unfold resolveProfileReference
      rw [hq]
      rfl

/-- Witness of C28: the CR names `cr-b` and `cr-a` hold no underscore; the reference
`grandmaster` resolves to `cr-a_grandmaster`, which resolves to itself. -/
theorem resolveProfileReference_idempotent_witness :
    (∀ cfg ∈ profileConfigs, '_' ∉ cfg.Name.data) ∧
    (resolveProfileReference "grandmaster" profileConfigs).1 = "cr-a_grandmaster" ∧
    (resolveProfileReference (resolveProfileReference "grandmaster" profileConfigs).1
        profileConfigs).1
      = (resolveProfileReference "grandmaster" profileConfigs).1 :=
  ⟨by decide, by decide,
    resolveProfileReference_idempotent profileConfigs "grandmaster" (by decide)⟩

/-- Example for C27: a valid prefix, an unqualified name, and a name no CR has. -/
theorem resolveProfileReference_examples :
    resolveProfileReference "cr-a_grandmaster" profileConfigs = ("cr-a_grandmaster", false) ∧
    resolveProfileReference "boundary" profileConfigs = ("cr-b_boundary", false) ∧
    resolveProfileReference "cr-x_boundary" profileConfigs = ("cr-x_boundary", true) := by
  decide

/-! ## The order of profile names -/

theorem lessChars_irrefl : ∀ a : List Char, lessChars a a = false := by
  intro a
  induction a with
  | nil => rfl
  | cons x xs ih => simp [lessChars, ih]

theorem lessChars_asymm : ∀ a b : List Char, lessChars a b = true → lessChars b a = false := by
  intro a
  induction a with
  | nil => intro b _; cases b <;> rfl
  | cons x xs ih =>
    intro b h
    cases b with
    | nil => simp [lessChars] at h
    | cons y ys =>
      simp only [lessChars] at h ⊢
      by_cases h1 : x.toNat < y.toNat
      · rw [if_neg (by omega), if_pos h1]
      · rw [if_neg h1] at h
        by_cases h2 : y.toNat < x.toNat
        · rw [if_pos h2] at h; cases h
        · rw [if_neg h2] at h
          rw [if_neg h2, if_neg h1]
          exact ih ys h

/-- If `c` is below `a`, then every `b` is below `a` or above `c`. -/
theorem lessChars_between : ∀ a b c : List Char, lessChars c a = true →
    lessChars b a = true ∨ lessChars c b = true := by
  intro a
  induction a with
  | nil => intro b c h; cases c <;> simp [lessChars] at h
  | cons x xs ih =>
    intro b c h
    cases b with
    | nil =>
      left; rfl
    | cons y ys =>
      cases c with
      | nil => right; rfl
      | cons z zs =>
        simp only [lessChars] at h ⊢
        by_cases h1 : z.toNat < x.toNat
        · by_cases h2 : y.toNat < x.toNat
          · left; rw [if_pos h2]
          · right; rw [if_pos (by omega)]
        · rw [if_neg h1] at h
          by_cases h3 : x.toNat < z.toNat
          · rw [if_pos h3] at h; cases h
          · rw [if_neg h3] at h
            by_cases h2 : y.toNat < x.toNat
            · left; rw [if_pos h2]
            · by_cases h4 : x.toNat < y.toNat
              · right; rw [if_pos (by omega)]
              · rcases ih ys zs h with g | g
                · left; rw [if_neg h2, if_neg h4]; exact g
                · right; rw [if_neg (by omega), if_neg (by omega)]; exact g

/-- The insertion sort by name leaves the profiles in non-decreasing order of name. -/
theorem insertionSort_names_sorted (l : List PtpProfile) :
    (l.insertionSort (fun a b => profileNameLess b a = false)).Pairwise
      (fun a b => profileNameLess b a = false) := by
  have htotal : IsTotal PtpProfile (fun a b => profileNameLess b a = false) := by
    constructor
    intro a b
    cases h : profileNameLess b a with
    | false => exact Or.inl rfl
    | true => exact Or.inr (lessChars_asymm _ _ h)
  have htrans : IsTrans PtpProfile (fun a b => profileNameLess b a = false) := by
    constructor
    intro a b c hab hbc
    cases h : profileNameLess c a with
    | false => rfl
    | true =>
      rcases lessChars_between _ (b.Name.getD "").data _ h with g | g
      · have : profileNameLess b a = true := g
        rw [hab] at this; cases this
      · have : profileNameLess c b = true := g
        rw [hbc] at this; cases this
  exact @List.sorted_insertionSort _ (fun a b => profileNameLess b a = false) _ htotal htrans l

/-! ## getRecommendProfiles -/

theorem collectProfile_spec (profilesNames : List String) (ptpConfigList : List PtpConfig)
    (cfg : PtpConfig) :
    ∀ (ps : List PtpProfile) (acc : Collected),
      (ps.foldl (collectProfile profilesNames ptpConfigList cfg) acc).profiles
        = acc.profiles ++ ps.filterMap (copyIfRecommended profilesNames ptpConfigList cfg) ∧
      (∀ n, n ∈ (ps.foldl (collectProfile profilesNames ptpConfigList cfg) acc).foundNames ↔
        n ∈ acc.foundNames ∨ (n ∈ profilesNames ∧ ∃ p ∈ ps, p.Name = some n)) ∧
      (acc.foundNames.Nodup →
        (ps.foldl (collectProfile profilesNames ptpConfigList cfg) acc).foundNames.Nodup) := by
  intro ps
  induction ps with
  | nil => intro acc; simp
  | cons p rest ih =>
    intro acc
    rw [List.foldl_cons]
    obtain ⟨h1, h2, h3⟩ := ih (collectProfile profilesNames ptpConfigList cfg acc p)
    cases hn : p.Name with
    | none =>
      have hstep : collectProfile profilesNames ptpConfigList cfg acc p = acc := by
        simp [collectProfile, hn]
      rw [hstep] at h1 h2 h3 ⊢
      refine ⟨?_, ?_, h3⟩
      · rw [h1]; simp [copyIfRecommended, hn]
      · intro n
        rw [h2 n]
        simp [hn]
    | some name =>
      by_cases hmem : name ∈ profilesNames
      · have hstep : collectProfile profilesNames ptpConfigList cfg acc p
            = { profiles := acc.profiles ++ [qualifiedCopy ptpConfigList cfg p name]
                foundNames := setInsert acc.foundNames name } := by
          simp [collectProfile, hn, hmem]
        rw [hstep] at h1 h2 h3 ⊢
        refine ⟨?_, ?_, fun hnd => h3 (setInsert_nodup _ _ hnd)⟩
        · rw [h1]; simp [copyIfRecommended, hn, hmem]
        · intro n
          rw [h2 n]
          simp only [mem_setInsert, List.mem_cons, exists_eq_or_imp, hn, Option.some.injEq]
          constructor
          · rintro ((h | h) | h)
            · exact Or.inl h
            · exact Or.inr ⟨by rw [h]; exact hmem, Or.inl h.symm⟩
            · exact Or.inr ⟨h.1, Or.inr h.2⟩
          · rintro (h | ⟨hm, h | h⟩)
            · exact Or.inl (Or.inl h)
            · exact Or.inl (Or.inr h.symm)
            · exact Or.inr ⟨hm, h⟩
      · have hstep : collectProfile profilesNames ptpConfigList cfg acc p = acc := by
          simp [collectProfile, hn, hmem]
        rw [hstep] at h1 h2 h3 ⊢
        refine ⟨?_, ?_, h3⟩
        · rw [h1]; simp [copyIfRecommended, hn, hmem]
        · intro n
          rw [h2 n]
          simp only [List.mem_cons, exists_eq_or_imp, hn, Option.some.injEq]
          constructor
          · rintro (h | h)
            · exact Or.inl h
            · exact Or.inr ⟨h.1, Or.inr h.2⟩
          · rintro (h | ⟨hm, h | h⟩)
            · exact Or.inl h
            · rw [h] at hmem; exact absurd hm hmem
            · exact Or.inr ⟨hm, h⟩

/-- The two loops of `getRecommendProfiles`: the copies appended, and the names found. -/
theorem collectProfiles_spec (profilesNames : List String) (ptpConfigList : List PtpConfig) :
    ∀ (items : List PtpConfig) (acc : Collected),
      (collectProfiles profilesNames ptpConfigList items acc).profiles
        = acc.profiles ++ items.flatMap (fun cfg =>
            cfg.Spec.Profile.filterMap (copyIfRecommended profilesNames ptpConfigList cfg)) ∧
      (∀ n, n ∈ (collectProfiles profilesNames ptpConfigList items acc).foundNames ↔
        n ∈ acc.foundNames ∨
          (n ∈ profilesNames ∧ ∃ cfg ∈ items, ∃ p ∈ cfg.Spec.Profile, p.Name = some n)) ∧
      (acc.foundNames.Nodup →
        (collectProfiles profilesNames ptpConfigList items acc).foundNames.Nodup) := by
  intro items
  induction items with
  | nil => intro acc; simp [collectProfiles]
  | cons cfg rest ih =>
    intro acc
    obtain ⟨a1, a2, a3⟩ := collectProfile_spec profilesNames ptpConfigList cfg cfg.Spec.Profile acc
    obtain ⟨h1, h2, h3⟩ :=
      ih (cfg.Spec.Profile.foldl (collectProfile profilesNames ptpConfigList cfg) acc)
    have hunfold : collectProfiles profilesNames ptpConfigList (cfg :: rest) acc
        = collectProfiles profilesNames ptpConfigList rest
            (cfg.Spec.Profile.foldl (collectProfile profilesNames ptpConfigList cfg) acc) := rfl
    rw [hunfold]
    refine ⟨?_, ?_, fun hnd => h3 (a3 hnd)⟩
    · rw [h1, a1]; simp
    · intro n
      rw [h2 n, a2 n]
      simp only [List.mem_cons, exists_eq_or_imp]
      constructor
      · rintro ((h | h) | h)
        · exact Or.inl h
        · exact Or.inr ⟨h.1, Or.inl h.2⟩
        · exact Or.inr ⟨h.1, Or.inr h.2⟩
      · rintro (h | ⟨hm, h | h⟩)
        · exact Or.inl (Or.inl h)
        · exact Or.inl (Or.inr ⟨hm, h⟩)
        · exact Or.inr ⟨hm, h⟩

/-- Two duplicate-free lists, one inside the other, have the same length exactly when the
larger is inside the smaller. -/
theorem length_eq_iff_subset (a b : List String) (ha : a.Nodup) (hb : b.Nodup) (hsub : a ⊆ b) :
    a.length = b.length ↔ b ⊆ a := by
  have hab : a.Subperm b := List.subperm_of_subset ha hsub
  constructor
  · intro hlen
    have hperm : a.Perm b := hab.perm_of_length_le (le_of_eq hlen.symm)
    exact hperm.symm.subset
  · intro hba
    have h1 := hab.length_le
    have h2 := (List.subperm_of_subset hb hba).length_le
    omega

theorem copies_names_inner (profilesNames : List String) (ptpConfigList : List PtpConfig)
    (cfg : PtpConfig) : ∀ ps : List PtpProfile,
    (ps.filterMap (copyIfRecommended profilesNames ptpConfigList cfg)).map (fun p => p.Name)
      = ((((ps.filterMap (fun p => p.Name)).filter (fun n => decide (n ∈ profilesNames))).map
          (qualifyProfileName cfg.Name))).map some := by
  intro ps
  induction ps with
  | nil => rfl
  | cons p rest ih =>
    cases hn : p.Name with
    | none => simp [List.filterMap_cons, copyIfRecommended, hn, ih]
    | some name =>
      by_cases hmem : name ∈ profilesNames
      · simp [List.filterMap_cons, copyIfRecommended, hn, hmem, ih, qualifiedCopy]
      · simp [List.filterMap_cons, copyIfRecommended, hn, hmem, ih]

theorem copies_names (profilesNames : List String) (ptpConfigList : List PtpConfig) :
    ∀ items : List PtpConfig,
    (items.flatMap (fun cfg =>
        cfg.Spec.Profile.filterMap (copyIfRecommended profilesNames ptpConfigList cfg))).map
          (fun p => p.Name)
      = (qualifiedNames profilesNames items).map some := by
  intro items
  induction items with
  | nil => rfl
  | cons cfg rest ih =>
    have hq : qualifiedNames profilesNames (cfg :: rest)
        = ((cfg.Spec.Profile.filterMap (fun p => p.Name)).filter
              (fun n => decide (n ∈ profilesNames))).map (qualifyProfileName cfg.Name)
            ++ qualifiedNames profilesNames rest := by
      simp [qualifiedNames, List.flatMap_cons]
    rw [List.flatMap_cons, List.map_append, ih, hq, List.map_append, copies_names_inner]

/-- The names of the copies are the qualified names of the recommended profiles. -/
theorem recommendedCopies_names (profilesNames : List String) (ptpConfigList : List PtpConfig) :
    (recommendedCopies profilesNames ptpConfigList).map (fun p => p.Name)
      = (qualifiedNames profilesNames ptpConfigList).map some :=
  copies_names profilesNames ptpConfigList ptpConfigList

/-- C22: when the recommended names are computed (no nil priority is dereferenced),
`getRecommendProfiles` returns the error exactly when some recommended name is not the name
of any profile of any CR, and it never panics; a returned list is sorted in non-decreasing
order of the qualified name "<CR name>_<profile name>" and holds one entry, the qualified
copy, for every profile of every CR whose unqualified name is a recommended name. -/
theorem getRecommendProfiles_spec (ptpConfigList : List PtpConfig) (node : Node)
    (profilesNames : List String)
    (hnames : getRecommendProfilesNames ptpConfigList node = some profilesNames) :
    (getRecommendProfiles ptpConfigList node = RecommendResult.error ↔
      ∃ n ∈ profilesNames, ∀ cfg ∈ ptpConfigList, ∀ p ∈ cfg.Spec.Profile, p.Name ≠ some n) ∧
    getRecommendProfiles ptpConfigList node ≠ RecommendResult.panic ∧
    (∀ profiles : List PtpProfile,
      getRecommendProfiles ptpConfigList node = RecommendResult.ok profiles →
        profiles.Pairwise
          (fun a b => stringLess (b.Name.getD "") (a.Name.getD "") = false) ∧
        profiles.Perm (recommendedCopies profilesNames ptpConfigList) ∧
        (profiles.map (fun p => p.Name)).Perm
          ((qualifiedNames profilesNames ptpConfigList).map some)) := by
  have hnd : profilesNames.Nodup := selectNames_nodup node _ profilesNames hnames
  obtain ⟨c1, c2, c3⟩ := collectProfiles_spec profilesNames ptpConfigList ptpConfigList
    { profiles := [], foundNames := [] }
  simp only [List.nil_append, List.not_mem_nil, false_or] at c1 c2
  have hfound := c3 List.nodup_nil
  have hsub : (collectProfiles profilesNames ptpConfigList ptpConfigList
      { profiles := [], foundNames := [] }).foundNames ⊆ profilesNames :=
    fun n hn => ((c2 n).mp hn).1
  have hlen := length_eq_iff_subset _ _ hfound hnd hsub
  have hdef : getRecommendProfiles ptpConfigList node
      = if (collectProfiles profilesNames ptpConfigList ptpConfigList
            { profiles := [], foundNames := [] }).foundNames.length ≠ profilesNames.length
        then RecommendResult.error
        else RecommendResult.ok
          ((collectProfiles profilesNames ptpConfigList ptpConfigList
            { profiles := [], foundNames := [] }).profiles.insertionSort
              (fun a b => profileNameLess b a = false)) := by
    unfold getRecommendProfiles
    rw [hnames]
  refine ⟨?_, ?_, ?_⟩
  · rw [hdef]
    constructor
    · intro h
      split at h
      · rename_i hne
        by_contra hall
        apply hne
        rw [hlen]
        intro n hn
        rw [c2 n]
        refine ⟨hn, ?_⟩
        by_contra hno
        apply hall
        refine ⟨n, hn, fun cfg hcfg p hp hpn => hno ⟨cfg, hcfg, p, hp, hpn⟩⟩
      · cases h
    · rintro ⟨n, hn, hno⟩
      rw [if_pos]
      intro heq
      have := (hlen.mp heq) hn
      obtain ⟨_, cfg, hcfg, p, hp, hpn⟩ := (c2 n).mp this
      exact hno cfg hcfg p hp hpn
  · rw [hdef]
    split <;> simp
  · intro profiles hok
    rw [hdef] at hok
    split at hok
    · cases hok
    · simp only [RecommendResult.ok.injEq] at hok
      have hperm : profiles.Perm (recommendedCopies profilesNames ptpConfigList) := by
        rw [← hok]
        have := List.perm_insertionSort (fun a b => profileNameLess b a = false)
          (collectProfiles profilesNames ptpConfigList ptpConfigList
            { profiles := [], foundNames := [] }).profiles
        rw [c1] at this ⊢
        exact this
      refine ⟨?_, hperm, ?_⟩
      · rw [← hok]
        exact insertionSort_names_sorted _
      · rw [← recommendedCopies_names]
        exact hperm.map _

/-- Witness of C22: the two recommended profiles of the worker node, sorted by qualified
name, with the references of the settings resolved. -/
theorem getRecommendProfiles_spec_witness :
    getRecommendProfilesNames profileConfigs workerNode = some ["slave", "grandmaster"] ∧
    getRecommendProfiles profileConfigs workerNode
      = RecommendResult.ok
          [{ namedProfile "grandmaster" [] with Name := some "cr-a_grandmaster" },
           { namedProfile "slave"
               [("controllingProfile", "cr-a_grandmaster"),
                ("haProfiles", "cr-a_grandmaster,cr-b_boundary,missing")] with
             Name := some "cr-b_slave" }] ∧
    getRecommendProfiles profileConfigs workerNode ≠ RecommendResult.panic :=
  ⟨by decide, by decide,
    (getRecommendProfiles_spec profileConfigs workerNode ["slave", "grandmaster"]
      (by decide)).2.1⟩

/-! ## Qualified names -/

theorem qualifyProfileName_data (crName profileName : String) :
    (qualifyProfileName crName profileName).data = crName.data ++ '_' :: profileName.data := by
  simp [qualifyProfileName, ProfileNameSeperator, String.data_append]

/-- Qualified names determine the CR name and the profile name when the CR names hold no
underscore. -/
theorem qualifyProfileName_inj (c1 c2 p1 p2 : String) (h1 : '_' ∉ c1.data) (h2 : '_' ∉ c2.data)
    (h : qualifyProfileName c1 p1 = qualifyProfileName c2 p2) : c1 = c2 ∧ p1 = p2 := by
  have hd := congrArg String.data h
  rw [qualifyProfileName_data, qualifyProfileName_data] at hd
  have e1 := (splitFirst_some '_' _ c1.data p1.data).mpr ⟨rfl, h1⟩
  have e2 := (splitFirst_some '_' _ c2.data p2.data).mpr ⟨rfl, h2⟩
  rw [hd, e2] at e1
  simp only [Option.some.injEq, Prod.mk.injEq] at e1
  exact ⟨String.ext e1.1.symm, String.ext e1.2.symm⟩

theorem qualifyProfileName_right_inj (crName : String) :
    Function.Injective (qualifyProfileName crName) := by
  intro p1 p2 h
  have hd := congrArg String.data h
  rw [qualifyProfileName_data, qualifyProfileName_data] at hd
  have := List.append_cancel_left hd
  simp only [List.cons.injEq, true_and] at this
  exact String.ext this

theorem mem_qualifiedNames (profilesNames : List String) (items : List PtpConfig) (x : String) :
    x ∈ qualifiedNames profilesNames items ↔
      ∃ cfg ∈ items, ∃ n, n ∈ cfg.Spec.Profile.filterMap (fun p => p.Name) ∧
        n ∈ profilesNames ∧ x = qualifyProfileName cfg.Name n := by
  unfold qualifiedNames
  simp only [List.mem_flatMap, List.mem_map, List.mem_filter, decide_eq_true_eq]
  constructor
  · rintro ⟨cfg, hcfg, n, ⟨hn, hm⟩, hx⟩
    exact ⟨cfg, hcfg, n, hn, hm, hx.symm⟩
  · rintro ⟨cfg, hcfg, n, hn, hm, hx⟩
    exact ⟨cfg, hcfg, n, ⟨hn, hm⟩, hx.symm⟩

/-- The qualified names of the recommended profiles are pairwise distinct when the CR names
hold no underscore and are pairwise distinct and the profile names within each CR are
pairwise distinct. -/
theorem qualifiedNames_nodup (profilesNames : List String) :
    ∀ items : List PtpConfig,
      (∀ cfg ∈ items, '_' ∉ cfg.Name.data) →
      (items.map (fun cfg => cfg.Name)).Nodup →
      (∀ cfg ∈ items, (cfg.Spec.Profile.filterMap (fun p => p.Name)).Nodup) →
      (qualifiedNames profilesNames items).Nodup := by
  intro items
  induction items with
  | nil => intro _ _ _; simp [qualifiedNames]
  | cons cfg rest ih =>
    intro hus hcr hprof
    have hq : qualifiedNames profilesNames (cfg :: rest)
        = ((cfg.Spec.Profile.filterMap (fun p => p.Name)).filter
              (fun n => decide (n ∈ profilesNames))).map (qualifyProfileName cfg.Name)
            ++ qualifiedNames profilesNames rest := by
      simp [qualifiedNames, List.flatMap_cons]
    rw [hq, List.nodup_append]
    simp only [List.map_cons, List.nodup_cons] at hcr
    refine ⟨?_, ih (fun c hc => hus c (List.mem_cons_of_mem _ hc)) hcr.2
      (fun c hc => hprof c (List.mem_cons_of_mem _ hc)), ?_⟩
    · exact ((hprof cfg (List.mem_cons_self _ _)).filter _).map
        (qualifyProfileName_right_inj cfg.Name)
    · intro x hx1 hx2
      obtain ⟨n, _, hxn⟩ := List.mem_map.mp hx1
      obtain ⟨cfg2, hcfg2, n2, _, _, hx⟩ := (mem_qualifiedNames _ _ _).mp hx2
      rw [← hxn] at hx
      have hname := (qualifyProfileName_inj cfg.Name cfg2.Name n n2
        (hus cfg (List.mem_cons_self _ _)) (hus cfg2 (List.mem_cons_of_mem _ hcfg2)) hx).1
      exact hcr.1 (List.mem_map.mpr ⟨cfg2, hcfg2, hname.symm⟩)

/-- C23: qualified profile names are unique on the node.  A CR name is the name of a
Kubernetes object, which holds no underscore; for CR names `c1`, `c2` and profile names
`p1`, `p2`, `qualifyProfileName c1 p1 = qualifyProfileName c2 p2` implies `c1 = c2` and
`p1 = p2`; hence when the CR names of the list are pairwise distinct and the profile names
within each CR are pairwise distinct, the names in the list returned by
`getRecommendProfiles` are pairwise distinct. -/
theorem qualified_names_unique (ptpConfigList : List PtpConfig) (node : Node)
    (profiles : List PtpProfile)
    (hus : ∀ cfg ∈ ptpConfigList, '_' ∉ cfg.Name.data)
    (hcr : (ptpConfigList.map (fun cfg => cfg.Name)).Nodup)
    (hprof : ∀ cfg ∈ ptpConfigList, (cfg.Spec.Profile.filterMap (fun p => p.Name)).Nodup)
    (hok : getRecommendProfiles ptpConfigList node = RecommendResult.ok profiles) :
    (∀ c1 c2 p1 p2 : String, '_' ∉ c1.data → '_' ∉ c2.data →
      qualifyProfileName c1 p1 = qualifyProfileName c2 p2 → c1 = c2 ∧ p1 = p2) ∧
    (profiles.map (fun p => p.Name)).Nodup := by
  refine ⟨fun c1 c2 p1 p2 h1 h2 h => qualifyProfileName_inj c1 c2 p1 p2 h1 h2 h, ?_⟩
  cases hnames : getRecommendProfilesNames ptpConfigList node with
  | none =>
    unfold getRecommendProfiles at hok
    rw [hnames] at hok
    cases hok
  | some profilesNames =>
    have hnd : profilesNames.Nodup := selectNames_nodup node _ profilesNames hnames
    obtain ⟨c1, _, _⟩ := collectProfiles_spec profilesNames ptpConfigList ptpConfigList
      { profiles := [], foundNames := [] }
    unfold getRecommendProfiles at hok
    rw [hnames] at hok
    simp only at hok
    split at hok
    · cases hok
    · simp only [RecommendResult.ok.injEq] at hok
      have hperm : profiles.Perm (recommendedCopies profilesNames ptpConfigList) := by
        rw [← hok]
        have := List.perm_insertionSort (fun a b => profileNameLess b a = false)
          (collectProfiles profilesNames ptpConfigList ptpConfigList
            { profiles := [], foundNames := [] }).profiles
        rw [c1] at this ⊢
        exact this
      have hp2 := hperm.map (fun p => p.Name)
      rw [recommendedCopies_names] at hp2
      rw [hp2.nodup_iff]
      exact (qualifiedNames_nodup profilesNames ptpConfigList hus hcr hprof).map
        (Option.some_injective _)

/-- Witness of C23: the CRs `cr-b` and `cr-a` on the worker node. -/
theorem qualified_names_unique_witness :
    (∀ cfg ∈ profileConfigs, '_' ∉ cfg.Name.data) ∧
    (profileConfigs.map (fun cfg => cfg.Name)).Nodup ∧
    (∀ cfg ∈ profileConfigs, (cfg.Spec.Profile.filterMap (fun p => p.Name)).Nodup) ∧
    ([{ namedProfile "grandmaster" [] with Name := some "cr-a_grandmaster" },
      { namedProfile "slave"
          [("controllingProfile", "cr-a_grandmaster"),
           ("haProfiles", "cr-a_grandmaster,cr-b_boundary,missing")] with
        Name := some "cr-b_slave" }].map (fun p => p.Name)).Nodup :=
  ⟨by decide, by decide, by decide,
    (qualified_names_unique profileConfigs workerNode _ (by decide) (by decide) (by decide)
      (by decide)).2⟩

/-! ## A config without a global section (C10) -/

/-- When the config of an active role `p` does not parse, the role loop returns an error
and the roles it has finished by then do not include `p`. -/
theorem applyRoles_parse_fails (env : Env) (runID : Nat) (p : Role) (opts msg : String) :
    ∀ roles : List Role, roles.Nodup → p ∈ roles →
    ∀ (dn : Daemon) (nodeProfile : PtpProfile),
      configOpts nodeProfile p = some opts → opts ≠ "" →
      env.ops.populatePtp4lConf (configInput nodeProfile p) = Except.error msg →
      ∃ (e : ApplyError) (finished : List Role),
        (applyRoles env runID roles dn nodeProfile).2 = some e ∧ p ∉ finished ∧
        writtenPaths (applyRoles env runID roles dn nodeProfile).1.1.log
          = writtenPaths dn.log ++ finished.map (fun r => configPath r runID) ∧
        (applyRoles env runID roles dn nodeProfile).1.1.process.map descriptorKey
          = dn.process.map descriptorKey ++ finished.map (roleKey runID) := by
  intro roles
  induction roles with
  | nil => intro _ hp; cases hp
  | cons r rest ih =>
    intro hnd hp dn nodeProfile hopts hne hparse
    by_cases hrp : r = p
    · subst hrp
      have hfail : applyRole env runID dn nodeProfile r
          = ((dn, nodeProfile), some (ApplyError.parse msg)) := by
        unfold applyRole
        simp only [hopts, hne, hparse, if_false]
      refine ⟨ApplyError.parse msg, [], ?_, by simp, ?_, ?_⟩
      · simp only [applyRoles, hfail]
      · simp only [applyRoles, hfail]; simp
      · simp only [applyRoles, hfail]; simp
    · have hprest : p ∈ rest := by
        rcases List.mem_cons.mp hp with h | h
        · exact absurd h.symm hrp
        · exact h
      have hrest : rest.Nodup := (List.nodup_cons.mp hnd).2
      obtain ⟨s1, _, _, _⟩ := applyRole_strings env runID dn nodeProfile r
      obtain ⟨hci, hro⟩ := s1 p (Ne.symm hrp)
      obtain ⟨profile0, _, hcases⟩ := applyRole_spec env runID dn nodeProfile r
      rcases hcases with ⟨_, hrun⟩ | ⟨_, e, hrun⟩ | ⟨_, d, content, hkey, hrun⟩
      · obtain ⟨e, finished, g1, g2, g3, g4⟩ := ih hrest hprest dn nodeProfile hopts hne hparse
        have happ : applyRoles env runID (r :: rest) dn nodeProfile
            = applyRoles env runID rest dn nodeProfile := by
          simp only [applyRoles, hrun]
        rw [happ]
        exact ⟨e, finished, g1, g2, g3, g4⟩
      · have happ : applyRoles env runID (r :: rest) dn nodeProfile
            = ((dn, profile0), some e) := by
          simp only [applyRoles, hrun]
        rw [happ]
        exact ⟨e, [], rfl, by simp, by simp, by simp⟩
      · rw [hrun] at hci hro
        simp only at hci hro
        have hopts1 : configOpts profile0 p = some opts := by
          rw [configOpts_congr_raw profile0 nodeProfile p hro]; exact hopts
        obtain ⟨e, finished, g1, g2, g3, g4⟩ := ih hrest hprest
          { dn with
            files := mapSet dn.files (configPath r runID) content
            log := dn.log ++ [Event.writeFile (configPath r runID) content]
            process := dn.process ++ [d] } profile0 hopts1 hne (by rw [hci]; exact hparse)
        have happ : applyRoles env runID (r :: rest) dn nodeProfile
            = applyRoles env runID rest
                { dn with
                  files := mapSet dn.files (configPath r runID) content
                  log := dn.log ++ [Event.writeFile (configPath r runID) content]
                  process := dn.process ++ [d] } profile0 := by
          simp only [applyRoles, hrun]
        rw [happ]
        refine ⟨e, r :: finished, g1, ?_, ?_, ?_⟩
        · intro hmem
          rcases List.mem_cons.mp hmem with h | h
          · exact hrp h.symm
          · exact g2 h
        · rw [g3, writtenPaths_append]; simp [writtenPaths]
        · rw [g4]; simp [hkey]

/-- C10: with a parser that requires the global section (section 4.1; config.go is absent
from the sources), for every role with non-empty options whose config has no parsed section
named "[global]" the parser returns an error, the iteration for that role returns it with
the daemon as it was, and `applyNodePtpProfile` returns an error: no descriptor is appended
for that role and no config file is written for it (the descriptors appended and the files
written are those of roles finished before, none of them the role itself). -/
theorem missing_global_fatal (env : Env) (hreq : RequiresGlobal env.ops)
    (runID : Nat) (dn : Daemon) (nodeProfile : PtpProfile) (p : Role) (opts : String)
    (hopts : configOpts nodeProfile p = some opts) (hne : opts ≠ "")
    (hno : ∀ parsed : ptp4lConf,
      env.ops.populatePtp4lConf (configInput nodeProfile p) = Except.ok parsed →
        ∀ s ∈ parsed.sections, s.sectionName ≠ "[global]") :
    (∃ msg : String,
      env.ops.populatePtp4lConf (configInput nodeProfile p) = Except.error msg ∧
      applyRole env runID dn nodeProfile p = ((dn, nodeProfile), some (ApplyError.parse msg))) ∧
    ∃ (e : ApplyError) (finished : List Role),
      (applyNodePtpProfile env runID dn nodeProfile).2 = some e ∧ p ∉ finished ∧
      writtenPaths (applyNodePtpProfile env runID dn nodeProfile).1.1.log
        = writtenPaths dn.log ++ finished.map (fun r => configPath r runID) ∧
      configPath p runID ∉ finished.map (fun r => configPath r runID) ∧
      (applyNodePtpProfile env runID dn nodeProfile).1.1.process.map descriptorKey
        = dn.process.map descriptorKey ++ finished.map (roleKey runID) ∧
      roleKey runID p ∉ finished.map (roleKey runID) := by
  have hfail : ∃ msg : String,
      env.ops.populatePtp4lConf (configInput nodeProfile p) = Except.error msg := by
    cases hparse : env.ops.populatePtp4lConf (configInput nodeProfile p) with
    | error msg => exact ⟨msg, rfl⟩
    | ok parsed =>
      obtain ⟨s, hs, hsn⟩ := hreq _ _ hparse
      exact absurd hsn (hno parsed hparse s hs)
  obtain ⟨msg, hparse⟩ := hfail
  constructor
  · refine ⟨msg, hparse, ?_⟩
    unfold applyRole
    simp only [hopts, hne, hparse, if_false]
  · have hmem : p ∈ ptp_processes := by cases p <;> simp [ptp_processes]
    obtain ⟨e, finished, g1, g2, g3, g4⟩ := applyRoles_parse_fails env runID p opts msg
      ptp_processes ptp_processes_nodup hmem (OnPTPConfigChange dn nodeProfile) nodeProfile
      hopts hne hparse
    have hw : writtenPaths (OnPTPConfigChange dn nodeProfile).log = writtenPaths dn.log := by
      simp [OnPTPConfigChange, writtenPaths_append, writtenPaths_hooks_change]
    have hres : applyNodePtpProfile env runID dn nodeProfile
        = ((applyRoles env runID ptp_processes (OnPTPConfigChange dn nodeProfile) nodeProfile).1,
            some e) := by
      unfold applyNodePtpProfile
      split
      · rename_i st e1 heq
        rw [heq] at g1
        simp only [Option.some.injEq] at g1
        rw [heq, g1]
      · rename_i dn1 profile1 heq
        rw [heq] at g1
        cases g1
    rw [hres]
    refine ⟨e, finished, rfl, g2, ?_, ?_, g4, ?_⟩
    · rw [g3, hw]
    · intro hm
      obtain ⟨r, hr, hrp⟩ := List.mem_map.mp hm
      have : r = p := (configPath_inj r p runID runID hrp).1
      exact g2 (this ▸ hr)
    · intro hm
      obtain ⟨r, hr, hrp⟩ := List.mem_map.mp hm
      have hpath : configPath r runID = configPath p runID := congrArg (fun k => k.2.2) hrp
      have : r = p := (configPath_inj r p runID runID hpath).1
      exact g2 (this ▸ hr)

/-- Witness of C10: the ptp4l config text of the profile has a section for ens1 and no
global section; the parser of the examples rejects it and the call returns the error with
no descriptor and no file. -/
theorem missing_global_fatal_witness :
    RequiresGlobal sampleEnv.ops ∧
    configOpts noGlobalProfile Role.ptp4l = some "-2" ∧
    (applyNodePtpProfile sampleEnv 0 (idleDaemon []) noGlobalProfile).2
      = some (ApplyError.parse "MissingGlobalSection") ∧
    (applyNodePtpProfile sampleEnv 0 (idleDaemon []) noGlobalProfile).1.1.process = [] ∧
    (applyNodePtpProfile sampleEnv 0 (idleDaemon []) noGlobalProfile).1.1.files = [] ∧
    ∃ msg : String,
      sampleEnv.ops.populatePtp4lConf (configInput noGlobalProfile Role.ptp4l)
        = Except.error msg ∧
      applyRole sampleEnv 0 (idleDaemon []) noGlobalProfile Role.ptp4l
        = ((idleDaemon [], noGlobalProfile), some (ApplyError.parse msg)) :=
  ⟨sampleOps_requires_global, rfl, by decide, by decide, by decide,
    (missing_global_fatal sampleEnv sampleOps_requires_global 0 (idleDaemon []) noGlobalProfile
      Role.ptp4l "-2" rfl (by decide)
      (fun parsed h => by
        have hfail : sampleEnv.ops.populatePtp4lConf (configInput noGlobalProfile Role.ptp4l)
            = Except.error "MissingGlobalSection" := rfl
        rw [hfail] at h
        cases h)).1⟩

end PtpDaemon
